import Mathlib

/-!
# NeoMutt sidebar: registry, visibility filter, sorter, navigator, viewport

A shallow embedding of the list/viewport engine of `sidebar.c`.

* The module-level variables `Entries`, `EntryLen`, `TopIndex`, `OpnIndex`,
  `HilIndex`, `BotIndex` and `PreviousSort` are the fields of `State`;
  `EntryCount` is the length of `Entries`.
* `Entries` is an array of pointers to `SbEntry` objects.  A cell is modelled
  by the pointer (`addr`) together with the fields of the object it points to;
  the cells of the array hold pairwise distinct pointers.  The formatted name
  `box` is only written while drawing and is left out.
* A `struct Mailbox *` is an address; the mailbox objects themselves are owned
  by the rest of the program and are read through `Env.mbox`.
* C `int` is modelled by `Int`.  The index arithmetic stays below
  `2 * EntryCount` and `page_size`, so it cannot overflow while `EntryCount`
  is at most `2^30`; the subtraction in the comparator, where wrap-around is
  visible, is taken modulo `2^32`.
* A read of `Entries[i]` outside `0 .. EntryCount-1` is undefined in C; the
  functions that may perform one return `Option`, with `none` for that case.
  Loops carry a fuel argument and the callers pass enough fuel.
-/

namespace Sidebar

/-- An address (the value of a C pointer). -/
abbrev Ptr := Nat

/-- The fields of `struct Mailbox` that the sidebar reads. -/
structure Mailbox where
  path : String
  realpath : String
  desc : Option String
  msg_count : Int
  msg_unread : Int
  msg_flagged : Int
  has_new : Bool
deriving DecidableEq

/-- Info about folders in the sidebar (`struct SbEntry`), with the address of
the object itself. -/
structure SbEntry where
  addr : Ptr
  mailbox : Ptr
  is_hidden : Bool
deriving DecidableEq

/-- The constants of `sort.h` used by the sidebar; the header is not part of
the sources, so the values are parameters. -/
structure SortConsts where
  SORT_ORDER : Nat
  SORT_COUNT : Nat
  SORT_UNREAD : Nat
  SORT_FLAGGED : Nat
  SORT_PATH : Nat
  SORT_DESC : Nat
  SORT_MASK : Nat
  SORT_REVERSE : Nat

/-- Everything the sidebar reads but does not own: configuration variables,
the global `Context` (its mailbox, when there is one), the mailbox list, the
mailbox objects, and the library comparison functions. -/
structure Env where
  SidebarNewMailOnly : Bool
  SidebarNextNewWrap : Bool
  SidebarVisible : Bool
  SidebarSortMethod : Nat
  SidebarWhitelist : List String
  Context : Option Ptr
  AllMailboxes : List Ptr
  mbox : Ptr → Mailbox
  consts : SortConsts
  mutt_str_strcoll : String → String → Int
  mutt_inbox_cmp : String → String → Int

/-- The C library `qsort`: its algorithm is unspecified, so it is a parameter;
all that is assumed is that it rearranges the array. -/
structure Qsort where
  sort : (SbEntry → SbEntry → Int) → List SbEntry → List SbEntry
  perm : ∀ (cmp : SbEntry → SbEntry → Int) (l : List SbEntry), (sort cmp l).Perm l

/-- The module-level variables of `sidebar.c`, and the redraw request made
through `mutt_menu_set_current_redraw`. -/
structure State where
  Entries : List SbEntry
  EntryLen : Nat
  TopIndex : Int
  OpnIndex : Int
  HilIndex : Int
  BotIndex : Int
  PreviousSort : Nat
  redraw : Bool
deriving DecidableEq

/-- The number of entries, `EntryCount`. -/
def State.EntryCount (s : State) : Int := s.Entries.length

/-- The initial values of the module-level variables. -/
def State.init (c : SortConsts) : State :=
  { Entries := [], EntryLen := 0, TopIndex := -1, OpnIndex := -1, HilIndex := -1,
    BotIndex := -1, PreviousSort := c.SORT_ORDER, redraw := false }

/-- The read `Entries[i]`; `none` when `i` is outside the array. -/
def entryAt (Entries : List SbEntry) (i : Int) : Option SbEntry :=
  if i < 0 then none else Entries[i.toNat]?

/-- Modelled from the spec: mutt_str_strcmp (mutt/string.c is not among the
sources), the lexicographic compare of two strings, a NULL string counting as
the empty string. -/
def mutt_str_strcmp (a b : Option String) : Int :=
  match compare (a.getD "") (b.getD "") with
  | .lt => -1
  | .eq => 0
  | .gt => 1

/-- Modelled from the spec: mutt_list_find (mutt/list.c is not among the
sources), whether a string is present in the always-show allow-list; an absent
string is never present. -/
def mutt_list_find (h : List String) (data : Option String) : Bool :=
  match data with
  | none => false
  | some d => h.contains d

/-- The allocator `mutt_mem_calloc`: a non-null address different from that of
every live entry. -/
def mutt_mem_calloc (Entries : List SbEntry) : Ptr :=
  (Entries.map SbEntry.addr).foldr max 0 + 1

/-- The test `Context && (mutt_str_strcmp(m->realpath, Context->mailbox->realpath) == 0)`. -/
def context_matches (env : Env) (m : Ptr) : Bool :=
  match env.Context with
  | none => false
  | some c => mutt_str_strcmp (some (env.mbox m).realpath) (some (env.mbox c).realpath) == 0

/-- A C `int` result taken modulo `2^32` (two's complement). -/
def wrap_int (x : Int) : Int := (x + 2147483648) % 4294967296 - 2147483648

/-- qsort callback to sort SbEntry's. -/
def cb_qsort_sbe (env : Env) (sbe1 sbe2 : SbEntry) : Int :=
  let m1 := env.mbox sbe1.mailbox
  let m2 := env.mbox sbe2.mailbox
  let c := env.consts
  let ssm := env.SidebarSortMethod &&& c.SORT_MASK
  let result : Int :=
    if ssm = c.SORT_COUNT then
      if m2.msg_count = m1.msg_count then env.mutt_str_strcoll m1.path m2.path
      else wrap_int (m2.msg_count - m1.msg_count)
    else if ssm = c.SORT_UNREAD then
      if m2.msg_unread = m1.msg_unread then env.mutt_str_strcoll m1.path m2.path
      else wrap_int (m2.msg_unread - m1.msg_unread)
    else if ssm = c.SORT_DESC then
      mutt_str_strcmp m1.desc m2.desc
    else if ssm = c.SORT_FLAGGED then
      if m2.msg_flagged = m1.msg_flagged then env.mutt_str_strcoll m1.path m2.path
      else wrap_int (m2.msg_flagged - m1.msg_flagged)
    else if ssm = c.SORT_PATH then
      let r := env.mutt_inbox_cmp m1.path m2.path
      if r = 0 then env.mutt_str_strcoll m1.path m2.path else r
    else 0
  if env.SidebarSortMethod &&& c.SORT_REVERSE ≠ 0 then wrap_int (-result) else result

/-- The body of the loop of `update_entries_visibility` for the entry at index `i`. -/
def visibility_of (env : Env) (OpnIndex : Int) (i : Nat) (sbe : SbEntry) : SbEntry :=
  let m := env.mbox sbe.mailbox
  if !env.SidebarNewMailOnly then { sbe with is_hidden := false }
  else if (i : Int) = OpnIndex ∨ m.msg_unread > 0 ∨ m.has_new = true ∨ m.msg_flagged > 0 then
    { sbe with is_hidden := false }
  else if context_matches env sbe.mailbox then { sbe with is_hidden := false }
  else if mutt_list_find env.SidebarWhitelist (some m.path) ||
      mutt_list_find env.SidebarWhitelist m.desc then
    { sbe with is_hidden := false }
  else { sbe with is_hidden := true }

/-- Should a sidebar_entry be displayed in the sidebar. -/
def update_entries_visibility (env : Env) (s : State) : State :=
  { s with Entries := s.Entries.mapIdx (visibility_of env s.OpnIndex) }

/-- The exchange of `Entries[i]` and `Entries[j]`. -/
def swap_entries (Entries : List SbEntry) (i j : Nat) : List SbEntry :=
  match Entries[i]?, Entries[j]? with
  | some tmp, some ej => (Entries.set i ej).set j tmp
  | _, _ => Entries

/-- One iteration of the loop of `unsort_entries` over `AllMailboxes`, on the
pair of the array and the counter `i`.  Once `i >= EntryCount` the loop is
left; as neither changes any more, that is the same as doing nothing for the
rest of the list. -/
def unsort_step (st : List SbEntry × Nat) (np : Ptr) : List SbEntry × Nat :=
  let Entries := st.1
  let i := st.2
  if i ≥ Entries.length then st
  else
    let j := i + (Entries.drop i).findIdx (fun e => e.mailbox == np)
    if j < Entries.length then
      (if j ≠ i then swap_entries Entries i j else Entries, i + 1)
    else st

/-- Restore Entries array order to match Mailbox list order. -/
def unsort_entries (env : Env) (s : State) : State :=
  { s with Entries := (env.AllMailboxes.foldl unsort_step (s.Entries, 0)).1 }

/-- Sort Entries array. -/
def sort_entries (env : Env) (q : Qsort) (s : State) : State :=
  let c := env.consts
  let ssm := env.SidebarSortMethod &&& c.SORT_MASK
  if ssm = c.SORT_COUNT ∨ ssm = c.SORT_UNREAD ∨ ssm = c.SORT_FLAGGED ∨ ssm = c.SORT_PATH then
    { s with Entries := q.sort (cb_qsort_sbe env) s.Entries }
  else if ssm = c.SORT_ORDER ∧ env.SidebarSortMethod ≠ s.PreviousSort then
    unsort_entries env s
  else s

/-- The do-while loop of `select_next`, entered with the value of `entry`
before the increment.  The result is `none` for an undefined read, `some none`
for `return false`, and `some (some entry)` when the loop is left. -/
def select_next_loop (Entries : List SbEntry) : Nat → Int → Option (Option Int)
  | 0, _ => none
  | fuel + 1, entry =>
    let entry := entry + 1
    if entry = (Entries.length : Int) then some none
    else
      match entryAt Entries entry with
      | none => none
      | some sbe => if sbe.is_hidden then select_next_loop Entries fuel entry else some (some entry)

/-- Selects the next unhidden mailbox. -/
def select_next (s : State) : Option (Bool × State) :=
  if s.Entries.length = 0 ∨ s.HilIndex < 0 then some (false, s)
  else
    match select_next_loop s.Entries (s.Entries.length + 1) s.HilIndex with
    | none => none
    | some none => some (false, s)
    | some (some entry) => some (true, { s with HilIndex := entry })

/-- The do-while loop of `select_prev`, entered with the value of `entry`
before the decrement; results as for `select_next_loop`. -/
def select_prev_loop (Entries : List SbEntry) : Nat → Int → Option (Option Int)
  | 0, _ => none
  | fuel + 1, entry =>
    let entry := entry - 1
    if entry < 0 then some none
    else
      match entryAt Entries entry with
      | none => none
      | some sbe => if sbe.is_hidden then select_prev_loop Entries fuel entry else some (some entry)

/-- Selects the previous unhidden mailbox. -/
def select_prev (s : State) : Option (Bool × State) :=
  if s.Entries.length = 0 ∨ s.HilIndex < 0 then some (false, s)
  else
    match select_prev_loop s.Entries (s.Entries.length + 1) s.HilIndex with
    | none => none
    | some none => some (false, s)
    | some (some entry) => some (true, { s with HilIndex := entry })

/-- The stop condition of the scans for new mail: the loop goes on
`while (!mailbox->has_new && (mailbox->msg_unread == 0))`. -/
def has_new_mail (env : Env) (sbe : SbEntry) : Bool :=
  (env.mbox sbe.mailbox).has_new || decide ((env.mbox sbe.mailbox).msg_unread ≠ 0)

/-- The do-while loop of `select_next_new`, entered with the value of `entry`
before the increment; results as for `select_next_loop`. -/
def select_next_new_loop (env : Env) (Entries : List SbEntry) (HilIndex : Int) :
    Nat → Int → Option (Option Int)
  | 0, _ => none
  | fuel + 1, entry =>
    let entry := entry + 1
    let wrapped : Option Int :=
      if entry = (Entries.length : Int) then
        if env.SidebarNextNewWrap then some 0 else none
      else some entry
    match wrapped with
    | none => some none
    | some entry =>
      if entry = HilIndex then some none
      else
        match entryAt Entries entry with
        | none => none
        | some sbe =>
          if !has_new_mail env sbe then select_next_new_loop env Entries HilIndex fuel entry
          else some (some entry)

/-- Selects the next new mailbox. -/
def select_next_new (env : Env) (s : State) : Option (Bool × State) :=
  if s.Entries.length = 0 ∨ s.HilIndex < 0 then some (false, s)
  else
    match select_next_new_loop env s.Entries s.HilIndex (s.Entries.length + 1) s.HilIndex with
    | none => none
    | some none => some (false, s)
    | some (some entry) => some (true, { s with HilIndex := entry })

/-- The do-while loop of `select_prev_new`, entered with the value of `entry`
before the decrement; results as for `select_next_loop`. -/
def select_prev_new_loop (env : Env) (Entries : List SbEntry) (HilIndex : Int) :
    Nat → Int → Option (Option Int)
  | 0, _ => none
  | fuel + 1, entry =>
    let entry := entry - 1
    let wrapped : Option Int :=
      if entry < 0 then
        if env.SidebarNextNewWrap then some ((Entries.length : Int) - 1) else none
      else some entry
    match wrapped with
    | none => some none
    | some entry =>
      if entry = HilIndex then some none
      else
        match entryAt Entries entry with
        | none => none
        | some sbe =>
          if !has_new_mail env sbe then select_prev_new_loop env Entries HilIndex fuel entry
          else some (some entry)

/-- Selects the previous new mailbox. -/
def select_prev_new (env : Env) (s : State) : Option (Bool × State) :=
  if s.Entries.length = 0 ∨ s.HilIndex < 0 then some (false, s)
  else
    match select_prev_new_loop env s.Entries s.HilIndex (s.Entries.length + 1) s.HilIndex with
    | none => none
    | some none => some (false, s)
    | some (some entry) => some (true, { s with HilIndex := entry })

/-- Selects the first entry in the next page of mailboxes. -/
def select_page_down (s : State) : Option (Bool × State) :=
  if s.Entries.length = 0 ∨ s.BotIndex < 0 then some (false, s)
  else
    match select_next { s with HilIndex := s.BotIndex } with
    | none => none
    | some r =>
      match entryAt r.2.Entries r.2.HilIndex with
      | none => none
      | some sbe =>
        if sbe.is_hidden then
          match select_prev r.2 with
          | none => none
          | some r2 => some (decide (s.HilIndex ≠ r2.2.HilIndex), r2.2)
        else some (decide (s.HilIndex ≠ r.2.HilIndex), r.2)

/-- Selects the last entry in the previous page of mailboxes. -/
def select_page_up (s : State) : Option (Bool × State) :=
  if s.Entries.length = 0 ∨ s.TopIndex < 0 then some (false, s)
  else
    match select_prev { s with HilIndex := s.TopIndex } with
    | none => none
    | some r =>
      match entryAt r.2.Entries r.2.HilIndex with
      | none => none
      | some sbe =>
        if sbe.is_hidden then
          match select_next r.2 with
          | none => none
          | some r2 => some (decide (s.HilIndex ≠ r2.2.HilIndex), r2.2)
        else some (decide (s.HilIndex ≠ r.2.HilIndex), r.2)

/-- The loop of `prepare_sidebar` that looks for the entry object `ptr` in the
array: `idx` becomes every `i` with `ptr == Entries[i]` in turn. -/
def locate_entry (ptr : Option Ptr) (Entries : List SbEntry) (idx : Int) : Int :=
  Entries.enum.foldl (fun acc ie => if ptr = some ie.2.addr then (ie.1 : Int) else acc) idx

/-- The inner loop of the framing scan of `prepare_sidebar`
(`while (page_entries < page_size)`); the result is the final `BotIndex`. -/
def page_scan (Entries : List SbEntry) (page_size : Int) : Nat → Int → Int → Option Int
  | 0, _, _ => none
  | fuel + 1, BotIndex, page_entries =>
    if page_entries < page_size then
      let BotIndex := BotIndex + 1
      if BotIndex ≥ (Entries.length : Int) then some BotIndex
      else
        match entryAt Entries BotIndex with
        | none => none
        | some sbe =>
          page_scan Entries page_size fuel BotIndex
            (if !sbe.is_hidden then page_entries + 1 else page_entries)
    else some BotIndex

/-- The outer loop of the framing scan of `prepare_sidebar`
(`while (BotIndex < HilIndex)`); the result is the final `(TopIndex, BotIndex)`. -/
def frame_scan (Entries : List SbEntry) (page_size HilIndex : Int) :
    Nat → Int → Int → Option (Int × Int)
  | 0, _, _ => none
  | fuel + 1, TopIndex, BotIndex =>
    if BotIndex < HilIndex then
      match page_scan Entries page_size (Entries.length + 2) BotIndex 0 with
      | none => none
      | some BotIndex1 => frame_scan Entries page_size HilIndex fuel (BotIndex + 1) BotIndex1
    else some (TopIndex, BotIndex)

/-- The part of `prepare_sidebar` that re-validates `HilIndex` after the
filter and sort passes. -/
def reset_highlight (env : Env) (s : State) : Option State :=
  let reset : Option Bool :=
    if s.HilIndex < 0 then some true
    else
      match entryAt s.Entries s.HilIndex with
      | none => none
      | some sbe => some (sbe.is_hidden || decide (env.SidebarSortMethod ≠ s.PreviousSort))
  match reset with
  | none => none
  | some false => some s
  | some true =>
    if s.OpnIndex ≥ 0 then some { s with HilIndex := s.OpnIndex }
    else
      let s0 := { s with HilIndex := 0 }
      match entryAt s0.Entries 0 with
      | none => none
      | some sbe =>
        if sbe.is_hidden then
          match select_next s0 with
          | none => none
          | some r => some r.2
        else some s0

/-- The part of `prepare_sidebar` that sets `TopIndex` and `BotIndex` to frame
`HilIndex` in groups of `page_size`. -/
def frame_highlight (env : Env) (s : State) (page_size : Int) : Option State :=
  let framed : Option (Int × Int) :=
    if env.SidebarNewMailOnly then
      frame_scan s.Entries page_size s.HilIndex (s.Entries.length + 2) (-1) (-1)
    else
      let TopIndex := (s.HilIndex.tdiv page_size) * page_size
      some (TopIndex, TopIndex + page_size - 1)
  match framed with
  | none => none
  | some (TopIndex, BotIndex) =>
    let BotIndex := if BotIndex > s.EntryCount - 1 then s.EntryCount - 1 else BotIndex
    some { s with TopIndex := TopIndex, BotIndex := BotIndex }

/-- The initialiser `(i >= 0) ? Entries[i] : NULL` of `opn_entry` and
`hil_entry`: the outer `none` is an undefined read, the inner `none` is NULL. -/
def entry_ptr (Entries : List SbEntry) (i : Int) : Option (Option Ptr) :=
  if i ≥ 0 then (entryAt Entries i).map (fun e => some e.addr) else some none

/-- The first part of `prepare_sidebar`: the filter pass, the sort pass, and
the loop that maps `opn_entry` and `hil_entry` to their new positions. -/
def relocate_indices (env : Env) (q : Qsort) (s : State) (opn_entry hil_entry : Option Ptr) :
    State :=
  let s1 := sort_entries env q (update_entries_visibility env s)
  { s1 with OpnIndex := locate_entry opn_entry s1.Entries s1.OpnIndex,
            HilIndex := locate_entry hil_entry s1.Entries s1.HilIndex }

/-- Prepare the list of SbEntry's for the sidebar display. -/
def prepare_sidebar (env : Env) (q : Qsort) (s : State) (page_size : Int) :
    Option (Bool × State) :=
  if s.Entries.length = 0 ∨ page_size ≤ 0 then some (false, s)
  else
    match entry_ptr s.Entries s.OpnIndex, entry_ptr s.Entries s.HilIndex with
    | some opn_entry, some hil_entry =>
      match reset_highlight env (relocate_indices env q s opn_entry hil_entry) with
      | none => none
      | some s3 =>
        match frame_highlight env s3 page_size with
        | none => none
        | some s4 => some (true, { s4 with PreviousSort := env.SidebarSortMethod })
    | _, _ => none

/-- The loop of `mutt_sb_notify_mailbox` that closes the gap left by the
deleted entry: `Entries[del_index] = Entries[del_index + 1]` for `del_index`
up to the new `EntryCount`. -/
def shift_entries (Entries : List SbEntry) (del_index EntryCount : Nat) : List SbEntry :=
  (List.range' del_index (EntryCount - del_index)).foldl
    (fun arr i => match arr[i + 1]? with
      | some sbe => arr.set i sbe
      | none => arr) Entries

/-- The state of a Mailbox is about to change. -/
def mutt_sb_notify_mailbox (env : Env) (s : State) (m : Option Ptr) (created : Bool) : State :=
  match m with
  | none => s
  | some m =>
    if created then
      let EntryCount : Int := s.Entries.length
      let EntryLen := if s.Entries.length ≥ s.EntryLen then s.EntryLen + 10 else s.EntryLen
      let sbe : SbEntry := { addr := mutt_mem_calloc s.Entries, mailbox := m, is_hidden := false }
      let TopIndex := if s.TopIndex < 0 then EntryCount else s.TopIndex
      let BotIndex := if s.BotIndex < 0 then EntryCount else s.BotIndex
      let OpnIndex :=
        if s.OpnIndex < 0 ∧ context_matches env m = true then EntryCount else s.OpnIndex
      { s with Entries := s.Entries ++ [sbe], EntryLen := EntryLen, TopIndex := TopIndex,
               OpnIndex := OpnIndex, BotIndex := BotIndex, redraw := true }
    else
      let del_index := s.Entries.findIdx (fun e => e.mailbox == m)
      if del_index = s.Entries.length then s
      else
        let EntryCount : Int := (s.Entries.length : Int) - 1
        let TopIndex :=
          if s.TopIndex > del_index ∨ s.TopIndex = EntryCount then s.TopIndex - 1 else s.TopIndex
        let OpnIndex :=
          if s.OpnIndex = del_index then -1
          else if s.OpnIndex > del_index then s.OpnIndex - 1 else s.OpnIndex
        let HilIndex :=
          if s.HilIndex > del_index ∨ s.HilIndex = EntryCount then s.HilIndex - 1 else s.HilIndex
        let BotIndex :=
          if s.BotIndex > del_index ∨ s.BotIndex = EntryCount then s.BotIndex - 1 else s.BotIndex
        { s with Entries := (shift_entries s.Entries del_index (s.Entries.length - 1)).take
                              (s.Entries.length - 1),
                 TopIndex := TopIndex, OpnIndex := OpnIndex, HilIndex := HilIndex,
                 BotIndex := BotIndex, redraw := true }

/-- Set the OpnMailbox based on the global Context. -/
def mutt_sb_set_open_mailbox (env : Env) (s : State) : State :=
  match env.Context with
  | none => { s with OpnIndex := -1 }
  | some c =>
    let entry := s.Entries.findIdx (fun e =>
      mutt_str_strcmp (some (env.mbox e.mailbox).realpath) (some (env.mbox c).realpath) == 0)
    if entry < s.Entries.length then { s with OpnIndex := entry, HilIndex := entry }
    else { s with OpnIndex := -1 }

/-- A sequence of notifications, applied from left to right. -/
def notify_all (env : Env) (s : State) (ops : List (Option Ptr × Bool)) : State :=
  ops.foldl (fun st op => mutt_sb_notify_mailbox env st op.1 op.2) s

/-! ## Concrete instances -/

/-- Sample values for the constants of `sort.h`: distinct sort keys below the
mask and the reverse flag above it. -/
def sortConsts : SortConsts :=
  { SORT_ORDER := 5, SORT_COUNT := 15, SORT_UNREAD := 16, SORT_FLAGGED := 17, SORT_PATH := 18,
    SORT_DESC := 20, SORT_MASK := 255, SORT_REVERSE := 256 }

/-- An insertion sort driven by the comparator, as an instance of `qsort`. -/
def insertionQsort : Qsort :=
  { sort := fun cmp l => l.insertionSort (fun a b => cmp a b ≤ 0)
    perm := fun _ l => List.perm_insertionSort _ l }

/-! ## Specification predicates -/

/-- Position `d` is the first one whose entry has mailbox `m`: where the search
loop of `mutt_sb_notify_mailbox` stops. -/
def first_index_of (m : Ptr) (Entries : List SbEntry) (d : Nat) : Prop :=
  (Entries[d]?).map SbEntry.mailbox = some m ∧
    ∀ j, j < d → (Entries[j]?).map SbEntry.mailbox ≠ some m

instance (m : Ptr) (Entries : List SbEntry) (d : Nat) : Decidable (first_index_of m Entries d) := by
  unfold first_index_of; infer_instance

/-- The validity of the four indices that `mutt_sb_notify_mailbox` maintains. -/
def indices_valid (s : State) : Prop :=
  -1 ≤ s.TopIndex ∧ s.TopIndex ≤ s.BotIndex ∧ s.BotIndex ≤ s.EntryCount - 1 ∧
  -1 ≤ s.OpnIndex ∧ s.OpnIndex ≤ s.EntryCount - 1 ∧
  -1 ≤ s.HilIndex ∧ s.HilIndex ≤ s.EntryCount - 1 ∧
  (0 < s.EntryCount → 0 ≤ s.TopIndex ∧ 0 ≤ s.BotIndex)

instance (s : State) : Decidable (indices_valid s) := by
  unfold indices_valid; infer_instance

/-- The entry at index `i` exists and is not hidden. -/
def visible_at (Entries : List SbEntry) (i : Int) : Prop :=
  (entryAt Entries i).map SbEntry.is_hidden = some false

instance (Entries : List SbEntry) (i : Int) : Decidable (visible_at Entries i) := by
  unfold visible_at; infer_instance

/-- The number of non-hidden entries at the positions `a, ..., b-1`. -/
def visible_in (Entries : List SbEntry) (a b : Nat) : Nat :=
  ((Entries.drop a).take (b - a)).countP (fun e => !e.is_hidden)

/-- The number of non-hidden entries at the positions `TopIndex, ..., BotIndex`. -/
def visible_between (Entries : List SbEntry) (TopIndex BotIndex : Int) : Nat :=
  visible_in Entries TopIndex.toNat (BotIndex + 1).toNat

/-- The entry at index `i` exists and its folder has `has_new` set or a
non-zero unread count. -/
def new_mail_at (env : Env) (Entries : List SbEntry) (i : Int) : Prop :=
  (entryAt Entries i).map (has_new_mail env) = some true

instance (env : Env) (Entries : List SbEntry) (i : Int) :
    Decidable (new_mail_at env Entries i) := by
  unfold new_mail_at; infer_instance

/-- A navigator result keeps the registry: whenever it returns, only
`HilIndex` may differ from the state on entry, and on failure nothing does. -/
def keeps_registry (s : State) (res : Option (Bool × State)) : Prop :=
  ∀ r s', res = some (r, s') → s' = { s with HilIndex := s'.HilIndex } ∧ (r = false → s' = s)

/-- What C requires of a `qsort` comparator: the signs of `cmp a b` and
`cmp b a` are opposite, and the order it describes is transitive. -/
def comparator_consistent (cmp : SbEntry → SbEntry → Int) : Prop :=
  (∀ a b, cmp a b < 0 ↔ 0 < cmp b a) ∧ ∀ a b c, cmp a b ≤ 0 → cmp b c ≤ 0 → cmp a c ≤ 0

/-- The contract of `qsort` for a consistent comparator: in the result no
entry comes before one that the comparator puts strictly first. -/
def Qsort.sorts (q : Qsort) : Prop :=
  ∀ (cmp : SbEntry → SbEntry → Int) (l : List SbEntry),
    comparator_consistent cmp → (q.sort cmp l).Pairwise (fun a b => cmp a b ≤ 0)

/-- What is assumed of the collation function: it returns a C `int` other than
`INT_MIN`, with opposite signs for swapped arguments, and is transitive. -/
def collation_consistent (coll : String → String → Int) : Prop :=
  (∀ a b, -2147483648 < coll a b ∧ coll a b < 2147483648) ∧
  (∀ a b, coll a b < 0 ↔ 0 < coll b a) ∧
  ∀ a b c, coll a b ≤ 0 → coll b c ≤ 0 → coll a c ≤ 0

/-- The sort keys of `sort.h` are pairwise different. -/
def SortConsts.distinct (c : SortConsts) : Prop :=
  [c.SORT_ORDER, c.SORT_COUNT, c.SORT_UNREAD, c.SORT_FLAGGED, c.SORT_PATH, c.SORT_DESC].Nodup

instance (c : SortConsts) : Decidable c.distinct := by
  unfold SortConsts.distinct; infer_instance

/-- The comparison by a count with the path as tie-break, without wrap-around
and before the reverse flag is applied. -/
def count_order (env : Env) (key : Mailbox → Int) (a b : SbEntry) : Int :=
  if key (env.mbox b.mailbox) = key (env.mbox a.mailbox) then
    env.mutt_str_strcoll (env.mbox a.mailbox).path (env.mbox b.mailbox).path
  else key (env.mbox b.mailbox) - key (env.mbox a.mailbox)

/-- The folder of the entry has the realpath of the mailbox open in the
`Context`. -/
def has_open_realpath (env : Env) (e : SbEntry) : Prop :=
  ∃ c, env.Context = some c ∧ (env.mbox e.mailbox).realpath = (env.mbox c).realpath

/-! ## Example data -/

/-- Mailbox objects for the examples: the mailboxes at addresses 1 and 3 have
unread mail, every other one has none. -/
def exampleMailbox (p : Ptr) : Mailbox :=
  { path := if p = 1 then "a" else if p = 2 then "b" else "c",
    realpath := if p = 1 then "/a" else if p = 2 then "/b" else "/c",
    desc := none, msg_count := 0,
    msg_unread := if p = 1 then 3 else if p = 3 then 1 else 0,
    msg_flagged := 0, has_new := false }

/-- An environment with `$sidebar_new_mail_only` set, no open mailbox, and the
sort method left at its initial value. -/
def filterEnv : Env :=
  { SidebarNewMailOnly := true, SidebarNextNewWrap := false, SidebarVisible := true,
    SidebarSortMethod := 5,
    SidebarWhitelist := [], Context := none, AllMailboxes := [1, 2, 3], mbox := exampleMailbox,
    consts := sortConsts, mutt_str_strcoll := fun a b => mutt_str_strcmp (some a) (some b),
    mutt_inbox_cmp := fun _ _ => 0 }

/-- The same environment with `$sidebar_new_mail_only` unset. -/
def plainEnv : Env := { filterEnv with SidebarNewMailOnly := false }

/-- The registry after mailboxes 1 and 2 were created and the sidebar was
prepared once under `filterEnv`: entry 0 is highlighted, entry 1 is hidden. -/
def twoEntryState : State :=
  { Entries := [{ addr := 1, mailbox := 1, is_hidden := false },
                { addr := 2, mailbox := 2, is_hidden := true }],
    EntryLen := 10, TopIndex := 0, OpnIndex := -1, HilIndex := 0, BotIndex := 1,
    PreviousSort := 5, redraw := true }

/-- The registry after mailboxes 1, 2 and 3 were created and the sidebar was
prepared once under `filterEnv`: the middle entry is hidden. -/
def threeEntryState : State :=
  { Entries := [{ addr := 1, mailbox := 1, is_hidden := false },
                { addr := 2, mailbox := 2, is_hidden := true },
                { addr := 3, mailbox := 3, is_hidden := false }],
    EntryLen := 10, TopIndex := 0, OpnIndex := -1, HilIndex := 0, BotIndex := 2,
    PreviousSort := 5, redraw := true }

/-- A registry holding only mailbox 2, which has no new mail, highlighted. -/
def loneState : State :=
  { Entries := [{ addr := 1, mailbox := 2, is_hidden := false }],
    EntryLen := 10, TopIndex := 0, OpnIndex := -1, HilIndex := 0, BotIndex := 0,
    PreviousSort := 5, redraw := false }

/-- Five entries for mailboxes 1 to 5 with the last one highlighted. -/
def fiveEntryState : State :=
  { Entries := [{ addr := 1, mailbox := 1, is_hidden := false },
                { addr := 2, mailbox := 2, is_hidden := false },
                { addr := 3, mailbox := 3, is_hidden := false },
                { addr := 4, mailbox := 4, is_hidden := false },
                { addr := 5, mailbox := 5, is_hidden := false }],
    EntryLen := 10, TopIndex := 0, OpnIndex := -1, HilIndex := 4, BotIndex := 1,
    PreviousSort := 5, redraw := false }

/-- The environment `plainEnv` after the user has set the sort method to
`SORT_COUNT`. -/
def countEnv : Env := { plainEnv with SidebarSortMethod := 15 }

/-- Two entries, none hidden, the second one highlighted, as left by a pass
made while the sort method had its initial value. -/
def secondHighlighted : State :=
  { Entries := [{ addr := 1, mailbox := 1, is_hidden := false },
                { addr := 2, mailbox := 2, is_hidden := false }],
    EntryLen := 10, TopIndex := 0, OpnIndex := -1, HilIndex := 1, BotIndex := 1,
    PreviousSort := 5, redraw := false }

/-- The environment `filterEnv` with `$sidebar_next_new_wrap` set. -/
def wrapEnv : Env := { filterEnv with SidebarNextNewWrap := true }

/-- Three entries for mailboxes 2, 1 and 4, of which only mailbox 1 (at index
1) has unread mail; the last entry is highlighted. -/
def oneUnreadState : State :=
  { Entries := [{ addr := 1, mailbox := 2, is_hidden := false },
                { addr := 2, mailbox := 1, is_hidden := false },
                { addr := 3, mailbox := 4, is_hidden := false }],
    EntryLen := 10, TopIndex := 0, OpnIndex := -1, HilIndex := 2, BotIndex := 2,
    PreviousSort := 5, redraw := false }

/-- The registry right after mailbox 1 was created in an empty registry:
`TopIndex = BotIndex = 0` and `HilIndex` still unset. -/
def freshState : State :=
  { Entries := [{ addr := 1, mailbox := 1, is_hidden := false }],
    EntryLen := 10, TopIndex := 0, OpnIndex := -1, HilIndex := -1, BotIndex := 0,
    PreviousSort := 5, redraw := true }

/-- The environment `filterEnv` over mailboxes whose unread count is -1. -/
def negativeEnv : Env :=
  { filterEnv with mbox := fun p => { exampleMailbox p with msg_unread := -1 } }

/-- The environment `plainEnv` with the sort method set to `SORT_DESC` and
descriptions given to mailboxes 1 and 2. -/
def descEnv : Env :=
  { plainEnv with
    SidebarSortMethod := 20
    mbox := fun p => { exampleMailbox p with
      desc := if p = 1 then some "zebra" else if p = 2 then some "apple" else none } }

/-- The environment `plainEnv` with the mailbox list in the order 2, 1. -/
def reorderedEnv : Env := { plainEnv with AllMailboxes := [2, 1] }

/-- The registry after mailbox 1 was created twice: two entries for the same
folder. -/
def duplicateState : State :=
  { Entries := [{ addr := 1, mailbox := 1, is_hidden := false },
                { addr := 2, mailbox := 1, is_hidden := false }],
    EntryLen := 10, TopIndex := 0, OpnIndex := -1, HilIndex := -1, BotIndex := 0,
    PreviousSort := 5, redraw := true }

/-- The environment `plainEnv` with mailbox 1 open in the `Context`. -/
def contextEnv : Env := { plainEnv with Context := some 1 }

/-- The state `twoEntryState` with the entry of the open mailbox 1 recorded in
`OpnIndex`. -/
def openFirstState : State := { twoEntryState with OpnIndex := 0 }

/-- The environment `filterEnv` after the user has set the sort method to
`SORT_PATH | SORT_REVERSE`. -/
def reversePathEnv : Env := { filterEnv with SidebarSortMethod := 274 }

/-- The state `secondHighlighted` with its second entry, of mailbox 2, recorded
as the open one. -/
def openSecondState : State := { secondHighlighted with OpnIndex := 1 }

/-- The state `openSecondState` after a pass under `reversePathEnv`: the two
entries have changed places and the open one is at index 0. -/
def openSecondSorted : State :=
  { openSecondState with
    Entries := [{ addr := 2, mailbox := 2, is_hidden := false },
                { addr := 1, mailbox := 1, is_hidden := false }],
    OpnIndex := 0, HilIndex := 0, TopIndex := 0, BotIndex := 1, PreviousSort := 274 }

/-- The environment `plainEnv` with the mailbox list in the order 1, 2. -/
def orderedEnv : Env := { plainEnv with AllMailboxes := [1, 2] }

/-- The state `secondHighlighted` as left by a pass made while the sort method
was `SORT_COUNT`. -/
def countSortedState : State := { secondHighlighted with PreviousSort := 15 }

/-- The state `countSortedState` after a pass under `reorderedEnv`: the entries
follow the mailbox list 2, 1 and the sort method is recorded. -/
def naturalSortedState : State :=
  { Entries := [{ addr := 2, mailbox := 2, is_hidden := false },
                { addr := 1, mailbox := 1, is_hidden := false }],
    EntryLen := 10, TopIndex := 0, OpnIndex := -1, HilIndex := 0, BotIndex := 1,
    PreviousSort := 5, redraw := false }

/-- The environment `countEnv` over mailboxes whose message counts are
`INT_MAX` for mailbox 1, 0 for mailbox 2 and -2 for every other one. -/
def overflowEnv : Env :=
  { countEnv with
    mbox := fun p => { exampleMailbox p with
      msg_count := if p = 1 then 2147483647 else if p = 2 then 0 else -2 } }

/-- The environment `filterEnv` after the user has set the sort method to
`SORT_UNREAD`. -/
def unreadEnv : Env := { filterEnv with SidebarSortMethod := 16 }

/-- The registry after mailboxes 2 and 1 were created, in this order, and the
sidebar was prepared once under `filterEnv`: entry 0 is hidden and entry 1 is
highlighted. -/
def hiddenFirstState : State :=
  { Entries := [{ addr := 1, mailbox := 2, is_hidden := true },
                { addr := 2, mailbox := 1, is_hidden := false }],
    EntryLen := 10, TopIndex := 0, OpnIndex := -1, HilIndex := 1, BotIndex := 1,
    PreviousSort := 5, redraw := true }

/-- The environment `plainEnv` with `$sidebar_next_new_wrap` set, in which
mailbox 2 has `has_new` set but no unread mail. -/
def hasNewEnv : Env :=
  { plainEnv with
    SidebarNextNewWrap := true
    mbox := fun p => { exampleMailbox p with has_new := decide (p = 2) } }

/-- The registry after mailboxes 2, 1 and 4 were created, the sidebar was
prepared once under `hasNewEnv` and the highlight moved to index 1, on the
only entry with unread mail. -/
def unreadHighlighted : State :=
  { Entries := [{ addr := 1, mailbox := 2, is_hidden := false },
                { addr := 2, mailbox := 1, is_hidden := false },
                { addr := 3, mailbox := 4, is_hidden := false }],
    EntryLen := 10, TopIndex := 0, OpnIndex := -1, HilIndex := 1, BotIndex := 2,
    PreviousSort := 5, redraw := true }

/-- The environment `filterEnv` sorted by `SORT_COUNT`, over mailboxes with
the message counts 2 for mailbox 1, 7 for mailbox 2 and 0 for every other
one. -/
def mixedCountEnv : Env :=
  { filterEnv with
    SidebarSortMethod := 15
    mbox := fun p => { exampleMailbox p with
      msg_count := if p = 1 then 2 else if p = 2 then 7 else 0 } }

/-- The environment `mixedCountEnv` sorted by `SORT_COUNT | SORT_REVERSE`. -/
def mixedCountReverseEnv : Env := { mixedCountEnv with SidebarSortMethod := 271 }

/-! ## The registry: `mutt_sb_notify_mailbox` -/

theorem first_index_of_iff (m : Ptr) (Entries : List SbEntry) (d : Nat) :
    first_index_of m Entries d ↔
      d < Entries.length ∧ Entries.findIdx (fun e => e.mailbox == m) = d := by
  constructor
  · rintro ⟨h1, h2⟩
    have hd : d < Entries.length := by
      by_contra hc
      rw [List.getElem?_eq_none (by omega)] at h1
      simp at h1
    refine ⟨hd, ?_⟩
    rw [List.findIdx_eq hd]
    rw [List.getElem?_eq_getElem hd] at h1
    simp at h1
    refine ⟨by simpa using h1, ?_⟩
    intro j hj
    have := h2 j hj
    rw [List.getElem?_eq_getElem (by omega)] at this
    simpa using this
  · rintro ⟨hd, h⟩
    rw [List.findIdx_eq hd] at h
    obtain ⟨h1, h2⟩ := h
    refine ⟨?_, ?_⟩
    · rw [List.getElem?_eq_getElem hd]
      simpa using h1
    · intro j hj
      rw [List.getElem?_eq_getElem (by omega)]
      have := h2 j hj
      simpa using this

theorem eraseIdx_set_succ (arr : List SbEntry) (d : Nat) (e : SbEntry)
    (h : arr[d + 1]? = some e) : (arr.set d e).eraseIdx (d + 1) = arr.eraseIdx d := by
  apply List.ext_getElem?
  intro j
  simp only [List.getElem?_eraseIdx, List.getElem?_set]
  have hlen : d + 1 < arr.length := by
    rcases List.getElem?_eq_some.mp h with ⟨hl, _⟩
    exact hl
  by_cases h1 : j < d
  · have : j < d + 1 := by omega
    have h3 : ¬ d = j := by omega
    simp [h1, this, h3]
  · by_cases h2 : j = d
    · subst h2
      simp [h, (by omega : j < arr.length)]
    · have : ¬ j < d + 1 := by omega
      have h3 : ¬ d = j + 1 := by omega
      simp [h1, this, h3]

theorem shift_entries_take (k : Nat) : ∀ (d : Nat) (arr : List SbEntry),
    d + k + 1 = arr.length →
    ((List.range' d k).foldl
      (fun arr i => match arr[i + 1]? with
        | some sbe => arr.set i sbe
        | none => arr) arr).take (d + k) = arr.eraseIdx d := by
  induction k with
  | zero =>
    intro d arr h
    simp only [List.range'_zero, List.foldl_nil, Nat.add_zero]
    rw [List.eraseIdx_eq_take_drop_succ]
    rw [List.drop_of_length_le (by omega)]
    simp
  | succ k ih =>
    intro d arr h
    rw [List.range'_succ, List.foldl_cons]
    have hlen : d + 1 < arr.length := by omega
    have h1 : arr[d + 1]? = some arr[d + 1] := List.getElem?_eq_getElem hlen
    simp only [h1]
    have := ih (d + 1) (arr.set d arr[d + 1]) (by simp; omega)
    rw [show d + (k + 1) = d + 1 + k by omega, this]
    exact eraseIdx_set_succ arr d _ h1

theorem shift_entries_eq (Entries : List SbEntry) (d : Nat) (h : d < Entries.length) :
    (shift_entries Entries d (Entries.length - 1)).take (Entries.length - 1) =
      Entries.eraseIdx d := by
  unfold shift_entries
  have := shift_entries_take (Entries.length - 1 - d) d Entries (by omega)
  rw [show d + (Entries.length - 1 - d) = Entries.length - 1 by omega] at this
  exact this

/-- The deletion branch of `mutt_sb_notify_mailbox` when `m` is first found at `d`. -/
theorem notify_delete_found (env : Env) (s : State) (m : Ptr) (d : Nat)
    (h : first_index_of m s.Entries d) :
    mutt_sb_notify_mailbox env s (some m) false =
      { s with
        Entries := s.Entries.eraseIdx d
        TopIndex := if s.TopIndex > d ∨ s.TopIndex = (s.Entries.length : Int) - 1
          then s.TopIndex - 1 else s.TopIndex
        OpnIndex := if s.OpnIndex = d then -1
          else if s.OpnIndex > d then s.OpnIndex - 1 else s.OpnIndex
        HilIndex := if s.HilIndex > d ∨ s.HilIndex = (s.Entries.length : Int) - 1
          then s.HilIndex - 1 else s.HilIndex
        BotIndex := if s.BotIndex > d ∨ s.BotIndex = (s.Entries.length : Int) - 1
          then s.BotIndex - 1 else s.BotIndex
        redraw := true } := by
  obtain ⟨hd, hf⟩ := (first_index_of_iff m s.Entries d).mp h
  have hne : ¬ d = s.Entries.length := by omega
  simp only [mutt_sb_notify_mailbox, hf, hne, shift_entries_eq s.Entries d hd]
  simp

/-- The deletion branch of `mutt_sb_notify_mailbox` when no entry has mailbox `m`. -/
theorem notify_delete_absent (env : Env) (s : State) (m : Ptr)
    (h : ∀ e ∈ s.Entries, e.mailbox ≠ m) :
    mutt_sb_notify_mailbox env s (some m) false = s := by
  have : s.Entries.findIdx (fun e => e.mailbox == m) = s.Entries.length := by
    rw [List.findIdx_eq_length]
    intro x hx
    simpa using h x hx
  simp [mutt_sb_notify_mailbox, this]

/-- Either `m` is the mailbox of no entry, or it has a first position. -/
theorem first_index_of_exists (m : Ptr) (Entries : List SbEntry) :
    (∀ e ∈ Entries, e.mailbox ≠ m) ∨ ∃ d, first_index_of m Entries d := by
  by_cases h : Entries.findIdx (fun e => e.mailbox == m) < Entries.length
  · right
    exact ⟨_, (first_index_of_iff m Entries _).mpr ⟨h, rfl⟩⟩
  · left
    have h2 : Entries.findIdx (fun e => e.mailbox == m) = Entries.length := by
      have := @List.findIdx_le_length _ (fun e : SbEntry => e.mailbox == m) Entries
      omega
    rw [List.findIdx_eq_length] at h2
    intro e he
    simpa using h2 e he

theorem first_index_of_lt {m : Ptr} {Entries : List SbEntry} {d : Nat}
    (h : first_index_of m Entries d) : d < Entries.length :=
  ((first_index_of_iff m Entries d).mp h).1

theorem notify_preserves_valid (env : Env) (s : State) (m : Option Ptr) (created : Bool)
    (h : indices_valid s) : indices_valid (mutt_sb_notify_mailbox env s m created) := by
  cases m with
  | none => simpa [mutt_sb_notify_mailbox] using h
  | some m =>
    cases created with
    | true =>
      unfold indices_valid State.EntryCount at *
      simp only [mutt_sb_notify_mailbox, if_true, List.length_append, List.length_singleton]
      obtain ⟨h1, h2, h3, h4, h5, h6, h7, h8⟩ := h
      push_cast
      split_ifs <;> refine ⟨?_, ?_, ?_, ?_, ?_, ?_, ?_, ?_⟩ <;> omega
    | false =>
      rcases first_index_of_exists m s.Entries with hab | ⟨d, hd⟩
      · rw [notify_delete_absent env s m hab]; exact h
      · rw [notify_delete_found env s m d hd]
        have hlt := first_index_of_lt hd
        unfold indices_valid State.EntryCount at *
        simp only [List.length_eraseIdx, hlt, if_true]
        obtain ⟨h1, h2, h3, h4, h5, h6, h7, h8⟩ := h
        have : ((s.Entries.length - 1 : Nat) : Int) = (s.Entries.length : Int) - 1 := by omega
        rw [this]
        split_ifs <;> refine ⟨?_, ?_, ?_, ?_, ?_, ?_, ?_, ?_⟩ <;> omega

theorem notify_all_preserves_valid (env : Env) (ops : List (Option Ptr × Bool)) :
    ∀ s, indices_valid s → indices_valid (notify_all env s ops) := by
  induction ops with
  | nil => intro s h; exact h
  | cons op ops ih =>
    intro s h
    simp only [notify_all, List.foldl_cons]
    exact ih _ (notify_preserves_valid env s op.1 op.2 h)

/-- The state `twoEntryState` is produced by the code. -/
theorem twoEntryState_reached :
    prepare_sidebar filterEnv insertionQsort
      (notify_all filterEnv (State.init sortConsts) [(some 1, true), (some 2, true)]) 5
      = some (true, twoEntryState) := by decide

theorem entryAt_eq_some {Entries : List SbEntry} {i : Int} {e : SbEntry}
    (h : entryAt Entries i = some e) :
    0 ≤ i ∧ i < Entries.length ∧ Entries[i.toNat]? = some e := by
  unfold entryAt at h
  split_ifs at h with h0
  have := List.getElem?_eq_some.mp h
  obtain ⟨hl, _⟩ := this
  refine ⟨by omega, by omega, h⟩

theorem entryAt_natCast (Entries : List SbEntry) (i : Nat) :
    entryAt Entries (i : Int) = Entries[i]? := by
  simp [entryAt]

/-- C1: starting from the initial empty registry, after every sequence of
`mutt_sb_notify_mailbox` calls each of the four indices lies in
`[-1, EntryCount-1]`, `TopIndex <= BotIndex`, and `TopIndex` and `BotIndex`
are both set whenever `EntryCount > 0`. -/
theorem notify_all_indices_valid (env : Env) (ops : List (Option Ptr × Bool)) :
    indices_valid (notify_all env (State.init env.consts) ops) := by
  apply notify_all_preserves_valid
  simp [indices_valid, State.init, State.EntryCount]

/-- C2: when `mutt_sb_notify_mailbox(m, false)` finds `m` first at position
`d`, and `n` is the entry count after the removal, then `TopIndex`, `HilIndex`
and `BotIndex` each become `x-1` if the old value `x` has `x > d` or `x = n`
and are otherwise unchanged, and `OpnIndex` becomes `-1` if it was `d`, `x-1`
if `x > d`, and is otherwise unchanged. -/
theorem notify_delete_indices (env : Env) (s : State) (m : Ptr) (d : Nat)
    (h : first_index_of m s.Entries d) :
    (mutt_sb_notify_mailbox env s (some m) false).TopIndex =
      (if s.TopIndex > d ∨
          s.TopIndex = (mutt_sb_notify_mailbox env s (some m) false).EntryCount
        then s.TopIndex - 1 else s.TopIndex) ∧
    (mutt_sb_notify_mailbox env s (some m) false).HilIndex =
      (if s.HilIndex > d ∨
          s.HilIndex = (mutt_sb_notify_mailbox env s (some m) false).EntryCount
        then s.HilIndex - 1 else s.HilIndex) ∧
    (mutt_sb_notify_mailbox env s (some m) false).BotIndex =
      (if s.BotIndex > d ∨
          s.BotIndex = (mutt_sb_notify_mailbox env s (some m) false).EntryCount
        then s.BotIndex - 1 else s.BotIndex) ∧
    (mutt_sb_notify_mailbox env s (some m) false).OpnIndex =
      (if s.OpnIndex = d then -1
        else if s.OpnIndex > d then s.OpnIndex - 1 else s.OpnIndex) := by
  have hlt := first_index_of_lt h
  have hc : ((s.Entries.length - 1 : Nat) : Int) = (s.Entries.length : Int) - 1 := by omega
  rw [notify_delete_found env s m d h]
  simp only [State.EntryCount, List.length_eraseIdx, hlt, if_true, hc]
  simp

/-- C2 on `twoEntryState`, deleting mailbox 1 found at position 0. -/
theorem notify_delete_indices_witness :
    first_index_of 1 twoEntryState.Entries 0 ∧
    (mutt_sb_notify_mailbox filterEnv twoEntryState (some 1) false).BotIndex =
      (if twoEntryState.BotIndex > (0 : Nat) ∨ twoEntryState.BotIndex =
          (mutt_sb_notify_mailbox filterEnv twoEntryState (some 1) false).EntryCount
        then twoEntryState.BotIndex - 1 else twoEntryState.BotIndex) :=
  ⟨by decide, (notify_delete_indices filterEnv twoEntryState 1 0 (by decide)).2.2.1⟩

/-- C3: for every registry state and folder `m` that occurs in `Entries`,
`mutt_sb_notify_mailbox(m, false)` deletes exactly the first entry whose
mailbox is `m`: `EntryCount` decreases by one and the new sequence is the old
one with that position erased, every other entry being kept as it is and in
the same relative order. -/
theorem notify_delete_erases_first (env : Env) (s : State) (m : Ptr)
    (h : ∃ e ∈ s.Entries, e.mailbox = m) :
    ∃ d, first_index_of m s.Entries d ∧
      (mutt_sb_notify_mailbox env s (some m) false).EntryCount = s.EntryCount - 1 ∧
      (mutt_sb_notify_mailbox env s (some m) false).Entries = s.Entries.eraseIdx d ∧
      ∀ j, (mutt_sb_notify_mailbox env s (some m) false).Entries[j]? =
        if j < d then s.Entries[j]? else s.Entries[j + 1]? := by
  rcases first_index_of_exists m s.Entries with hab | ⟨d, hd⟩
  · obtain ⟨e, he, hm⟩ := h
    exact absurd hm (hab e he)
  · have hlt := first_index_of_lt hd
    refine ⟨d, hd, ?_, ?_, ?_⟩
    · rw [notify_delete_found env s m d hd]
      simp only [State.EntryCount, List.length_eraseIdx, hlt, if_true]
      omega
    · rw [notify_delete_found env s m d hd]
    · intro j
      rw [notify_delete_found env s m d hd]
      exact List.getElem?_eraseIdx _ _ _

/-- C3 on `twoEntryState`, deleting mailbox 1. -/
theorem notify_delete_erases_first_witness :
    (∃ e ∈ twoEntryState.Entries, e.mailbox = 1) ∧
    ∃ d, first_index_of 1 twoEntryState.Entries d ∧
      (mutt_sb_notify_mailbox filterEnv twoEntryState (some 1) false).EntryCount =
        twoEntryState.EntryCount - 1 ∧
      (mutt_sb_notify_mailbox filterEnv twoEntryState (some 1) false).Entries =
        twoEntryState.Entries.eraseIdx d ∧
      ∀ j, (mutt_sb_notify_mailbox filterEnv twoEntryState (some 1) false).Entries[j]? =
        if j < d then twoEntryState.Entries[j]? else twoEntryState.Entries[j + 1]? :=
  ⟨⟨_, List.mem_cons_self _ _, rfl⟩,
    notify_delete_erases_first filterEnv twoEntryState 1 ⟨_, List.mem_cons_self _ _, rfl⟩⟩

/-- C4, as stated, fails: in a state reached by preparing the sidebar, with
`HilIndex` on a non-hidden entry, deleting the highlighted folder leaves the
registry non-empty and `HilIndex` on a hidden entry. -/
theorem notify_delete_highlight_hidden :
    (entryAt twoEntryState.Entries twoEntryState.HilIndex).map SbEntry.is_hidden = some false ∧
    (mutt_sb_notify_mailbox filterEnv twoEntryState (some 1) false).Entries ≠ [] ∧
    (entryAt (mutt_sb_notify_mailbox filterEnv twoEntryState (some 1) false).Entries
        (mutt_sb_notify_mailbox filterEnv twoEntryState (some 1) false).HilIndex).map
      SbEntry.is_hidden = some true := by decide

/-- C4, amended: if `HilIndex` points at a non-hidden entry `e`, then after
`mutt_sb_notify_mailbox(m, false)` for a folder `m` whose first entry is not
the highlighted one, `HilIndex` points at the same entry `e`, which is not
hidden; and for every `m` that leaves the registry non-empty, `HilIndex` stays
within `[0, EntryCount-1]`. -/
theorem notify_delete_keeps_highlight (env : Env) (s : State) (m : Ptr) (e : SbEntry)
    (hh : entryAt s.Entries s.HilIndex = some e) (hv : e.is_hidden = false) :
    (¬ first_index_of m s.Entries s.HilIndex.toNat →
      entryAt (mutt_sb_notify_mailbox env s (some m) false).Entries
          (mutt_sb_notify_mailbox env s (some m) false).HilIndex = some e ∧
        e.is_hidden = false) ∧
    ((mutt_sb_notify_mailbox env s (some m) false).Entries ≠ [] →
      0 ≤ (mutt_sb_notify_mailbox env s (some m) false).HilIndex ∧
      (mutt_sb_notify_mailbox env s (some m) false).HilIndex <
        (mutt_sb_notify_mailbox env s (some m) false).EntryCount) := by
  obtain ⟨h0, hn, hget⟩ := entryAt_eq_some hh
  rcases first_index_of_exists m s.Entries with hab | ⟨d, hd⟩
  · rw [notify_delete_absent env s m hab]
    exact ⟨fun _ => ⟨hh, hv⟩, fun _ => ⟨h0, hn⟩⟩
  · have hlt := first_index_of_lt hd
    rw [notify_delete_found env s m d hd]
    simp only [State.EntryCount, List.length_eraseIdx, hlt, if_true]
    constructor
    · intro hnot
      have hne : s.HilIndex.toNat ≠ d := fun hc => hnot (hc ▸ hd)
      refine ⟨?_, hv⟩
      by_cases hgt : s.HilIndex > d
      · have h1 : s.HilIndex - 1 = ((s.HilIndex.toNat - 1 : Nat) : Int) := by omega
        simp only [hgt, true_or, if_true]
        rw [h1, entryAt_natCast, List.getElem?_eraseIdx]
        have h2 : ¬ s.HilIndex.toNat - 1 < d := by omega
        rw [if_neg h2, show s.HilIndex.toNat - 1 + 1 = s.HilIndex.toNat by omega]
        exact hget
      · have h3 : ¬ (s.HilIndex > d ∨ s.HilIndex = (s.Entries.length : Int) - 1) := by omega
        have h1 : s.HilIndex = ((s.HilIndex.toNat : Nat) : Int) := by omega
        simp only [h3, if_false]
        rw [h1, entryAt_natCast, List.getElem?_eraseIdx]
        have h2 : s.HilIndex.toNat < d := by omega
        rw [if_pos h2]
        exact hget
    · intro hne
      have hlen : 1 < s.Entries.length := by
        by_contra hc
        apply hne
        apply List.eq_nil_of_length_eq_zero
        rw [List.length_eraseIdx]
        simp only [hlt, if_true]
        omega
      split_ifs <;> omega

/-- C4 as amended on `twoEntryState`, deleting mailbox 2 while entry 0 is
highlighted. -/
theorem notify_delete_keeps_highlight_witness :
    (entryAt twoEntryState.Entries twoEntryState.HilIndex =
        some { addr := 1, mailbox := 1, is_hidden := false }) ∧
    ((¬ first_index_of 2 twoEntryState.Entries twoEntryState.HilIndex.toNat →
      entryAt (mutt_sb_notify_mailbox filterEnv twoEntryState (some 2) false).Entries
          (mutt_sb_notify_mailbox filterEnv twoEntryState (some 2) false).HilIndex =
            some { addr := 1, mailbox := 1, is_hidden := false } ∧
        (false : Bool) = false) ∧
    ((mutt_sb_notify_mailbox filterEnv twoEntryState (some 2) false).Entries ≠ [] →
      0 ≤ (mutt_sb_notify_mailbox filterEnv twoEntryState (some 2) false).HilIndex ∧
      (mutt_sb_notify_mailbox filterEnv twoEntryState (some 2) false).HilIndex <
        (mutt_sb_notify_mailbox filterEnv twoEntryState (some 2) false).EntryCount)) :=
  ⟨by decide, notify_delete_keeps_highlight filterEnv twoEntryState 2
    { addr := 1, mailbox := 1, is_hidden := false } (by decide) rfl⟩

/-! ## The navigator: `select_next` and `select_prev` -/

theorem entryAt_of_range (Entries : List SbEntry) (i : Int) (h0 : 0 ≤ i)
    (h1 : i < Entries.length) : ∃ e, entryAt Entries i = some e := by
  unfold entryAt
  rw [if_neg (by omega)]
  exact ⟨_, List.getElem?_eq_getElem (by omega)⟩

theorem visible_at_iff {Entries : List SbEntry} {i : Int} :
    visible_at Entries i ↔ ∃ e, entryAt Entries i = some e ∧ e.is_hidden = false := by
  unfold visible_at
  cases entryAt Entries i <;> simp

theorem visible_at_range {Entries : List SbEntry} {i : Int} (h : visible_at Entries i) :
    0 ≤ i ∧ i < Entries.length := by
  obtain ⟨e, he, _⟩ := visible_at_iff.mp h
  have := entryAt_eq_some he
  exact ⟨this.1, this.2.1⟩

/-- The forward scan: with enough fuel it ends, either at the end of the array
with everything after `entry` hidden, or at the nearest non-hidden index. -/
theorem select_next_loop_spec (Entries : List SbEntry) : ∀ (fuel : Nat) (entry : Int),
    -1 ≤ entry → entry < Entries.length → (Entries.length : Int) - entry ≤ fuel →
    (select_next_loop Entries fuel entry = some none ∧
      ∀ j, entry < j → ¬ visible_at Entries j) ∨
    (∃ k, select_next_loop Entries fuel entry = some (some k) ∧ entry < k ∧
      visible_at Entries k ∧ ∀ j, entry < j → j < k → ¬ visible_at Entries j) := by
  intro fuel
  induction fuel with
  | zero => intro entry h0 h1 h2; omega
  | succ fuel ih =>
    intro entry h0 h1 h2
    unfold select_next_loop
    by_cases hend : entry + 1 = (Entries.length : Int)
    · left
      simp only [hend, if_true, true_and]
      intro j hj hv
      have := visible_at_range hv
      omega
    · simp only [hend, if_false]
      obtain ⟨e, he⟩ := entryAt_of_range Entries (entry + 1) (by omega) (by omega)
      simp only [he]
      by_cases hh : e.is_hidden = true
      · simp only [hh, if_true]
        have hnv : ¬ visible_at Entries (entry + 1) := by
          rw [visible_at_iff]; rintro ⟨e', he', hv'⟩
          rw [he] at he'; cases he'; rw [hh] at hv'; cases hv'
        rcases ih (entry + 1) (by omega) (by omega) (by push_cast at h2 ⊢; omega) with
          ⟨h3, h4⟩ | ⟨k, h3, h4, h5, h6⟩
        · left
          refine ⟨h3, ?_⟩
          intro j hj
          by_cases hje : j = entry + 1
          · rw [hje]; exact hnv
          · exact h4 j (by omega)
        · right
          refine ⟨k, h3, by omega, h5, ?_⟩
          intro j hj hjk
          by_cases hje : j = entry + 1
          · rw [hje]; exact hnv
          · exact h6 j (by omega) hjk
      · right
        simp only [hh]
        refine ⟨entry + 1, by simp, by omega, ?_, ?_⟩
        · rw [visible_at_iff]; exact ⟨e, he, by simpa using hh⟩
        · intro j hj hjk; omega

/-- The backward scan: with enough fuel it ends, either before the start of
the array with everything before `entry` hidden, or at the nearest non-hidden
index. -/
theorem select_prev_loop_spec (Entries : List SbEntry) : ∀ (fuel : Nat) (entry : Int),
    0 ≤ entry → entry ≤ Entries.length → entry + 1 ≤ fuel →
    (select_prev_loop Entries fuel entry = some none ∧
      ∀ j, j < entry → ¬ visible_at Entries j) ∨
    (∃ k, select_prev_loop Entries fuel entry = some (some k) ∧ k < entry ∧
      visible_at Entries k ∧ ∀ j, k < j → j < entry → ¬ visible_at Entries j) := by
  intro fuel
  induction fuel with
  | zero => intro entry h0 h1 h2; omega
  | succ fuel ih =>
    intro entry h0 h1 h2
    unfold select_prev_loop
    by_cases hend : entry - 1 < 0
    · left
      simp only [hend, if_true, true_and]
      intro j hj hv
      have := visible_at_range hv
      omega
    · simp only [hend, if_false]
      obtain ⟨e, he⟩ := entryAt_of_range Entries (entry - 1) (by omega) (by omega)
      simp only [he]
      by_cases hh : e.is_hidden = true
      · simp only [hh, if_true]
        have hnv : ¬ visible_at Entries (entry - 1) := by
          rw [visible_at_iff]; rintro ⟨e', he', hv'⟩
          rw [he] at he'; cases he'; rw [hh] at hv'; cases hv'
        rcases ih (entry - 1) (by omega) (by omega) (by push_cast at h2 ⊢; omega) with
          ⟨h3, h4⟩ | ⟨k, h3, h4, h5, h6⟩
        · left
          refine ⟨h3, ?_⟩
          intro j hj
          by_cases hje : j = entry - 1
          · rw [hje]; exact hnv
          · exact h4 j (by omega)
        · right
          refine ⟨k, h3, by omega, h5, ?_⟩
          intro j hkj hj
          by_cases hje : j = entry - 1
          · rw [hje]; exact hnv
          · exact h6 j hkj (by omega)
      · right
        simp only [hh]
        refine ⟨entry - 1, by simp, by omega, ?_, ?_⟩
        · rw [visible_at_iff]; exact ⟨e, he, by simpa using hh⟩
        · intro j hj hjk; omega

/-- What `select_next` does from a highlighted index within the array. -/
theorem select_next_cases (s : State) (h0 : 0 ≤ s.HilIndex) (h1 : s.HilIndex < s.EntryCount) :
    (select_next s = some (false, s) ∧ ∀ j, s.HilIndex < j → ¬ visible_at s.Entries j) ∨
    (∃ k, select_next s = some (true, { s with HilIndex := k }) ∧ s.HilIndex < k ∧
      visible_at s.Entries k ∧ ∀ j, s.HilIndex < j → j < k → ¬ visible_at s.Entries j) := by
  unfold State.EntryCount at h1
  have hlen : ¬ (s.Entries.length = 0 ∨ s.HilIndex < 0) := by omega
  unfold select_next
  simp only [hlen, if_false]
  rcases select_next_loop_spec s.Entries (s.Entries.length + 1) s.HilIndex (by omega) h1
    (by push_cast; omega) with ⟨h3, h4⟩ | ⟨k, h3, h4, h5, h6⟩
  · left; rw [h3]; exact ⟨rfl, h4⟩
  · right; rw [h3]; exact ⟨k, rfl, h4, h5, h6⟩

/-- What `select_prev` does from a highlighted index within the array. -/
theorem select_prev_cases (s : State) (h0 : 0 ≤ s.HilIndex) (h1 : s.HilIndex < s.EntryCount) :
    (select_prev s = some (false, s) ∧ ∀ j, j < s.HilIndex → ¬ visible_at s.Entries j) ∨
    (∃ k, select_prev s = some (true, { s with HilIndex := k }) ∧ k < s.HilIndex ∧
      visible_at s.Entries k ∧ ∀ j, k < j → j < s.HilIndex → ¬ visible_at s.Entries j) := by
  unfold State.EntryCount at h1
  have hlen : ¬ (s.Entries.length = 0 ∨ s.HilIndex < 0) := by omega
  unfold select_prev
  simp only [hlen, if_false]
  rcases select_prev_loop_spec s.Entries (s.Entries.length + 1) s.HilIndex (by omega) (by omega)
    (by push_cast; omega) with ⟨h3, h4⟩ | ⟨k, h3, h4, h5, h6⟩
  · left; rw [h3]; exact ⟨rfl, h4⟩
  · right; rw [h3]; exact ⟨k, rfl, h4, h5, h6⟩


/-- The state `threeEntryState` is produced by the code. -/
theorem threeEntryState_reached :
    prepare_sidebar filterEnv insertionQsort
      (notify_all filterEnv (State.init sortConsts)
        [(some 1, true), (some 2, true), (some 3, true)]) 2
      = some (true, threeEntryState) := by decide

/-- C10: for `0 <= HilIndex < EntryCount`, `select_next` (resp. `select_prev`)
returns true iff some non-hidden entry exists at an index greater (resp.
smaller) than `HilIndex`, and then sets `HilIndex` to the nearest such index
and changes nothing else; otherwise it returns false and leaves the state
unchanged. -/
theorem select_next_prev_nearest (s : State) (h0 : 0 ≤ s.HilIndex)
    (h1 : s.HilIndex < s.EntryCount) :
    (∃ r s', select_next s = some (r, s') ∧
      (r = true ↔ ∃ j, s.HilIndex < j ∧ visible_at s.Entries j) ∧
      (r = true → s' = { s with HilIndex := s'.HilIndex } ∧ s.HilIndex < s'.HilIndex ∧
        visible_at s.Entries s'.HilIndex ∧
        ∀ j, s.HilIndex < j → j < s'.HilIndex → ¬ visible_at s.Entries j) ∧
      (r = false → s' = s)) ∧
    (∃ r s', select_prev s = some (r, s') ∧
      (r = true ↔ ∃ j, j < s.HilIndex ∧ visible_at s.Entries j) ∧
      (r = true → s' = { s with HilIndex := s'.HilIndex } ∧ s'.HilIndex < s.HilIndex ∧
        visible_at s.Entries s'.HilIndex ∧
        ∀ j, s'.HilIndex < j → j < s.HilIndex → ¬ visible_at s.Entries j) ∧
      (r = false → s' = s)) := by
  constructor
  · rcases select_next_cases s h0 h1 with ⟨h3, h4⟩ | ⟨k, h3, h4, h5, h6⟩
    · refine ⟨false, s, h3, ?_, ?_, fun _ => rfl⟩
      · constructor
        · intro h; cases h
        · rintro ⟨j, hj, hv⟩; exact absurd hv (h4 j hj)
      · intro h; cases h
    · refine ⟨true, _, h3, ?_, ?_, ?_⟩
      · exact ⟨fun _ => ⟨k, h4, h5⟩, fun _ => rfl⟩
      · intro _; exact ⟨rfl, h4, h5, h6⟩
      · intro h; cases h
  · rcases select_prev_cases s h0 h1 with ⟨h3, h4⟩ | ⟨k, h3, h4, h5, h6⟩
    · refine ⟨false, s, h3, ?_, ?_, fun _ => rfl⟩
      · constructor
        · intro h; cases h
        · rintro ⟨j, hj, hv⟩; exact absurd hv (h4 j hj)
      · intro h; cases h
    · refine ⟨true, _, h3, ?_, ?_, ?_⟩
      · exact ⟨fun _ => ⟨k, h4, h5⟩, fun _ => rfl⟩
      · intro _; exact ⟨rfl, h4, h5, h6⟩
      · intro h; cases h

/-- C10 on `threeEntryState`, where `HilIndex = 0` and entry 1 is hidden. -/
theorem select_next_prev_nearest_witness :
    (0 ≤ threeEntryState.HilIndex ∧ threeEntryState.HilIndex < threeEntryState.EntryCount) ∧
    (∃ r s', select_next threeEntryState = some (r, s') ∧
      (r = true ↔ ∃ j, threeEntryState.HilIndex < j ∧ visible_at threeEntryState.Entries j) ∧
      (r = true → s' = { threeEntryState with HilIndex := s'.HilIndex } ∧
        threeEntryState.HilIndex < s'.HilIndex ∧
        visible_at threeEntryState.Entries s'.HilIndex ∧
        ∀ j, threeEntryState.HilIndex < j → j < s'.HilIndex →
          ¬ visible_at threeEntryState.Entries j) ∧
      (r = false → s' = threeEntryState)) :=
  ⟨by decide, (select_next_prev_nearest threeEntryState (by decide) (by decide)).1⟩

/-! ## The sorter and the viewport: `prepare_sidebar` -/

theorem set_perm_cons : ∀ (xs : List SbEntry) (k : Nat) (x y : SbEntry),
    xs[k]? = some y → (y :: xs.set k x).Perm (x :: xs) := by
  intro xs
  induction xs with
  | nil => intro k x y h; simp at h
  | cons a xs ih =>
    intro k x y h
    cases k with
    | zero =>
      simp only [List.getElem?_cons_zero, Option.some.injEq] at h
      subst h
      simp only [List.set_cons_zero]
      exact List.Perm.swap _ _ _
    | succ k =>
      simp only [List.getElem?_cons_succ] at h
      simp only [List.set_cons_succ]
      exact ((List.Perm.swap a y _).trans ((ih k x y h).cons a)).trans (List.Perm.swap x a _)

theorem set_set_perm : ∀ (Entries : List SbEntry) (i j : Nat) (tmp ej : SbEntry),
    i < j → Entries[i]? = some tmp → Entries[j]? = some ej →
    ((Entries.set i ej).set j tmp).Perm Entries := by
  intro Entries
  induction Entries with
  | nil => intro i j tmp ej _ h; simp at h
  | cons a xs ih =>
    intro i j tmp ej hij hi hj
    cases j with
    | zero => omega
    | succ j =>
      simp only [List.getElem?_cons_succ] at hj
      cases i with
      | zero =>
        simp only [List.getElem?_cons_zero, Option.some.injEq] at hi
        subst hi
        simp only [List.set_cons_zero, List.set_cons_succ]
        exact set_perm_cons xs j a ej hj
      | succ i =>
        simp only [List.getElem?_cons_succ] at hi
        simp only [List.set_cons_succ]
        exact (ih i j tmp ej (by omega) hi hj).cons a

theorem unsort_step_perm (st : List SbEntry × Nat) (np : Ptr) :
    (unsort_step st np).1.Perm st.1 := by
  unfold unsort_step
  simp only
  split_ifs with h1 h2 h3
  · exact List.Perm.refl _
  · simp only [swap_entries]
    split
    · rename_i tmp ej hi hj
      exact set_set_perm _ _ _ tmp ej (by omega) hi hj
    · exact List.Perm.refl _
  · exact List.Perm.refl _
  · exact List.Perm.refl _

theorem unsort_fold_perm (l : List Ptr) : ∀ (st : List SbEntry × Nat),
    (l.foldl unsort_step st).1.Perm st.1 := by
  induction l with
  | nil => intro st; exact List.Perm.refl _
  | cons np l ih =>
    intro st
    simp only [List.foldl_cons]
    exact (ih _).trans (unsort_step_perm st np)

/-- The sort pass only rearranges the array. -/
theorem sort_entries_perm (env : Env) (q : Qsort) (s : State) :
    (sort_entries env q s).Entries.Perm s.Entries := by
  unfold sort_entries
  simp only
  split_ifs
  · exact q.perm _ _
  · exact unsort_fold_perm _ _
  · exact List.Perm.refl _

/-- The sort pass changes no variable other than `Entries`. -/
theorem sort_entries_frame (env : Env) (q : Qsort) (s : State) :
    sort_entries env q s = { s with Entries := (sort_entries env q s).Entries } := by
  unfold sort_entries
  simp only
  split_ifs <;> rfl

theorem update_entries_visibility_entryAt (env : Env) (s : State) (i : Int) :
    entryAt (update_entries_visibility env s).Entries i =
      (entryAt s.Entries i).map (visibility_of env s.OpnIndex i.toNat) := by
  unfold entryAt update_entries_visibility
  split_ifs
  · rfl
  · simp [List.getElem?_mapIdx]

theorem update_entries_visibility_length (env : Env) (s : State) :
    (update_entries_visibility env s).Entries.length = s.Entries.length := by
  simp [update_entries_visibility]

theorem visibility_of_addr (env : Env) (o : Int) (i : Nat) (e : SbEntry) :
    (visibility_of env o i e).addr = e.addr ∧ (visibility_of env o i e).mailbox = e.mailbox := by
  unfold visibility_of
  simp only
  split_ifs <;> exact ⟨rfl, rfl⟩

/-- The search for an entry object: either no cell holds the pointer and the
index is left as it was, or the index becomes the last cell that holds it. -/
theorem locate_fold_spec (ptr : Option Ptr) : ∀ (Entries : List SbEntry) (k : Nat) (idx : Int),
    ((List.enumFrom k Entries).foldl
        (fun acc ie => if ptr = some ie.2.addr then (ie.1 : Int) else acc) idx = idx ∧
      ∀ e ∈ Entries, ptr ≠ some e.addr) ∨
    (∃ i e, (List.enumFrom k Entries).foldl
        (fun acc ie => if ptr = some ie.2.addr then (ie.1 : Int) else acc) idx
          = ((k + i : Nat) : Int) ∧
      Entries[i]? = some e ∧ ptr = some e.addr ∧
      ∀ j e', i < j → Entries[j]? = some e' → ptr ≠ some e'.addr) := by
  intro Entries
  induction Entries with
  | nil => intro k idx; left; simp
  | cons a xs ih =>
    intro k idx
    simp only [List.enumFrom_cons, List.foldl_cons]
    rcases ih (k + 1) (if ptr = some a.addr then (k : Int) else idx) with
      ⟨h1, h2⟩ | ⟨i, e, h1, h2, h3, h4⟩
    · by_cases hm : ptr = some a.addr
      · right
        refine ⟨0, a, ?_, by simp, hm, ?_⟩
        · rw [h1]; simp [hm]
        · intro j e' hj he'
          cases j with
          | zero => omega
          | succ j =>
            simp only [List.getElem?_cons_succ] at he'
            exact h2 e' (List.getElem?_mem he')
      · left
        refine ⟨?_, ?_⟩
        · rw [h1]; simp [hm]
        · intro e he
          rcases List.mem_cons.mp he with rfl | he
          · exact hm
          · exact h2 e he
    · right
      refine ⟨i + 1, e, ?_, by simpa using h2, h3, ?_⟩
      · rw [h1]; congr 1; omega
      · intro j e' hj he'
        cases j with
        | zero => omega
        | succ j =>
          simp only [List.getElem?_cons_succ] at he'
          exact h4 j e' (by omega) he'

theorem locate_entry_spec (ptr : Option Ptr) (Entries : List SbEntry) (idx : Int) :
    (locate_entry ptr Entries idx = idx ∧ ∀ e ∈ Entries, ptr ≠ some e.addr) ∨
    (∃ i e, locate_entry ptr Entries idx = ((i : Nat) : Int) ∧
      Entries[i]? = some e ∧ ptr = some e.addr ∧
      ∀ j e', i < j → Entries[j]? = some e' → ptr ≠ some e'.addr) := by
  have := locate_fold_spec ptr Entries 0 idx
  simpa [locate_entry, List.enum] using this

theorem locate_entry_none (Entries : List SbEntry) (idx : Int) :
    locate_entry none Entries idx = idx := by
  rcases locate_entry_spec none Entries idx with ⟨h, _⟩ | ⟨i, e, _, _, h, _⟩
  · exact h
  · cases h

theorem visible_in_step (Entries : List SbEntry) (a b : Nat) (e : SbEntry) (hab : a < b)
    (he : Entries[a]? = some e) :
    visible_in Entries a b = (if e.is_hidden then 0 else 1) + visible_in Entries (a + 1) b := by
  obtain ⟨hl, hget⟩ := List.getElem?_eq_some.mp he
  unfold visible_in
  rw [List.drop_eq_getElem_cons hl, show b - a = (b - (a + 1)) + 1 by omega, List.take_succ_cons,
    List.countP_cons, hget]
  cases e.is_hidden <;> simp
  omega

theorem visible_in_of_le (Entries : List SbEntry) (a b : Nat) (h : b ≤ a) :
    visible_in Entries a b = 0 := by
  unfold visible_in
  rw [show b - a = 0 by omega]
  simp

theorem visible_in_of_length_le (Entries : List SbEntry) (a b : Nat) (h : Entries.length ≤ a) :
    visible_in Entries a b = 0 := by
  unfold visible_in
  rw [List.drop_of_length_le h]
  simp

theorem visible_in_mono (Entries : List SbEntry) (a b c : Nat) (h : b ≤ c) :
    visible_in Entries a b ≤ visible_in Entries a c := by
  unfold visible_in
  exact List.Sublist.countP_le _ (List.take_sublist_take_left _ (by omega))

theorem visible_in_le (Entries : List SbEntry) (a b : Nat) :
    visible_in Entries a b ≤ b - a := by
  unfold visible_in
  refine (List.countP_le_length _).trans ?_
  rw [List.length_take]
  exact Nat.min_le_left _ _

/-- The inner loop of the framing scan: from `BotIndex = b` with `pe` entries
counted, it stops at some `b'` having counted the non-hidden entries at
`b+1 .. b'`, at most `page_size` in all, and exactly `page_size` unless it ran
off the end of the array. -/
theorem page_scan_spec (Entries : List SbEntry) (page_size : Int) :
    ∀ (fuel : Nat) (b pe : Int), -1 ≤ b → b < Entries.length → pe ≤ page_size →
      (Entries.length : Int) - b + 1 ≤ fuel →
    ∃ b', page_scan Entries page_size fuel b pe = some b' ∧ b ≤ b' ∧ (pe < page_size → b < b') ∧
      b' ≤ Entries.length ∧
      pe + (visible_in Entries (b + 1).toNat (b' + 1).toNat : Int) ≤ page_size ∧
      (b' < Entries.length →
        pe + (visible_in Entries (b + 1).toNat (b' + 1).toNat : Int) = page_size) := by
  intro fuel
  induction fuel with
  | zero => intro b pe h0 h1 h2 h3; omega
  | succ fuel ih =>
    intro b pe h0 h1 h2 h3
    unfold page_scan
    by_cases hpe : pe < page_size
    · simp only [hpe, if_true]
      by_cases hend : b + 1 ≥ (Entries.length : Int)
      · simp only [hend, if_true]
        refine ⟨b + 1, rfl, by omega, fun _ => by omega, by omega, ?_, fun h => by omega⟩
        rw [visible_in_of_length_le _ _ _ (by omega)]
        simp; omega
      · simp only [hend, if_false]
        obtain ⟨e, he⟩ := entryAt_of_range Entries (b + 1) (by omega) (by omega)
        simp only [he]
        obtain ⟨b', hb1, hb2, hb3, hb4, hb5, hb6⟩ :=
          ih (b + 1) (if (!e.is_hidden) = true then pe + 1 else pe) (by omega) (by omega)
            (by split_ifs <;> omega) (by push_cast at h3 ⊢; omega)
        have hget := (entryAt_eq_some he).2.2
        have hstep := visible_in_step Entries (b + 1).toNat (b' + 1).toNat e (by omega) hget
        have hnat : (b + 1).toNat + 1 = (b + 1 + 1).toNat := by omega
        rw [hnat] at hstep
        refine ⟨b', hb1, by omega, fun _ => by omega, hb4, ?_, ?_⟩
        · rw [hstep]
          cases hh : e.is_hidden <;> simp [hh] at hb5 ⊢ <;> omega
        · intro hlt
          have := hb6 hlt
          rw [hstep]
          cases hh : e.is_hidden <;> simp [hh] at this ⊢ <;> omega
    · rw [if_neg hpe]
      refine ⟨b, rfl, le_refl _, fun h => absurd h hpe, by omega, ?_, ?_⟩
      · rw [visible_in_of_le _ _ _ (le_refl _)]; simp; omega
      · intro _
        rw [visible_in_of_le _ _ _ (le_refl _)]; simp; omega

/-- The outer loop of the framing scan: it ends with `TopIndex <= HilIndex <=
BotIndex` and at most `page_size` non-hidden entries at `TopIndex .. BotIndex`. -/
theorem frame_scan_spec (Entries : List SbEntry) (page_size HilIndex : Int)
    (hps : 0 < page_size) (hh1 : HilIndex < Entries.length) :
    ∀ (fuel : Nat) (T B : Int), -1 ≤ B → B ≤ Entries.length →
      (HilIndex ≤ B → 0 ≤ T ∧ T ≤ HilIndex ∧
        (visible_in Entries T.toNat (B + 1).toNat : Int) ≤ page_size) →
      1 ≤ fuel → HilIndex - B + 1 ≤ fuel →
    ∃ T' B', frame_scan Entries page_size HilIndex fuel T B = some (T', B') ∧
      0 ≤ T' ∧ T' ≤ HilIndex ∧ HilIndex ≤ B' ∧ B' ≤ Entries.length ∧
      (visible_in Entries T'.toNat (B' + 1).toNat : Int) ≤ page_size := by
  intro fuel
  induction fuel with
  | zero => intro T B h0 h1 h2 h3; omega
  | succ fuel ih =>
    intro T B h0 h1 hinv _ h3
    unfold frame_scan
    by_cases hlt : B < HilIndex
    · simp only [hlt, if_true]
      obtain ⟨b', hb1, hb2, hb3, hb4, hb5, _⟩ :=
        page_scan_spec Entries page_size (Entries.length + 2) B 0 h0 (by omega) (by omega)
          (by push_cast; omega)
      simp only [hb1]
      have hb3' := hb3 hps
      exact ih (B + 1) b' (by omega) hb4 (fun _ => ⟨by omega, by omega, by omega⟩)
        (by push_cast at h3; omega) (by push_cast at h3 ⊢; omega)
    · simp only [hlt, if_false]
      obtain ⟨i1, i2, i3⟩ := hinv (by omega)
      exact ⟨T, B, rfl, i1, i2, by omega, h1, i3⟩

theorem not_visible_of_hidden {Entries : List SbEntry} {i : Int} {e : SbEntry}
    (he : entryAt Entries i = some e) (hh : e.is_hidden = true) : ¬ visible_at Entries i := by
  rw [visible_at_iff]
  rintro ⟨e', he', hv'⟩
  rw [he] at he'; cases he'; rw [hh] at hv'; cases hv'

theorem visible_of_not_hidden {Entries : List SbEntry} {i : Int} {e : SbEntry}
    (he : entryAt Entries i = some e) (hh : e.is_hidden = false) : visible_at Entries i :=
  visible_at_iff.mpr ⟨e, he, hh⟩

/-- The re-validation of `HilIndex`: it is kept when it is set, its entry is
not hidden and the sort method is unchanged; otherwise it becomes `OpnIndex`
when that is set, and else the first non-hidden index (or 0 when every entry
is hidden). -/
theorem reset_highlight_spec (env : Env) (s : State) (hn : 0 < s.Entries.length)
    (ho : s.OpnIndex < s.Entries.length) (hh : s.HilIndex < s.Entries.length) :
    ∃ h', reset_highlight env s = some { s with HilIndex := h' } ∧
      0 ≤ h' ∧ h' < s.Entries.length ∧
      ((0 ≤ s.HilIndex ∧ visible_at s.Entries s.HilIndex ∧
          env.SidebarSortMethod = s.PreviousSort) → h' = s.HilIndex) ∧
      (¬ (0 ≤ s.HilIndex ∧ visible_at s.Entries s.HilIndex ∧
          env.SidebarSortMethod = s.PreviousSort) →
        (0 ≤ s.OpnIndex → h' = s.OpnIndex) ∧
        (s.OpnIndex < 0 →
          ((∃ j, visible_at s.Entries j) →
            visible_at s.Entries h' ∧ ∀ j, j < h' → ¬ visible_at s.Entries j) ∧
          ((∀ j, ¬ visible_at s.Entries j) → h' = 0))) := by
  -- the outcome of the reset branch
  have hreset : ∃ h', (if s.OpnIndex ≥ 0 then some { s with HilIndex := s.OpnIndex }
      else
        match entryAt ({ s with HilIndex := 0 } : State).Entries 0 with
        | none => none
        | some sbe =>
          if sbe.is_hidden then
            match select_next { s with HilIndex := 0 } with
            | none => none
            | some r => some r.2
          else some { s with HilIndex := 0 }) = some { s with HilIndex := h' } ∧
      0 ≤ h' ∧ h' < s.Entries.length ∧
      (0 ≤ s.OpnIndex → h' = s.OpnIndex) ∧
      (s.OpnIndex < 0 →
        ((∃ j, visible_at s.Entries j) →
          visible_at s.Entries h' ∧ ∀ j, j < h' → ¬ visible_at s.Entries j) ∧
        ((∀ j, ¬ visible_at s.Entries j) → h' = 0)) := by
    by_cases hopn : s.OpnIndex ≥ 0
    · refine ⟨s.OpnIndex, by simp [hopn], hopn, ho, fun _ => rfl, fun h => by omega⟩
    · rw [if_neg hopn]
      obtain ⟨e, he⟩ := entryAt_of_range s.Entries 0 (le_refl _) (by omega)
      simp only [he]
      by_cases hhid : e.is_hidden = true
      · simp only [hhid, if_true]
        have hnv0 : ¬ visible_at s.Entries 0 := not_visible_of_hidden he hhid
        rcases select_next_cases { s with HilIndex := 0 } (le_refl _)
          (by simp only [State.EntryCount]; omega) with ⟨h3, h4⟩ | ⟨k, h3, h4, h5, h6⟩
        · rw [h3]
          have hall : ∀ j, ¬ visible_at s.Entries j := by
            intro j hv
            have hr := visible_at_range hv
            by_cases hj : j = 0
            · exact hnv0 (hj ▸ hv)
            · exact h4 j (by simp only; omega) hv
          refine ⟨0, rfl, le_refl _, by omega, fun h => by omega, fun _ => ⟨?_, fun _ => rfl⟩⟩
          rintro ⟨j, hj⟩
          exact absurd hj (hall j)
        · rw [h3]
          simp only at h4 h5 h6
          have hr := visible_at_range h5
          refine ⟨k, rfl, by omega, hr.2, fun h => by omega, fun _ => ⟨fun _ => ⟨h5, ?_⟩, ?_⟩⟩
          · intro j hj hv
            have hrj := visible_at_range hv
            by_cases hj0 : j = 0
            · exact hnv0 (hj0 ▸ hv)
            · exact h6 j (by omega) hj hv
          · intro hall
            exact absurd h5 (hall k)
      · have hv0 : visible_at s.Entries 0 := visible_of_not_hidden he (by simpa using hhid)
        simp only [hhid]
        refine ⟨0, rfl, le_refl _, by omega, fun h => by omega, fun _ => ⟨fun _ => ⟨hv0, ?_⟩, fun _ => rfl⟩⟩
        intro j hj hv
        have := visible_at_range hv
        omega
  unfold reset_highlight
  by_cases hneg : s.HilIndex < 0
  · simp only [hneg, if_true]
    obtain ⟨h', e1, e2, e3, e4, e5⟩ := hreset
    exact ⟨h', e1, e2, e3, fun h => by omega, fun _ => ⟨e4, e5⟩⟩
  · simp only [hneg, if_false]
    obtain ⟨e, he⟩ := entryAt_of_range s.Entries s.HilIndex (by omega) hh
    simp only [he]
    by_cases hcond : (e.is_hidden || decide (env.SidebarSortMethod ≠ s.PreviousSort)) = true
    · simp only [hcond]
      obtain ⟨h', e1, e2, e3, e4, e5⟩ := hreset
      refine ⟨h', e1, e2, e3, ?_, fun _ => ⟨e4, e5⟩⟩
      rintro ⟨_, hv, hs⟩
      simp only [Bool.or_eq_true, decide_eq_true_eq] at hcond
      rcases hcond with hc | hc
      · exact absurd hv (not_visible_of_hidden he hc)
      · exact absurd hs hc
    · have hcf : (e.is_hidden || decide (env.SidebarSortMethod ≠ s.PreviousSort)) = false := by
        simpa using hcond
      simp only [hcf]
      refine ⟨s.HilIndex, rfl, by omega, hh, fun _ => rfl, ?_⟩
      intro hnot
      exfalso
      apply hnot
      simp only [Bool.or_eq_false_iff, decide_eq_false_iff_not, ne_eq, not_not] at hcf
      exact ⟨by omega, visible_of_not_hidden he hcf.1, hcf.2⟩

/-- The framing of `HilIndex`: `TopIndex <= HilIndex <= BotIndex` within the
array; with the filter, at most `page_size` non-hidden entries in the window;
without it, the window is the page of `page_size` raw entries cut at the end. -/
theorem frame_highlight_spec (env : Env) (s : State) (page_size : Int) (hps : 0 < page_size)
    (h0 : 0 ≤ s.HilIndex) (h1 : s.HilIndex < s.Entries.length) :
    ∃ T B, frame_highlight env s page_size = some { s with TopIndex := T, BotIndex := B } ∧
      0 ≤ T ∧ T ≤ s.HilIndex ∧ s.HilIndex ≤ B ∧ B ≤ (s.Entries.length : Int) - 1 ∧
      (env.SidebarNewMailOnly = true → (visible_between s.Entries T B : Int) ≤ page_size) ∧
      (env.SidebarNewMailOnly = false →
        T = s.HilIndex.tdiv page_size * page_size ∧
        B = min (T + page_size - 1) ((s.Entries.length : Int) - 1)) := by
  unfold frame_highlight
  by_cases hf : env.SidebarNewMailOnly = true
  · simp only [hf, if_true]
    obtain ⟨T', B', e1, e2, e3, e4, e5, e6⟩ :=
      frame_scan_spec s.Entries page_size s.HilIndex hps h1 (s.Entries.length + 2) (-1) (-1)
        (le_refl _) (by omega) (fun h => by omega) (by omega) (by push_cast; omega)
    simp only [e1, State.EntryCount]
    refine ⟨T', _, rfl, e2, e3, ?_, ?_, ?_, fun h => by simp at h⟩
    · split_ifs <;> omega
    · split_ifs <;> omega
    · intro _
      refine le_trans ?_ e6
      unfold visible_between
      exact_mod_cast visible_in_mono s.Entries T'.toNat _ _ (by split_ifs <;> omega)
  · have hf' : env.SidebarNewMailOnly = false := by simpa using hf
    simp only [hf', State.EntryCount]
    have hdiv : s.HilIndex.tdiv page_size = s.HilIndex / page_size :=
      Int.tdiv_eq_ediv h0 (le_of_lt hps)
    have hle : s.HilIndex / page_size * page_size ≤ s.HilIndex :=
      Int.ediv_mul_le _ (ne_of_gt hps)
    have hlt : s.HilIndex < (s.HilIndex / page_size + 1) * page_size :=
      Int.lt_ediv_add_one_mul_self _ hps
    have hnn : 0 ≤ s.HilIndex / page_size * page_size :=
      mul_nonneg (Int.ediv_nonneg h0 (le_of_lt hps)) (le_of_lt hps)
    have hexp : (s.HilIndex / page_size + 1) * page_size =
        s.HilIndex / page_size * page_size + page_size := by ring
    rw [hexp] at hlt
    rw [hdiv]
    refine ⟨_, _, rfl, hnn, hle, ?_, ?_, fun h => by simp at h, fun _ => ⟨rfl, ?_⟩⟩
    · split_ifs <;> omega
    · split_ifs <;> omega
    · split_ifs with hc
      · rw [min_eq_right (by omega)]
      · rw [min_eq_left (by omega)]

theorem entry_ptr_eq (Entries : List SbEntry) (i : Int) (h : i < Entries.length) :
    ∃ p, entry_ptr Entries i = some p ∧
      (i < 0 → p = none) ∧ (0 ≤ i → ∃ e, entryAt Entries i = some e ∧ p = some e.addr) := by
  unfold entry_ptr
  by_cases h0 : i ≥ 0
  · obtain ⟨e, he⟩ := entryAt_of_range Entries i h0 h
    refine ⟨some e.addr, by simp [h0, he], fun h => by omega, fun _ => ⟨e, he, rfl⟩⟩
  · refine ⟨none, by simp [h0], fun _ => rfl, fun h => by omega⟩

theorem entry_ptr_some_lt (Entries : List SbEntry) (i : Int) (p : Option Ptr)
    (h : entry_ptr Entries i = some p) : i < Entries.length := by
  unfold entry_ptr at h
  by_cases h0 : i ≥ 0
  · simp only [h0, if_true] at h
    cases he : entryAt Entries i with
    | none => rw [he] at h; simp at h
    | some e => exact (entryAt_eq_some he).2.1
  · omega

theorem relocate_indices_length (env : Env) (q : Qsort) (s : State) (o h : Option Ptr) :
    (relocate_indices env q s o h).Entries.length = s.Entries.length := by
  unfold relocate_indices
  simp only
  rw [(sort_entries_perm env q _).length_eq, update_entries_visibility_length]

theorem locate_entry_lt (ptr : Option Ptr) (Entries : List SbEntry) (idx : Int)
    (h : idx < Entries.length) : locate_entry ptr Entries idx < Entries.length := by
  rcases locate_entry_spec ptr Entries idx with ⟨h1, _⟩ | ⟨i, e, h1, h2, _, _⟩
  · rw [h1]; exact h
  · rw [h1]
    have := (List.getElem?_eq_some.mp h2).1
    omega

theorem relocate_indices_lt (env : Env) (q : Qsort) (s : State) (o h : Option Ptr)
    (ho : s.OpnIndex < s.Entries.length) (hh : s.HilIndex < s.Entries.length) :
    (relocate_indices env q s o h).OpnIndex < (relocate_indices env q s o h).Entries.length ∧
    (relocate_indices env q s o h).HilIndex < (relocate_indices env q s o h).Entries.length := by
  have hl : (sort_entries env q (update_entries_visibility env s)).Entries.length
      = s.Entries.length := by
    rw [(sort_entries_perm env q _).length_eq, update_entries_visibility_length]
  have e1 : (sort_entries env q (update_entries_visibility env s)).OpnIndex = s.OpnIndex := by
    rw [sort_entries_frame]; rfl
  have e2 : (sort_entries env q (update_entries_visibility env s)).HilIndex = s.HilIndex := by
    rw [sort_entries_frame]; rfl
  unfold relocate_indices
  simp only
  constructor
  · apply locate_entry_lt; rw [hl, e1]; exact ho
  · apply locate_entry_lt; rw [hl, e2]; exact hh

/-- When `prepare_sidebar` returns true, the registry was not empty, the page
size was positive, and `OpnIndex` and `HilIndex` were unset or within the array. -/
theorem prepare_sidebar_true_pre (env : Env) (q : Qsort) (s s' : State) (page_size : Int)
    (h : prepare_sidebar env q s page_size = some (true, s')) :
    0 < s.Entries.length ∧ 0 < page_size ∧ s.OpnIndex < s.Entries.length ∧
      s.HilIndex < s.Entries.length := by
  unfold prepare_sidebar at h
  by_cases hc : s.Entries.length = 0 ∨ page_size ≤ 0
  · rw [if_pos hc] at h
    simp at h
  · rw [if_neg hc] at h
    refine ⟨by omega, by omega, ?_, ?_⟩
    · cases ho : entry_ptr s.Entries s.OpnIndex with
      | none => simp [ho] at h
      | some p => exact entry_ptr_some_lt _ _ _ ho
    · cases hh : entry_ptr s.Entries s.HilIndex with
      | none =>
        rw [hh] at h
        cases ho : entry_ptr s.Entries s.OpnIndex <;> simp [ho] at h
      | some p => exact entry_ptr_some_lt _ _ _ hh

/-- Everything a run of `prepare_sidebar` that returns true establishes: the
result is the relocated registry `m` with new `HilIndex`, `TopIndex`,
`BotIndex` and `PreviousSort`; `HilIndex` is re-validated on `m`; and the
window frames it. -/
theorem prepare_sidebar_spec (env : Env) (q : Qsort) (s s' : State) (page_size : Int)
    (h : prepare_sidebar env q s page_size = some (true, s')) :
    ∃ o hp m, entry_ptr s.Entries s.OpnIndex = some o ∧
      entry_ptr s.Entries s.HilIndex = some hp ∧ m = relocate_indices env q s o hp ∧
      s' = { m with HilIndex := s'.HilIndex, TopIndex := s'.TopIndex, BotIndex := s'.BotIndex,
                    PreviousSort := env.SidebarSortMethod } ∧
      0 < page_size ∧ 0 < m.Entries.length ∧
      (0 ≤ s'.HilIndex ∧ s'.HilIndex < m.Entries.length) ∧
      ((0 ≤ m.HilIndex ∧ visible_at m.Entries m.HilIndex ∧
          env.SidebarSortMethod = m.PreviousSort) → s'.HilIndex = m.HilIndex) ∧
      (¬ (0 ≤ m.HilIndex ∧ visible_at m.Entries m.HilIndex ∧
          env.SidebarSortMethod = m.PreviousSort) →
        (0 ≤ m.OpnIndex → s'.HilIndex = m.OpnIndex) ∧
        (m.OpnIndex < 0 →
          ((∃ j, visible_at m.Entries j) →
            visible_at m.Entries s'.HilIndex ∧ ∀ j, j < s'.HilIndex → ¬ visible_at m.Entries j) ∧
          ((∀ j, ¬ visible_at m.Entries j) → s'.HilIndex = 0))) ∧
      (0 ≤ s'.TopIndex ∧ s'.TopIndex ≤ s'.HilIndex ∧ s'.HilIndex ≤ s'.BotIndex ∧
        s'.BotIndex ≤ (m.Entries.length : Int) - 1) ∧
      (env.SidebarNewMailOnly = true →
        (visible_between m.Entries s'.TopIndex s'.BotIndex : Int) ≤ page_size) ∧
      (env.SidebarNewMailOnly = false →
        s'.TopIndex = s'.HilIndex.tdiv page_size * page_size ∧
        s'.BotIndex = min (s'.TopIndex + page_size - 1) ((m.Entries.length : Int) - 1)) := by
  obtain ⟨hn, hps, ho, hh⟩ := prepare_sidebar_true_pre env q s s' page_size h
  obtain ⟨o, hp, eo, eh⟩ : ∃ o hp, entry_ptr s.Entries s.OpnIndex = some o ∧
      entry_ptr s.Entries s.HilIndex = some hp := by
    obtain ⟨o, eo, _⟩ := entry_ptr_eq s.Entries s.OpnIndex ho
    obtain ⟨hp, eh, _⟩ := entry_ptr_eq s.Entries s.HilIndex hh
    exact ⟨o, hp, eo, eh⟩
  have hl := relocate_indices_length env q s o hp
  obtain ⟨hlo, hlh⟩ := relocate_indices_lt env q s o hp ho hh
  obtain ⟨hil, r1, r2, r3, r4, r5⟩ :=
    reset_highlight_spec env (relocate_indices env q s o hp) (by omega) hlo hlh
  obtain ⟨T, B, f1, f2, f3, f4, f5, f6, f7⟩ :=
    frame_highlight_spec env { relocate_indices env q s o hp with HilIndex := hil } page_size
      hps r2 r3
  have hrun : prepare_sidebar env q s page_size =
      some (true, { relocate_indices env q s o hp with
        HilIndex := hil, TopIndex := T, BotIndex := B,
        PreviousSort := env.SidebarSortMethod }) := by
    unfold prepare_sidebar
    have hc : ¬ (s.Entries.length = 0 ∨ page_size ≤ 0) := by omega
    rw [if_neg hc]
    simp only [eo, eh, r1, f1]
  rw [hrun] at h
  simp only [Option.some.injEq, Prod.mk.injEq, true_and] at h
  subst h
  exact ⟨o, hp, _, eo, eh, rfl, rfl, hps, by omega, ⟨r2, r3⟩, r4, r5, ⟨f2, f3, f4, f5⟩, f6, f7⟩

theorem update_entries_visibility_addrs (env : Env) (s : State) :
    (update_entries_visibility env s).Entries.map SbEntry.addr = s.Entries.map SbEntry.addr := by
  apply List.ext_getElem?
  intro n
  simp only [update_entries_visibility, List.getElem?_map, List.getElem?_mapIdx]
  cases s.Entries[n]? with
  | none => rfl
  | some e => simp [(visibility_of_addr env s.OpnIndex n e).1]

theorem relocate_indices_fields (env : Env) (q : Qsort) (s : State) (o hp : Option Ptr) :
    (relocate_indices env q s o hp).Entries =
        (sort_entries env q (update_entries_visibility env s)).Entries ∧
    (relocate_indices env q s o hp).HilIndex =
        locate_entry hp (sort_entries env q (update_entries_visibility env s)).Entries
          s.HilIndex ∧
    (relocate_indices env q s o hp).OpnIndex =
        locate_entry o (sort_entries env q (update_entries_visibility env s)).Entries
          s.OpnIndex ∧
    (relocate_indices env q s o hp).PreviousSort = s.PreviousSort := by
  have e1 : (sort_entries env q (update_entries_visibility env s)).OpnIndex = s.OpnIndex := by
    rw [sort_entries_frame]; rfl
  have e2 : (sort_entries env q (update_entries_visibility env s)).HilIndex = s.HilIndex := by
    rw [sort_entries_frame]; rfl
  have e3 : (sort_entries env q (update_entries_visibility env s)).PreviousSort
      = s.PreviousSort := by
    rw [sort_entries_frame]; rfl
  unfold relocate_indices
  simp only [e1, e2, e3]
  simp

/-- With pairwise distinct entry pointers, the relocated `HilIndex` designates
the entry that `HilIndex` designated on entry, as the filter pass left it. -/
theorem relocate_indices_highlight (env : Env) (q : Qsort) (s : State) (o hp : Option Ptr)
    (hnd : (s.Entries.map SbEntry.addr).Nodup) (h0 : 0 ≤ s.HilIndex)
    (eh : entry_ptr s.Entries s.HilIndex = some hp) :
    0 ≤ (relocate_indices env q s o hp).HilIndex ∧
    entryAt (relocate_indices env q s o hp).Entries (relocate_indices env q s o hp).HilIndex =
      entryAt (update_entries_visibility env s).Entries s.HilIndex ∧
    ∃ e, entryAt (update_entries_visibility env s).Entries s.HilIndex = some e := by
  obtain ⟨f1, f2, _, _⟩ := relocate_indices_fields env q s o hp
  have hlt := entry_ptr_some_lt _ _ _ eh
  obtain ⟨e, he⟩ := entryAt_of_range s.Entries s.HilIndex h0 hlt
  have hhp : hp = some e.addr := by
    unfold entry_ptr at eh
    simp only [ge_iff_le, h0, if_true, he, Option.map_some', Option.some.injEq] at eh
    exact eh.symm
  have hU := update_entries_visibility_entryAt env s s.HilIndex
  rw [he, Option.map_some'] at hU
  have hperm := sort_entries_perm env q (update_entries_visibility env s)
  have hmemU : visibility_of env s.OpnIndex s.HilIndex.toNat e ∈
      (update_entries_visibility env s).Entries :=
    List.getElem?_mem (entryAt_eq_some hU).2.2
  have hmem := hperm.mem_iff.mpr hmemU
  have hndm : ((sort_entries env q (update_entries_visibility env s)).Entries.map
      SbEntry.addr).Nodup := by
    rw [(hperm.map SbEntry.addr).nodup_iff, update_entries_visibility_addrs]
    exact hnd
  rw [f1, f2, hU]
  rcases locate_entry_spec hp (sort_entries env q (update_entries_visibility env s)).Entries
      s.HilIndex with ⟨_, h2⟩ | ⟨i, e', h1, h2, h3, _⟩
  · exfalso
    apply h2 _ hmem
    rw [hhp, (visibility_of_addr env s.OpnIndex s.HilIndex.toNat e).1]
  · rw [h1, entryAt_natCast, h2]
    refine ⟨by omega, ?_, _, rfl⟩
    congr 1
    apply List.inj_on_of_nodup_map hndm (List.getElem?_mem h2) hmem
    rw [(visibility_of_addr env s.OpnIndex s.HilIndex.toNat e).1]
    rw [hhp] at h3
    exact (Option.some.inj h3).symm

theorem relocate_indices_unset (env : Env) (q : Qsort) (s : State) (o hp : Option Ptr)
    (h0 : s.HilIndex < 0) (eh : entry_ptr s.Entries s.HilIndex = some hp) :
    (relocate_indices env q s o hp).HilIndex < 0 := by
  obtain ⟨_, f2, _, _⟩ := relocate_indices_fields env q s o hp
  have hhp : hp = none := by
    unfold entry_ptr at eh
    rw [if_neg (by omega)] at eh
    exact (Option.some.inj eh).symm
  rw [f2, hhp, locate_entry_none]
  exact h0

theorem le_foldr_max (l : List Nat) : ∀ a ∈ l, a ≤ l.foldr max 0 := by
  induction l with
  | nil => intro a h; cases h
  | cons x xs ih =>
    intro a h
    simp only [List.foldr_cons]
    rcases List.mem_cons.mp h with rfl | h
    · exact le_max_left _ _
    · exact le_trans (ih a h) (le_max_right _ _)

/-- The allocator returns an address that no live entry has. -/
theorem mutt_mem_calloc_fresh (Entries : List SbEntry) :
    mutt_mem_calloc Entries ∉ Entries.map SbEntry.addr := by
  intro h
  have := le_foldr_max _ _ h
  unfold mutt_mem_calloc at this
  omega

/-- The entry pointers stay pairwise distinct under `mutt_sb_notify_mailbox`. -/
theorem notify_preserves_nodup (env : Env) (s : State) (m : Option Ptr) (created : Bool)
    (h : (s.Entries.map SbEntry.addr).Nodup) :
    ((mutt_sb_notify_mailbox env s m created).Entries.map SbEntry.addr).Nodup := by
  cases m with
  | none => simpa [mutt_sb_notify_mailbox] using h
  | some m =>
    cases created with
    | true =>
      simp only [mutt_sb_notify_mailbox, if_true, List.map_append, List.map_cons, List.map_nil]
      rw [List.nodup_append]
      refine ⟨h, List.nodup_singleton _, ?_⟩
      intro a ha hb
      rw [List.mem_singleton] at hb
      subst hb
      exact absurd ha (mutt_mem_calloc_fresh s.Entries)
    | false =>
      rcases first_index_of_exists m s.Entries with hab | ⟨d, hd⟩
      · rw [notify_delete_absent env s m hab]; exact h
      · rw [notify_delete_found env s m d hd]
        exact h.sublist ((List.eraseIdx_sublist _ _).map _)

/-- The entry pointers stay pairwise distinct under `prepare_sidebar`. -/
theorem prepare_sidebar_preserves_nodup (env : Env) (q : Qsort) (s s' : State)
    (page_size : Int) (hnd : (s.Entries.map SbEntry.addr).Nodup)
    (h : prepare_sidebar env q s page_size = some (true, s')) :
    (s'.Entries.map SbEntry.addr).Nodup := by
  obtain ⟨o, hp, m, _, _, hm, hs', _⟩ := prepare_sidebar_spec env q s s' page_size h
  have hE0 := congrArg State.Entries hs'
  have hE : s'.Entries = m.Entries := hE0
  obtain ⟨f1, _⟩ := relocate_indices_fields env q s o hp
  rw [hE, hm, f1, ((sort_entries_perm env q _).map SbEntry.addr).nodup_iff,
    update_entries_visibility_addrs]
  exact hnd

/-! ## Properties of `prepare_sidebar` -/

/-- C5, the code at the failing input: with `$sidebar_new_mail_only` set, no
open mailbox, and a single highlighted entry whose mailbox has no new mail,
`prepare_sidebar` returns true and leaves `HilIndex = 0` on an entry that it
has just hidden; the same happens on the first pass after that mailbox was
created in an empty registry. -/
theorem prepare_sidebar_highlight_hidden :
    (∃ s', prepare_sidebar filterEnv insertionQsort loneState 1 = some (true, s') ∧
      s'.HilIndex = 0 ∧ (entryAt s'.Entries s'.HilIndex).map SbEntry.is_hidden = some true) ∧
    (∃ s', prepare_sidebar filterEnv insertionQsort
        (notify_all filterEnv (State.init sortConsts) [(some 2, true)]) 1 = some (true, s') ∧
      s'.HilIndex = 0 ∧ (entryAt s'.Entries s'.HilIndex).map SbEntry.is_hidden = some true) :=
  ⟨⟨{ loneState with Entries := [{ addr := 1, mailbox := 2, is_hidden := true }] },
      by decide, by decide, by decide⟩,
    ⟨{ loneState with Entries := [{ addr := 1, mailbox := 2, is_hidden := true }],
                      redraw := true },
      by decide, by decide, by decide⟩⟩

/-- C6, as stated, fails: with the filter on, three entries of which the
middle one is hidden and `page_size = 2`, `prepare_sidebar` returns true with
`TopIndex = 0` and `BotIndex = 2`, a window of three raw entries. -/
theorem prepare_sidebar_raw_window_exceeds_page :
    prepare_sidebar filterEnv insertionQsort
        (notify_all filterEnv (State.init sortConsts)
          [(some 1, true), (some 2, true), (some 3, true)]) 2
      = some (true, threeEntryState) ∧
    ¬ (threeEntryState.BotIndex - threeEntryState.TopIndex + 1 ≤ 2) := by decide

/-- C6, amended: whenever `prepare_sidebar(page_size)` returns true, in both
modes `0 <= TopIndex <= BotIndex <= EntryCount-1`; without the filter
`BotIndex - TopIndex + 1 <= page_size`; with the filter it is the number of
non-hidden entries at `TopIndex .. BotIndex` that is at most `page_size`. -/
theorem prepare_sidebar_window_bounds (env : Env) (q : Qsort) (s s' : State) (page_size : Int)
    (h : prepare_sidebar env q s page_size = some (true, s')) :
    0 ≤ s'.TopIndex ∧ s'.TopIndex ≤ s'.BotIndex ∧ s'.BotIndex ≤ s'.EntryCount - 1 ∧
    (env.SidebarNewMailOnly = false → s'.BotIndex - s'.TopIndex + 1 ≤ page_size) ∧
    (env.SidebarNewMailOnly = true →
      (visible_between s'.Entries s'.TopIndex s'.BotIndex : Int) ≤ page_size) := by
  obtain ⟨o, hp, m, _, _, _, hs', hps, hn, hhil, _, _, ⟨f1, f2, f3, f4⟩, f5, f6⟩ :=
    prepare_sidebar_spec env q s s' page_size h
  have hE0 := congrArg State.Entries hs'
  have hE : s'.Entries = m.Entries := hE0
  simp only [State.EntryCount, hE]
  refine ⟨f1, by omega, f4, ?_, f5⟩
  intro hf
  obtain ⟨_, hb⟩ := f6 hf
  rw [hb]
  have := min_le_left (s'.TopIndex + page_size - 1) ((m.Entries.length : Int) - 1)
  omega

/-- C6 as amended on `twoEntryState` with `page_size = 5`. -/
theorem prepare_sidebar_window_bounds_witness :
    prepare_sidebar filterEnv insertionQsort twoEntryState 5 = some (true, twoEntryState) ∧
    (0 ≤ twoEntryState.TopIndex ∧ twoEntryState.TopIndex ≤ twoEntryState.BotIndex ∧
      twoEntryState.BotIndex ≤ twoEntryState.EntryCount - 1 ∧
      (filterEnv.SidebarNewMailOnly = false →
        twoEntryState.BotIndex - twoEntryState.TopIndex + 1 ≤ 5) ∧
      (filterEnv.SidebarNewMailOnly = true →
        (visible_between twoEntryState.Entries twoEntryState.TopIndex twoEntryState.BotIndex
          : Int) ≤ 5)) :=
  ⟨by decide, prepare_sidebar_window_bounds filterEnv insertionQsort twoEntryState twoEntryState 5
    (by decide)⟩

/-- C7: whenever `prepare_sidebar(page_size)` returns true, in both modes
`TopIndex <= HilIndex <= BotIndex <= EntryCount-1` and the number of
non-hidden entries at positions `TopIndex .. BotIndex` is at most `page_size`. -/
theorem prepare_sidebar_frames_highlight (env : Env) (q : Qsort) (s s' : State)
    (page_size : Int) (h : prepare_sidebar env q s page_size = some (true, s')) :
    s'.TopIndex ≤ s'.HilIndex ∧ s'.HilIndex ≤ s'.BotIndex ∧ s'.BotIndex ≤ s'.EntryCount - 1 ∧
    (visible_between s'.Entries s'.TopIndex s'.BotIndex : Int) ≤ page_size := by
  obtain ⟨o, hp, m, _, _, _, hs', hps, hn, hhil, _, _, ⟨f1, f2, f3, f4⟩, f5, f6⟩ :=
    prepare_sidebar_spec env q s s' page_size h
  have hE0 := congrArg State.Entries hs'
  have hE : s'.Entries = m.Entries := hE0
  simp only [State.EntryCount, hE]
  refine ⟨f2, f3, f4, ?_⟩
  cases hf : env.SidebarNewMailOnly with
  | true => exact f5 hf
  | false =>
    obtain ⟨_, hb⟩ := f6 hf
    have hmin := min_le_left (s'.TopIndex + page_size - 1) ((m.Entries.length : Int) - 1)
    have hle := visible_in_le m.Entries s'.TopIndex.toNat (s'.BotIndex + 1).toNat
    unfold visible_between
    omega

/-- C7 on the first pass over three new entries with `page_size = 2`. -/
theorem prepare_sidebar_frames_highlight_witness :
    prepare_sidebar filterEnv insertionQsort
        (notify_all filterEnv (State.init sortConsts)
          [(some 1, true), (some 2, true), (some 3, true)]) 2
      = some (true, threeEntryState) ∧
    (threeEntryState.TopIndex ≤ threeEntryState.HilIndex ∧
      threeEntryState.HilIndex ≤ threeEntryState.BotIndex ∧
      threeEntryState.BotIndex ≤ threeEntryState.EntryCount - 1 ∧
      (visible_between threeEntryState.Entries threeEntryState.TopIndex
        threeEntryState.BotIndex : Int) ≤ 2) :=
  ⟨by decide, prepare_sidebar_frames_highlight filterEnv insertionQsort
    (notify_all filterEnv (State.init sortConsts)
      [(some 1, true), (some 2, true), (some 3, true)]) threeEntryState 2 (by decide)⟩

/-- C8: when `SidebarNewMailOnly` is off and `prepare_sidebar(page_size)`
returns true, `TopIndex = (HilIndex / page_size) * page_size` with the
truncating division of C and `BotIndex = min(TopIndex + page_size - 1,
EntryCount - 1)`. -/
theorem prepare_sidebar_unfiltered_page (env : Env) (q : Qsort) (s s' : State)
    (page_size : Int) (hf : env.SidebarNewMailOnly = false)
    (h : prepare_sidebar env q s page_size = some (true, s')) :
    s'.TopIndex = s'.HilIndex.tdiv page_size * page_size ∧
    s'.BotIndex = min (s'.TopIndex + page_size - 1) (s'.EntryCount - 1) := by
  obtain ⟨o, hp, m, _, _, _, hs', _, _, _, _, _, _, _, f6⟩ :=
    prepare_sidebar_spec env q s s' page_size h
  have hE0 := congrArg State.Entries hs'
  have hE : s'.Entries = m.Entries := hE0
  simp only [State.EntryCount, hE]
  exact f6 hf

/-- C8, the example: 5 entries, `page_size` 2, `HilIndex` 4 gives
`TopIndex = BotIndex = 4`. -/
theorem prepare_sidebar_unfiltered_page_witness :
    plainEnv.SidebarNewMailOnly = false ∧
    prepare_sidebar plainEnv insertionQsort fiveEntryState 2 =
      some (true, { fiveEntryState with TopIndex := 4, BotIndex := 4 }) ∧
    ((4 : Int) = (4 : Int).tdiv 2 * 2 ∧
      (4 : Int) = min (4 + 2 - 1) (fiveEntryState.EntryCount - 1)) :=
  ⟨rfl, by decide, prepare_sidebar_unfiltered_page plainEnv insertionQsort fiveEntryState
    { fiveEntryState with TopIndex := 4, BotIndex := 4 } 2 rfl (by decide)⟩

/-- C9, as stated, fails: with two entries, none hidden, the second one
highlighted and the sort method changed since the last pass,
`prepare_sidebar` returns true with `HilIndex` moved to the first entry. -/
theorem prepare_sidebar_highlight_moved :
    0 ≤ secondHighlighted.HilIndex ∧
    visible_at (update_entries_visibility countEnv secondHighlighted).Entries
      secondHighlighted.HilIndex ∧
    (entryAt secondHighlighted.Entries secondHighlighted.HilIndex).map SbEntry.addr = some 2 ∧
    ∃ s', prepare_sidebar countEnv insertionQsort secondHighlighted 5 = some (true, s') ∧
      (entryAt s'.Entries s'.HilIndex).map SbEntry.addr = some 1 :=
  ⟨by decide, by decide, by decide,
    { secondHighlighted with HilIndex := 0, PreviousSort := 15 }, by decide, by decide⟩

/-- C9, amended: after `prepare_sidebar` returns true, if `HilIndex` was set on
entry, the entry it designated is not hidden after the filter pass and the
sort method equals `PreviousSort`, then `HilIndex` designates that same entry
at its new position; otherwise `HilIndex` equals `OpnIndex` when `OpnIndex` is
set, and else is the smallest index of a non-hidden entry when there is one. -/
theorem prepare_sidebar_revalidates_highlight (env : Env) (q : Qsort) (s s' : State) (page_size : Int)
    (hnd : (s.Entries.map SbEntry.addr).Nodup)
    (h : prepare_sidebar env q s page_size = some (true, s')) :
    ((0 ≤ s.HilIndex ∧
        visible_at (update_entries_visibility env s).Entries s.HilIndex ∧
        env.SidebarSortMethod = s.PreviousSort) →
      entryAt s'.Entries s'.HilIndex =
          entryAt (update_entries_visibility env s).Entries s.HilIndex ∧
        (entryAt s'.Entries s'.HilIndex).map SbEntry.addr =
          (entryAt s.Entries s.HilIndex).map SbEntry.addr) ∧
    (¬ (0 ≤ s.HilIndex ∧
        visible_at (update_entries_visibility env s).Entries s.HilIndex ∧
        env.SidebarSortMethod = s.PreviousSort) →
      (0 ≤ s'.OpnIndex → s'.HilIndex = s'.OpnIndex) ∧
      (s'.OpnIndex < 0 → (∃ j, visible_at s'.Entries j) →
        visible_at s'.Entries s'.HilIndex ∧
        ∀ j, j < s'.HilIndex → ¬ visible_at s'.Entries j)) := by
  obtain ⟨o, hp, m, eo, eh, hm, hs', _, _, _, r4, r5, _, _, _⟩ :=
    prepare_sidebar_spec env q s s' page_size h
  have hE0 := congrArg State.Entries hs'
  have hE : s'.Entries = m.Entries := hE0
  have hO0 := congrArg State.OpnIndex hs'
  have hO : s'.OpnIndex = m.OpnIndex := hO0
  obtain ⟨_, _, _, fP⟩ := relocate_indices_fields env q s o hp
  rw [← hm] at fP
  -- the condition under which `HilIndex` is kept, read on `m` and on `s`
  have hcond : (0 ≤ m.HilIndex ∧ visible_at m.Entries m.HilIndex ∧
      env.SidebarSortMethod = m.PreviousSort) ↔
      (0 ≤ s.HilIndex ∧ visible_at (update_entries_visibility env s).Entries s.HilIndex ∧
        env.SidebarSortMethod = s.PreviousSort) := by
    rw [fP]
    by_cases h0 : 0 ≤ s.HilIndex
    · obtain ⟨g1, g2, _⟩ := relocate_indices_highlight env q s o hp hnd h0 eh
      rw [← hm] at g1 g2
      unfold visible_at
      rw [g2]
      constructor
      · rintro ⟨_, a, b⟩; exact ⟨h0, a, b⟩
      · rintro ⟨_, a, b⟩; exact ⟨g1, a, b⟩
    · have g := relocate_indices_unset env q s o hp (by omega) eh
      rw [← hm] at g
      constructor
      · rintro ⟨a, _, _⟩; omega
      · rintro ⟨a, _, _⟩; omega
  constructor
  · intro hk
    have hkeep := r4 (hcond.mpr hk)
    obtain ⟨_, g2, _⟩ := relocate_indices_highlight env q s o hp hnd hk.1 eh
    rw [← hm] at g2
    have e1 : entryAt s'.Entries s'.HilIndex =
        entryAt (update_entries_visibility env s).Entries s.HilIndex := by
      rw [hE, hkeep, g2]
    refine ⟨e1, ?_⟩
    rw [e1, update_entries_visibility_entryAt]
    cases entryAt s.Entries s.HilIndex with
    | none => rfl
    | some e => simp [(visibility_of_addr env s.OpnIndex s.HilIndex.toNat e).1]
  · intro hk
    obtain ⟨a, b⟩ := r5 (fun hc => hk (hcond.mp hc))
    rw [hE, hO]
    exact ⟨a, fun hneg hex => (b hneg).1 hex⟩

/-- C9 as amended on `threeEntryState`, whose highlighted entry stays visible. -/
theorem prepare_sidebar_revalidates_highlight_witness :
    (threeEntryState.Entries.map SbEntry.addr).Nodup ∧
    prepare_sidebar filterEnv insertionQsort threeEntryState 2 = some (true, threeEntryState) ∧
    (0 ≤ threeEntryState.HilIndex ∧
      visible_at (update_entries_visibility filterEnv threeEntryState).Entries
        threeEntryState.HilIndex ∧
      filterEnv.SidebarSortMethod = threeEntryState.PreviousSort) ∧
    ((0 ≤ threeEntryState.HilIndex ∧
        visible_at (update_entries_visibility filterEnv threeEntryState).Entries
          threeEntryState.HilIndex ∧
        filterEnv.SidebarSortMethod = threeEntryState.PreviousSort) →
      entryAt threeEntryState.Entries threeEntryState.HilIndex =
          entryAt (update_entries_visibility filterEnv threeEntryState).Entries
            threeEntryState.HilIndex ∧
        (entryAt threeEntryState.Entries threeEntryState.HilIndex).map SbEntry.addr =
          (entryAt threeEntryState.Entries threeEntryState.HilIndex).map SbEntry.addr) :=
  ⟨by decide, by decide, by decide,
    (prepare_sidebar_revalidates_highlight filterEnv insertionQsort threeEntryState threeEntryState 2
      (by decide) (by decide)).1⟩

/-! ## The navigator: new mail, pages, and what stays unchanged -/

theorem new_mail_at_iff {env : Env} {Entries : List SbEntry} {i : Int} :
    new_mail_at env Entries i ↔ ∃ e, entryAt Entries i = some e ∧ has_new_mail env e = true := by
  unfold new_mail_at
  cases entryAt Entries i <;> simp

theorem new_mail_at_range {env : Env} {Entries : List SbEntry} {i : Int}
    (h : new_mail_at env Entries i) : 0 ≤ i ∧ i < Entries.length := by
  obtain ⟨e, he, _⟩ := new_mail_at_iff.mp h
  have := entryAt_eq_some he
  exact ⟨this.1, this.2.1⟩

theorem not_new_mail_at {env : Env} {Entries : List SbEntry} {i : Int} {e : SbEntry}
    (he : entryAt Entries i = some e) (hh : has_new_mail env e = false) :
    ¬ new_mail_at env Entries i := by
  rw [new_mail_at_iff]
  rintro ⟨e', he', hv'⟩
  rw [he] at he'; cases he'; rw [hh] at hv'; cases hv'

/-- One step of the forward scan for new mail at an index that is neither the
end of the array nor the starting position. -/
theorem select_next_new_loop_step (env : Env) (Entries : List SbEntry) (HilIndex : Int)
    (fuel : Nat) (entry : Int) (e : SbEntry) (h1 : entry + 1 ≠ (Entries.length : Int))
    (h2 : entry + 1 ≠ HilIndex) (he : entryAt Entries (entry + 1) = some e) :
    select_next_new_loop env Entries HilIndex (fuel + 1) entry =
      if has_new_mail env e = true then some (some (entry + 1))
      else select_next_new_loop env Entries HilIndex fuel (entry + 1) := by
  rw [select_next_new_loop]
  simp only [h1, if_false, h2, he]
  cases has_new_mail env e <;> simp

/-- The forward scan for new mail below the starting position (the part after
a wrap): it stops at the nearest match before `HilIndex`, or fails on
reaching `HilIndex`. -/
theorem select_next_new_loop_below (env : Env) (Entries : List SbEntry) (HilIndex : Int)
    (hh : HilIndex < Entries.length) : ∀ (fuel : Nat) (entry : Int),
    -1 ≤ entry → entry < HilIndex → HilIndex - entry ≤ fuel →
    (select_next_new_loop env Entries HilIndex fuel entry = some none ∧
      ∀ j, entry < j → j < HilIndex → ¬ new_mail_at env Entries j) ∨
    (∃ k, select_next_new_loop env Entries HilIndex fuel entry = some (some k) ∧
      entry < k ∧ k < HilIndex ∧ new_mail_at env Entries k ∧
      ∀ j, entry < j → j < k → ¬ new_mail_at env Entries j) := by
  intro fuel
  induction fuel with
  | zero => intro entry h0 h1 h2; omega
  | succ fuel ih =>
    intro entry h0 h1 h2
    by_cases hend : entry + 1 = HilIndex
    · left
      refine ⟨?_, fun j hj hj' => by omega⟩
      rw [select_next_new_loop]
      have hne : ¬ (HilIndex = (Entries.length : Int)) := by omega
      simp only [hend, hne, if_false, if_true]
    · obtain ⟨e, he⟩ := entryAt_of_range Entries (entry + 1) (by omega) (by omega)
      rw [select_next_new_loop_step env Entries HilIndex fuel entry e (by omega) hend he]
      by_cases hm : has_new_mail env e = true
      · right
        rw [if_pos hm]
        exact ⟨entry + 1, rfl, by omega, by omega, new_mail_at_iff.mpr ⟨e, he, hm⟩,
          fun j hj hj' => by omega⟩
      · rw [if_neg hm]
        have hnm : ¬ new_mail_at env Entries (entry + 1) :=
          not_new_mail_at he (by simpa using hm)
        rcases ih (entry + 1) (by omega) (by omega) (by push_cast at h2 ⊢; omega) with
          ⟨h3, h4⟩ | ⟨k, h3, h4, h5, h6, h7⟩
        · left
          refine ⟨h3, fun j hj hj' => ?_⟩
          by_cases hje : j = entry + 1
          · rw [hje]; exact hnm
          · exact h4 j (by omega) hj'
        · right
          refine ⟨k, h3, by omega, h5, h6, fun j hj hj' => ?_⟩
          by_cases hje : j = entry + 1
          · rw [hje]; exact hnm
          · exact h7 j (by omega) hj'

/-- With wrap-around, the iteration that leaves the end of the array is the
iteration that would start before index 0. -/
theorem select_next_new_loop_wrap (env : Env) (Entries : List SbEntry) (HilIndex : Int)
    (fuel : Nat) (hw : env.SidebarNextNewWrap = true) (hn : 0 < Entries.length) :
    select_next_new_loop env Entries HilIndex (fuel + 1) ((Entries.length : Int) - 1) =
      select_next_new_loop env Entries HilIndex (fuel + 1) (-1) := by
  rw [select_next_new_loop, select_next_new_loop]
  have h1 : (Entries.length : Int) - 1 + 1 = Entries.length := by omega
  have h2 : ¬ ((-1 : Int) + 1 = (Entries.length : Int)) := by omega
  simp only [h1, if_true, hw, h2, if_false]
  rfl

/-- The forward scan for new mail from the starting position on: it stops at
the nearest match after `entry`; if there is none it fails without
wrap-around, and with wrap-around goes on from index 0 up to `HilIndex`. -/
theorem select_next_new_loop_above (env : Env) (Entries : List SbEntry) (HilIndex : Int)
    (hh0 : 0 ≤ HilIndex) : ∀ (fuel : Nat) (entry : Int),
    HilIndex ≤ entry → entry < Entries.length →
    (Entries.length : Int) - entry + HilIndex + 1 ≤ fuel →
    (∃ k, select_next_new_loop env Entries HilIndex fuel entry = some (some k) ∧
      entry < k ∧ new_mail_at env Entries k ∧
      ∀ j, entry < j → j < k → ¬ new_mail_at env Entries j) ∨
    ((∀ j, entry < j → ¬ new_mail_at env Entries j) ∧
      (env.SidebarNextNewWrap = false →
        select_next_new_loop env Entries HilIndex fuel entry = some none) ∧
      (env.SidebarNextNewWrap = true →
        (select_next_new_loop env Entries HilIndex fuel entry = some none ∧
          ∀ j, j < HilIndex → ¬ new_mail_at env Entries j) ∨
        (∃ k, select_next_new_loop env Entries HilIndex fuel entry = some (some k) ∧
          k < HilIndex ∧ new_mail_at env Entries k ∧
          ∀ j, j < k → ¬ new_mail_at env Entries j))) := by
  intro fuel
  induction fuel with
  | zero => intro entry h0 h1 h2; omega
  | succ fuel ih =>
    intro entry h0 h1 h2
    by_cases hend : entry + 1 = (Entries.length : Int)
    · right
      have hnone : ∀ j, entry < j → ¬ new_mail_at env Entries j := by
        intro j hj hv
        have := new_mail_at_range hv
        omega
      refine ⟨hnone, ?_, ?_⟩
      · intro hw
        rw [select_next_new_loop]
        simp only [hend, if_true, hw]
        rfl
      · intro hw
        have he : entry = (Entries.length : Int) - 1 := by omega
        rw [he, select_next_new_loop_wrap env Entries HilIndex fuel hw (by omega)]
        rcases select_next_new_loop_below env Entries HilIndex (by omega) (fuel + 1) (-1)
            (le_refl _) (by omega) (by push_cast at h2 ⊢; omega) with
          ⟨h3, h4⟩ | ⟨k, h3, h4, h5, h6, h7⟩
        · left
          refine ⟨h3, fun j hj hv => ?_⟩
          have := new_mail_at_range hv
          exact h4 j (by omega) hj hv
        · right
          refine ⟨k, h3, h5, h6, fun j hj hv => ?_⟩
          have := new_mail_at_range hv
          exact h7 j (by omega) hj hv
    · obtain ⟨e, he⟩ := entryAt_of_range Entries (entry + 1) (by omega) (by omega)
      rw [select_next_new_loop_step env Entries HilIndex fuel entry e hend (by omega) he]
      by_cases hm : has_new_mail env e = true
      · left
        rw [if_pos hm]
        exact ⟨entry + 1, rfl, by omega, new_mail_at_iff.mpr ⟨e, he, hm⟩,
          fun j hj hj' => by omega⟩
      · rw [if_neg hm]
        have hnm : ¬ new_mail_at env Entries (entry + 1) :=
          not_new_mail_at he (by simpa using hm)
        rcases ih (entry + 1) (by omega) (by omega) (by push_cast at h2 ⊢; omega) with
          ⟨k, h3, h4, h5, h6⟩ | ⟨h3, h4, h5⟩
        · left
          refine ⟨k, h3, by omega, h5, fun j hj hj' => ?_⟩
          by_cases hje : j = entry + 1
          · rw [hje]; exact hnm
          · exact h6 j (by omega) hj'
        · right
          refine ⟨fun j hj => ?_, h4, h5⟩
          by_cases hje : j = entry + 1
          · rw [hje]; exact hnm
          · exact h3 j (by omega)

/-- What `select_next_new` does from a highlighted index within the array. -/
theorem select_next_new_cases (env : Env) (s : State) (h0 : 0 ≤ s.HilIndex)
    (h1 : s.HilIndex < s.EntryCount) :
    (∃ k, select_next_new env s = some (true, { s with HilIndex := k }) ∧
      s.HilIndex < k ∧ new_mail_at env s.Entries k ∧
      ∀ j, s.HilIndex < j → j < k → ¬ new_mail_at env s.Entries j) ∨
    ((∀ j, s.HilIndex < j → ¬ new_mail_at env s.Entries j) ∧
      (env.SidebarNextNewWrap = false → select_next_new env s = some (false, s)) ∧
      (env.SidebarNextNewWrap = true →
        (select_next_new env s = some (false, s) ∧
          ∀ j, j < s.HilIndex → ¬ new_mail_at env s.Entries j) ∨
        (∃ k, select_next_new env s = some (true, { s with HilIndex := k }) ∧
          k < s.HilIndex ∧ new_mail_at env s.Entries k ∧
          ∀ j, j < k → ¬ new_mail_at env s.Entries j))) := by
  unfold State.EntryCount at h1
  have hlen : ¬ (s.Entries.length = 0 ∨ s.HilIndex < 0) := by omega
  unfold select_next_new
  rw [if_neg hlen]
  rcases select_next_new_loop_above env s.Entries s.HilIndex h0 (s.Entries.length + 1) s.HilIndex
      (le_refl _) h1 (by push_cast; omega) with ⟨k, h3, h4, h5, h6⟩ | ⟨h3, h4, h5⟩
  · left; rw [h3]; exact ⟨k, rfl, h4, h5, h6⟩
  · right
    refine ⟨h3, fun hw => by rw [h4 hw], fun hw => ?_⟩
    rcases h5 hw with ⟨h6, h7⟩ | ⟨k, h6, h7, h8, h9⟩
    · left; rw [h6]; exact ⟨rfl, h7⟩
    · right; rw [h6]; exact ⟨k, rfl, h7, h8, h9⟩

/-- One step of the backward scan for new mail at an index that is neither
before the start of the array nor the starting position. -/
theorem select_prev_new_loop_step (env : Env) (Entries : List SbEntry) (HilIndex : Int)
    (fuel : Nat) (entry : Int) (e : SbEntry) (h1 : ¬ entry - 1 < 0)
    (h2 : entry - 1 ≠ HilIndex) (he : entryAt Entries (entry - 1) = some e) :
    select_prev_new_loop env Entries HilIndex (fuel + 1) entry =
      if has_new_mail env e = true then some (some (entry - 1))
      else select_prev_new_loop env Entries HilIndex fuel (entry - 1) := by
  rw [select_prev_new_loop]
  simp only [h1, if_false, h2, he]
  cases has_new_mail env e <;> simp

/-- The backward scan for new mail above the starting position (the part
after a wrap): it stops at the nearest match after `HilIndex`, or fails on
reaching `HilIndex`. -/
theorem select_prev_new_loop_above (env : Env) (Entries : List SbEntry) (HilIndex : Int)
    (hh : 0 ≤ HilIndex) : ∀ (fuel : Nat) (entry : Int),
    entry ≤ Entries.length → HilIndex < entry → entry - HilIndex ≤ fuel →
    (select_prev_new_loop env Entries HilIndex fuel entry = some none ∧
      ∀ j, HilIndex < j → j < entry → ¬ new_mail_at env Entries j) ∨
    (∃ k, select_prev_new_loop env Entries HilIndex fuel entry = some (some k) ∧
      k < entry ∧ HilIndex < k ∧ new_mail_at env Entries k ∧
      ∀ j, k < j → j < entry → ¬ new_mail_at env Entries j) := by
  intro fuel
  induction fuel with
  | zero => intro entry h0 h1 h2; omega
  | succ fuel ih =>
    intro entry h0 h1 h2
    by_cases hend : entry - 1 = HilIndex
    · left
      refine ⟨?_, fun j hj hj' => by omega⟩
      rw [select_prev_new_loop]
      have hne : ¬ (HilIndex < 0) := by omega
      simp only [hend, hne, if_false, if_true]
    · obtain ⟨e, he⟩ := entryAt_of_range Entries (entry - 1) (by omega) (by omega)
      rw [select_prev_new_loop_step env Entries HilIndex fuel entry e (by omega) hend he]
      by_cases hm : has_new_mail env e = true
      · right
        rw [if_pos hm]
        exact ⟨entry - 1, rfl, by omega, by omega, new_mail_at_iff.mpr ⟨e, he, hm⟩,
          fun j hj hj' => by omega⟩
      · rw [if_neg hm]
        have hnm : ¬ new_mail_at env Entries (entry - 1) :=
          not_new_mail_at he (by simpa using hm)
        rcases ih (entry - 1) (by omega) (by omega) (by push_cast at h2 ⊢; omega) with
          ⟨h3, h4⟩ | ⟨k, h3, h4, h5, h6, h7⟩
        · left
          refine ⟨h3, fun j hj hj' => ?_⟩
          by_cases hje : j = entry - 1
          · rw [hje]; exact hnm
          · exact h4 j hj (by omega)
        · right
          refine ⟨k, h3, by omega, h5, h6, fun j hj hj' => ?_⟩
          by_cases hje : j = entry - 1
          · rw [hje]; exact hnm
          · exact h7 j hj (by omega)

/-- With wrap-around, the iteration that leaves the start of the array is the
iteration that would start after the last index. -/
theorem select_prev_new_loop_wrap (env : Env) (Entries : List SbEntry) (HilIndex : Int)
    (fuel : Nat) (hw : env.SidebarNextNewWrap = true) (hn : 0 < Entries.length) :
    select_prev_new_loop env Entries HilIndex (fuel + 1) 0 =
      select_prev_new_loop env Entries HilIndex (fuel + 1) (Entries.length : Int) := by
  rw [select_prev_new_loop, select_prev_new_loop]
  have h1 : (0 : Int) - 1 < 0 := by omega
  have h2 : ¬ ((Entries.length : Int) - 1 < 0) := by omega
  simp only [h1, if_true, hw, h2, if_false]

/-- The backward scan for new mail from the starting position on: it stops at
the nearest match before `entry`; if there is none it fails without
wrap-around, and with wrap-around goes on from the last index down to
`HilIndex`. -/
theorem select_prev_new_loop_below (env : Env) (Entries : List SbEntry) (HilIndex : Int)
    (hh1 : HilIndex < Entries.length) : ∀ (fuel : Nat) (entry : Int),
    0 ≤ entry → entry ≤ HilIndex →
    entry + ((Entries.length : Int) - HilIndex) + 1 ≤ fuel →
    (∃ k, select_prev_new_loop env Entries HilIndex fuel entry = some (some k) ∧
      k < entry ∧ new_mail_at env Entries k ∧
      ∀ j, k < j → j < entry → ¬ new_mail_at env Entries j) ∨
    ((∀ j, j < entry → ¬ new_mail_at env Entries j) ∧
      (env.SidebarNextNewWrap = false →
        select_prev_new_loop env Entries HilIndex fuel entry = some none) ∧
      (env.SidebarNextNewWrap = true →
        (select_prev_new_loop env Entries HilIndex fuel entry = some none ∧
          ∀ j, HilIndex < j → ¬ new_mail_at env Entries j) ∨
        (∃ k, select_prev_new_loop env Entries HilIndex fuel entry = some (some k) ∧
          HilIndex < k ∧ new_mail_at env Entries k ∧
          ∀ j, k < j → ¬ new_mail_at env Entries j))) := by
  intro fuel
  induction fuel with
  | zero => intro entry h0 h1 h2; omega
  | succ fuel ih =>
    intro entry h0 h1 h2
    by_cases hend : entry - 1 < 0
    · right
      have hnone : ∀ j, j < entry → ¬ new_mail_at env Entries j := by
        intro j hj hv
        have := new_mail_at_range hv
        omega
      refine ⟨hnone, ?_, ?_⟩
      · intro hw
        rw [select_prev_new_loop]
        simp only [hend, if_true, hw]
        rfl
      · intro hw
        have he : entry = 0 := by omega
        rw [he, select_prev_new_loop_wrap env Entries HilIndex fuel hw (by omega)]
        rcases select_prev_new_loop_above env Entries HilIndex (by omega) (fuel + 1)
            (Entries.length : Int) (le_refl _) hh1 (by push_cast at h2 ⊢; omega) with
          ⟨h3, h4⟩ | ⟨k, h3, h4, h5, h6, h7⟩
        · left
          refine ⟨h3, fun j hj hv => ?_⟩
          have := new_mail_at_range hv
          exact h4 j hj (by omega) hv
        · right
          refine ⟨k, h3, h5, h6, fun j hj hv => ?_⟩
          have := new_mail_at_range hv
          exact h7 j hj (by omega) hv
    · obtain ⟨e, he⟩ := entryAt_of_range Entries (entry - 1) (by omega) (by omega)
      rw [select_prev_new_loop_step env Entries HilIndex fuel entry e hend (by omega) he]
      by_cases hm : has_new_mail env e = true
      · left
        rw [if_pos hm]
        exact ⟨entry - 1, rfl, by omega, new_mail_at_iff.mpr ⟨e, he, hm⟩,
          fun j hj hj' => by omega⟩
      · rw [if_neg hm]
        have hnm : ¬ new_mail_at env Entries (entry - 1) :=
          not_new_mail_at he (by simpa using hm)
        rcases ih (entry - 1) (by omega) (by omega) (by push_cast at h2 ⊢; omega) with
          ⟨k, h3, h4, h5, h6⟩ | ⟨h3, h4, h5⟩
        · left
          refine ⟨k, h3, by omega, h5, fun j hj hj' => ?_⟩
          by_cases hje : j = entry - 1
          · rw [hje]; exact hnm
          · exact h6 j hj (by omega)
        · right
          refine ⟨fun j hj => ?_, h4, h5⟩
          by_cases hje : j = entry - 1
          · rw [hje]; exact hnm
          · exact h3 j (by omega)

/-- What `select_prev_new` does from a highlighted index within the array. -/
theorem select_prev_new_cases (env : Env) (s : State) (h0 : 0 ≤ s.HilIndex)
    (h1 : s.HilIndex < s.EntryCount) :
    (∃ k, select_prev_new env s = some (true, { s with HilIndex := k }) ∧
      k < s.HilIndex ∧ new_mail_at env s.Entries k ∧
      ∀ j, k < j → j < s.HilIndex → ¬ new_mail_at env s.Entries j) ∨
    ((∀ j, j < s.HilIndex → ¬ new_mail_at env s.Entries j) ∧
      (env.SidebarNextNewWrap = false → select_prev_new env s = some (false, s)) ∧
      (env.SidebarNextNewWrap = true →
        (select_prev_new env s = some (false, s) ∧
          ∀ j, s.HilIndex < j → ¬ new_mail_at env s.Entries j) ∨
        (∃ k, select_prev_new env s = some (true, { s with HilIndex := k }) ∧
          s.HilIndex < k ∧ new_mail_at env s.Entries k ∧
          ∀ j, k < j → ¬ new_mail_at env s.Entries j))) := by
  unfold State.EntryCount at h1
  have hlen : ¬ (s.Entries.length = 0 ∨ s.HilIndex < 0) := by omega
  unfold select_prev_new
  rw [if_neg hlen]
  rcases select_prev_new_loop_below env s.Entries s.HilIndex h1 (s.Entries.length + 1) s.HilIndex
      h0 (le_refl _) (by push_cast; omega) with ⟨k, h3, h4, h5, h6⟩ | ⟨h3, h4, h5⟩
  · left; rw [h3]; exact ⟨k, rfl, h4, h5, h6⟩
  · right
    refine ⟨h3, fun hw => by rw [h4 hw], fun hw => ?_⟩
    rcases h5 hw with ⟨h6, h7⟩ | ⟨k, h6, h7, h8, h9⟩
    · left; rw [h6]; exact ⟨rfl, h7⟩
    · right; rw [h6]; exact ⟨k, rfl, h7, h8, h9⟩

/-- C11: for `0 <= HilIndex < EntryCount`, a match being an entry whose folder
has `has_new` set or a non-zero unread count.  Without wrap `select_next_new`
(resp. `select_prev_new`) succeeds iff a match exists after (resp. before)
`HilIndex` and moves `HilIndex` to the nearest one; with `SidebarNextNewWrap`
it succeeds iff some entry other than the one at `HilIndex` is a match and
moves `HilIndex` to the first match met scanning cyclically from the position
after (resp. before) `HilIndex`.  On success only `HilIndex` changes, it
differs from the old value and is a match; on failure the state is unchanged.
The hidden flags do not occur in the characterisation. -/
theorem select_new_nearest (env : Env) (s : State) (h0 : 0 ≤ s.HilIndex)
    (h1 : s.HilIndex < s.EntryCount) :
    (∃ r s', select_next_new env s = some (r, s') ∧
      (env.SidebarNextNewWrap = false →
        (r = true ↔ ∃ j, s.HilIndex < j ∧ new_mail_at env s.Entries j) ∧
        (r = true → s.HilIndex < s'.HilIndex ∧
          ∀ j, s.HilIndex < j → j < s'.HilIndex → ¬ new_mail_at env s.Entries j)) ∧
      (env.SidebarNextNewWrap = true →
        (r = true ↔ ∃ j, j ≠ s.HilIndex ∧ new_mail_at env s.Entries j) ∧
        (r = true →
          (s.HilIndex < s'.HilIndex ∧
            ∀ j, s.HilIndex < j → j < s'.HilIndex → ¬ new_mail_at env s.Entries j) ∨
          (s'.HilIndex < s.HilIndex ∧
            (∀ j, s.HilIndex < j → ¬ new_mail_at env s.Entries j) ∧
            ∀ j, j < s'.HilIndex → ¬ new_mail_at env s.Entries j))) ∧
      (r = true → s' = { s with HilIndex := s'.HilIndex } ∧ s'.HilIndex ≠ s.HilIndex ∧
        new_mail_at env s.Entries s'.HilIndex) ∧
      (r = false → s' = s)) ∧
    (∃ r s', select_prev_new env s = some (r, s') ∧
      (env.SidebarNextNewWrap = false →
        (r = true ↔ ∃ j, j < s.HilIndex ∧ new_mail_at env s.Entries j) ∧
        (r = true → s'.HilIndex < s.HilIndex ∧
          ∀ j, s'.HilIndex < j → j < s.HilIndex → ¬ new_mail_at env s.Entries j)) ∧
      (env.SidebarNextNewWrap = true →
        (r = true ↔ ∃ j, j ≠ s.HilIndex ∧ new_mail_at env s.Entries j) ∧
        (r = true →
          (s'.HilIndex < s.HilIndex ∧
            ∀ j, s'.HilIndex < j → j < s.HilIndex → ¬ new_mail_at env s.Entries j) ∨
          (s.HilIndex < s'.HilIndex ∧
            (∀ j, j < s.HilIndex → ¬ new_mail_at env s.Entries j) ∧
            ∀ j, s'.HilIndex < j → ¬ new_mail_at env s.Entries j))) ∧
      (r = true → s' = { s with HilIndex := s'.HilIndex } ∧ s'.HilIndex ≠ s.HilIndex ∧
        new_mail_at env s.Entries s'.HilIndex) ∧
      (r = false → s' = s)) := by
  constructor
  · rcases select_next_new_cases env s h0 h1 with ⟨k, e1, e2, e3, e4⟩ | ⟨n1, n2, n3⟩
    · refine ⟨true, _, e1, ?_, ?_, ?_, ?_⟩
      · intro _
        exact ⟨⟨fun _ => ⟨k, e2, e3⟩, fun _ => rfl⟩, fun _ => ⟨e2, e4⟩⟩
      · intro _
        exact ⟨⟨fun _ => ⟨k, by omega, e3⟩, fun _ => rfl⟩, fun _ => Or.inl ⟨e2, e4⟩⟩
      · intro _
        exact ⟨rfl, by simp only; omega, e3⟩
      · intro h
        exact Bool.noConfusion h
    · by_cases hw : env.SidebarNextNewWrap = true
      · rcases n3 hw with ⟨e1, e2⟩ | ⟨k, e1, e2, e3, e4⟩
        · refine ⟨false, s, e1, ?_, ?_, ?_, ?_⟩
          · intro hf
            rw [hw] at hf
            exact Bool.noConfusion hf
          · intro _
            refine ⟨⟨fun h => Bool.noConfusion h, ?_⟩, fun h => Bool.noConfusion h⟩
            rintro ⟨j, hj, hv⟩
            rcases lt_or_gt_of_ne hj with hlt | hgt
            · exact absurd hv (e2 j hlt)
            · exact absurd hv (n1 j hgt)
          · intro h
            exact Bool.noConfusion h
          · intro _
            rfl
        · refine ⟨true, _, e1, ?_, ?_, ?_, ?_⟩
          · intro hf
            rw [hw] at hf
            exact Bool.noConfusion hf
          · intro _
            exact ⟨⟨fun _ => ⟨k, by omega, e3⟩, fun _ => rfl⟩, fun _ => Or.inr ⟨e2, n1, e4⟩⟩
          · intro _
            exact ⟨rfl, by simp only; omega, e3⟩
          · intro h
            exact Bool.noConfusion h
      · have hw' : env.SidebarNextNewWrap = false := by simpa using hw
        refine ⟨false, s, n2 hw', ?_, ?_, ?_, ?_⟩
        · intro _
          refine ⟨⟨fun h => Bool.noConfusion h, ?_⟩, fun h => Bool.noConfusion h⟩
          rintro ⟨j, hj, hv⟩
          exact absurd hv (n1 j hj)
        · intro ht
          exact absurd ht hw
        · intro h
          exact Bool.noConfusion h
        · intro _
          rfl
  · rcases select_prev_new_cases env s h0 h1 with ⟨k, e1, e2, e3, e4⟩ | ⟨n1, n2, n3⟩
    · refine ⟨true, _, e1, ?_, ?_, ?_, ?_⟩
      · intro _
        exact ⟨⟨fun _ => ⟨k, e2, e3⟩, fun _ => rfl⟩, fun _ => ⟨e2, e4⟩⟩
      · intro _
        exact ⟨⟨fun _ => ⟨k, by omega, e3⟩, fun _ => rfl⟩, fun _ => Or.inl ⟨e2, e4⟩⟩
      · intro _
        exact ⟨rfl, by simp only; omega, e3⟩
      · intro h
        exact Bool.noConfusion h
    · by_cases hw : env.SidebarNextNewWrap = true
      · rcases n3 hw with ⟨e1, e2⟩ | ⟨k, e1, e2, e3, e4⟩
        · refine ⟨false, s, e1, ?_, ?_, ?_, ?_⟩
          · intro hf
            rw [hw] at hf
            exact Bool.noConfusion hf
          · intro _
            refine ⟨⟨fun h => Bool.noConfusion h, ?_⟩, fun h => Bool.noConfusion h⟩
            rintro ⟨j, hj, hv⟩
            rcases lt_or_gt_of_ne hj with hlt | hgt
            · exact absurd hv (n1 j hlt)
            · exact absurd hv (e2 j hgt)
          · intro h
            exact Bool.noConfusion h
          · intro _
            rfl
        · refine ⟨true, _, e1, ?_, ?_, ?_, ?_⟩
          · intro hf
            rw [hw] at hf
            exact Bool.noConfusion hf
          · intro _
            exact ⟨⟨fun _ => ⟨k, by omega, e3⟩, fun _ => rfl⟩, fun _ => Or.inr ⟨e2, n1, e4⟩⟩
          · intro _
            exact ⟨rfl, by simp only; omega, e3⟩
          · intro h
            exact Bool.noConfusion h
      · have hw' : env.SidebarNextNewWrap = false := by simpa using hw
        refine ⟨false, s, n2 hw', ?_, ?_, ?_, ?_⟩
        · intro _
          refine ⟨⟨fun h => Bool.noConfusion h, ?_⟩, fun h => Bool.noConfusion h⟩
          rintro ⟨j, hj, hv⟩
          exact absurd hv (n1 j hj)
        · intro ht
          exact absurd ht hw
        · intro h
          exact Bool.noConfusion h
        · intro _
          rfl

/-- C11 on `oneUnreadState` without wrap: nothing after index 2, so
`select_next_new` fails and `select_prev_new` moves to index 1. -/
theorem select_new_nearest_witness :
    (0 ≤ oneUnreadState.HilIndex ∧ oneUnreadState.HilIndex < oneUnreadState.EntryCount) ∧
    (∃ r s', select_next_new filterEnv oneUnreadState = some (r, s') ∧
      (r = false → s' = oneUnreadState)) ∧
    select_next_new filterEnv oneUnreadState = some (false, oneUnreadState) ∧
    select_prev_new filterEnv oneUnreadState =
      some (true, { oneUnreadState with HilIndex := 1 }) :=
  ⟨by decide,
    (let ⟨r, s', h, _, _, _, h4⟩ :=
      (select_new_nearest filterEnv oneUnreadState (by decide) (by decide)).1
     ⟨r, s', h, h4⟩),
    by decide, by decide⟩

/-- C12, amended: with `SidebarNextNewWrap` enabled and exactly one entry, at
index `u`, whose folder has unread mail, and no other entry whose folder has
`has_new` set: `select_next_new` called with `HilIndex = u` returns failure and
leaves the state as it is, and called from any other valid `HilIndex` it
returns success with `HilIndex = u`, also when `u` lies before the start. -/
theorem select_next_new_single_unread (env : Env) (s : State) (u : Int) (e : SbEntry)
    (hw : env.SidebarNextNewWrap = true) (hu : entryAt s.Entries u = some e)
    (hun : (env.mbox e.mailbox).msg_unread ≠ 0)
    (honly : ∀ j, j ≠ u → ¬ new_mail_at env s.Entries j) :
    (s.HilIndex = u → select_next_new env s = some (false, s)) ∧
    (0 ≤ s.HilIndex → s.HilIndex < s.EntryCount → s.HilIndex ≠ u →
      select_next_new env s = some (true, { s with HilIndex := u })) := by
  have hnew : new_mail_at env s.Entries u :=
    new_mail_at_iff.mpr ⟨e, hu, by simp [has_new_mail, hun]⟩
  obtain ⟨hu0, hu1, _⟩ := entryAt_eq_some hu
  constructor
  · intro hh
    rcases select_next_new_cases env s (by omega) (by unfold State.EntryCount; omega) with
      ⟨k, _, e2, e3, _⟩ | ⟨_, _, n3⟩
    · exact absurd e3 (honly k (by omega))
    · rcases n3 hw with ⟨e1, _⟩ | ⟨k, _, e2, e3, _⟩
      · exact e1
      · exact absurd e3 (honly k (by omega))
  · intro h0 h1 hne
    rcases select_next_new_cases env s h0 h1 with ⟨k, e1, _, e3, _⟩ | ⟨n1, _, n3⟩
    · have hk : k = u := by
        by_contra hc
        exact honly k hc e3
      rw [e1, hk]
    · rcases n3 hw with ⟨_, e2⟩ | ⟨k, e1, _, e3, _⟩
      · exfalso
        rcases lt_or_gt_of_ne hne with hlt | hgt
        · exact n1 u hlt hnew
        · exact e2 u hgt hnew
      · have hk : k = u := by
          by_contra hc
          exact honly k hc e3
        rw [e1, hk]

/-- C12 as amended on `oneUnreadState`: from index 2 the scan wraps to the only unread
entry at index 1, and from index 1 itself it fails. -/
theorem select_next_new_single_unread_witness :
    (wrapEnv.SidebarNextNewWrap = true ∧
      entryAt oneUnreadState.Entries 1 = some { addr := 2, mailbox := 1, is_hidden := false } ∧
      (wrapEnv.mbox 1).msg_unread ≠ 0 ∧
      oneUnreadState.HilIndex ≠ 1) ∧
    select_next_new wrapEnv oneUnreadState = some (true, { oneUnreadState with HilIndex := 1 }) ∧
    select_next_new wrapEnv { oneUnreadState with HilIndex := 1 } =
      some (false, { oneUnreadState with HilIndex := 1 }) :=
  ⟨by decide,
    (select_next_new_single_unread wrapEnv oneUnreadState 1
      { addr := 2, mailbox := 1, is_hidden := false } rfl (by decide) (by decide)
      (by
        intro j hj hv
        have hr := new_mail_at_range hv
        have h3 : j < 3 := hr.2
        have hj' : j = 0 ∨ j = 2 := by omega
        rcases hj' with rfl | rfl
        · exact absurd hv (by decide)
        · exact absurd hv (by decide))).2 (by decide) (by decide) (by decide),
    by decide⟩

theorem keeps_registry_none (s : State) : keeps_registry s none := by
  intro r s' h; cases h

theorem keeps_registry_fail (s : State) : keeps_registry s (some (false, s)) := by
  intro r s' h
  simp only [Option.some.injEq, Prod.mk.injEq] at h
  obtain ⟨_, rfl⟩ := h
  exact ⟨rfl, fun _ => rfl⟩

theorem keeps_registry_move (s : State) (k : Int) :
    keeps_registry s (some (true, { s with HilIndex := k })) := by
  intro r s' h
  simp only [Option.some.injEq, Prod.mk.injEq] at h
  obtain ⟨rfl, rfl⟩ := h
  exact ⟨rfl, fun h => Bool.noConfusion h⟩

theorem keeps_registry_changed (s : State) (k : Int) :
    keeps_registry s (some (decide (s.HilIndex ≠ k), { s with HilIndex := k })) := by
  intro r s' h
  simp only [Option.some.injEq, Prod.mk.injEq] at h
  obtain ⟨hr, rfl⟩ := h
  refine ⟨rfl, fun hf => ?_⟩
  rw [hf] at hr
  have hk : s.HilIndex = k := by simpa using hr
  rw [← hk]

theorem select_next_shape (s : State) :
    select_next s = none ∨ select_next s = some (false, s) ∨
      ∃ k, select_next s = some (true, { s with HilIndex := k }) := by
  unfold select_next
  split_ifs
  · exact Or.inr (Or.inl rfl)
  · rcases h : select_next_loop s.Entries (s.Entries.length + 1) s.HilIndex with _ | _ | k
    · exact Or.inl rfl
    · exact Or.inr (Or.inl rfl)
    · exact Or.inr (Or.inr ⟨k, rfl⟩)

theorem select_prev_shape (s : State) :
    select_prev s = none ∨ select_prev s = some (false, s) ∨
      ∃ k, select_prev s = some (true, { s with HilIndex := k }) := by
  unfold select_prev
  split_ifs
  · exact Or.inr (Or.inl rfl)
  · rcases h : select_prev_loop s.Entries (s.Entries.length + 1) s.HilIndex with _ | _ | k
    · exact Or.inl rfl
    · exact Or.inr (Or.inl rfl)
    · exact Or.inr (Or.inr ⟨k, rfl⟩)

theorem select_next_new_shape (env : Env) (s : State) :
    select_next_new env s = none ∨ select_next_new env s = some (false, s) ∨
      ∃ k, select_next_new env s = some (true, { s with HilIndex := k }) := by
  unfold select_next_new
  split_ifs
  · exact Or.inr (Or.inl rfl)
  · rcases h : select_next_new_loop env s.Entries s.HilIndex (s.Entries.length + 1) s.HilIndex
      with _ | _ | k
    · exact Or.inl rfl
    · exact Or.inr (Or.inl rfl)
    · exact Or.inr (Or.inr ⟨k, rfl⟩)

theorem select_prev_new_shape (env : Env) (s : State) :
    select_prev_new env s = none ∨ select_prev_new env s = some (false, s) ∨
      ∃ k, select_prev_new env s = some (true, { s with HilIndex := k }) := by
  unfold select_prev_new
  split_ifs
  · exact Or.inr (Or.inl rfl)
  · rcases h : select_prev_new_loop env s.Entries s.HilIndex (s.Entries.length + 1) s.HilIndex
      with _ | _ | k
    · exact Or.inl rfl
    · exact Or.inr (Or.inl rfl)
    · exact Or.inr (Or.inr ⟨k, rfl⟩)

theorem keeps_registry_of_shape (s : State) (res : Option (Bool × State))
    (h : res = none ∨ res = some (false, s) ∨ ∃ k, res = some (true, { s with HilIndex := k })) :
    keeps_registry s res := by
  rcases h with h | h | ⟨k, h⟩
  · rw [h]; exact keeps_registry_none s
  · rw [h]; exact keeps_registry_fail s
  · rw [h]; exact keeps_registry_move s k

/-- The shape of every result of `select_page_down`. -/
theorem select_page_down_shape (s : State) :
    select_page_down s = none ∨ select_page_down s = some (false, s) ∨
      ∃ k, select_page_down s = some (decide (s.HilIndex ≠ k), { s with HilIndex := k }) := by
  unfold select_page_down
  split_ifs
  · exact Or.inr (Or.inl rfl)
  · rcases select_next_shape { s with HilIndex := s.BotIndex } with h | h | ⟨k, h⟩
    · rw [h]; exact Or.inl rfl
    · rw [h]
      simp only
      cases entryAt s.Entries s.BotIndex with
      | none => exact Or.inl rfl
      | some sbe =>
        simp only
        split_ifs
        · rcases select_prev_shape { s with HilIndex := s.BotIndex } with h2 | h2 | ⟨k2, h2⟩
          · rw [h2]; exact Or.inl rfl
          · rw [h2]; exact Or.inr (Or.inr ⟨s.BotIndex, rfl⟩)
          · rw [h2]; exact Or.inr (Or.inr ⟨k2, rfl⟩)
        · exact Or.inr (Or.inr ⟨s.BotIndex, rfl⟩)
    · rw [h]
      simp only
      cases entryAt s.Entries k with
      | none => exact Or.inl rfl
      | some sbe =>
        simp only
        split_ifs
        · rcases select_prev_shape
            ({ ({ s with HilIndex := s.BotIndex } : State) with HilIndex := k }) with
              h2 | h2 | ⟨k2, h2⟩
          · rw [h2]; exact Or.inl rfl
          · rw [h2]; exact Or.inr (Or.inr ⟨k, rfl⟩)
          · rw [h2]; exact Or.inr (Or.inr ⟨k2, rfl⟩)
        · exact Or.inr (Or.inr ⟨k, rfl⟩)

/-- The shape of every result of `select_page_up`. -/
theorem select_page_up_shape (s : State) :
    select_page_up s = none ∨ select_page_up s = some (false, s) ∨
      ∃ k, select_page_up s = some (decide (s.HilIndex ≠ k), { s with HilIndex := k }) := by
  unfold select_page_up
  split_ifs
  · exact Or.inr (Or.inl rfl)
  · rcases select_prev_shape { s with HilIndex := s.TopIndex } with h | h | ⟨k, h⟩
    · rw [h]; exact Or.inl rfl
    · rw [h]
      simp only
      cases entryAt s.Entries s.TopIndex with
      | none => exact Or.inl rfl
      | some sbe =>
        simp only
        split_ifs
        · rcases select_next_shape { s with HilIndex := s.TopIndex } with h2 | h2 | ⟨k2, h2⟩
          · rw [h2]; exact Or.inl rfl
          · rw [h2]; exact Or.inr (Or.inr ⟨s.TopIndex, rfl⟩)
          · rw [h2]; exact Or.inr (Or.inr ⟨k2, rfl⟩)
        · exact Or.inr (Or.inr ⟨s.TopIndex, rfl⟩)
    · rw [h]
      simp only
      cases entryAt s.Entries k with
      | none => exact Or.inl rfl
      | some sbe =>
        simp only
        split_ifs
        · rcases select_next_shape
            ({ ({ s with HilIndex := s.TopIndex } : State) with HilIndex := k }) with
              h2 | h2 | ⟨k2, h2⟩
          · rw [h2]; exact Or.inl rfl
          · rw [h2]; exact Or.inr (Or.inr ⟨k, rfl⟩)
          · rw [h2]; exact Or.inr (Or.inr ⟨k2, rfl⟩)
        · exact Or.inr (Or.inr ⟨k, rfl⟩)

theorem keeps_registry_of_page_shape (s : State) (res : Option (Bool × State))
    (h : res = none ∨ res = some (false, s) ∨
      ∃ k, res = some (decide (s.HilIndex ≠ k), { s with HilIndex := k })) :
    keeps_registry s res := by
  rcases h with h | h | ⟨k, h⟩
  · rw [h]; exact keeps_registry_none s
  · rw [h]; exact keeps_registry_fail s
  · rw [h]; exact keeps_registry_changed s k

/-- What `select_page_down` does when `BotIndex` is within the array. -/
theorem select_page_down_cases (s : State) (h0 : 0 ≤ s.BotIndex)
    (h1 : s.BotIndex < s.EntryCount) :
    ∃ k, select_page_down s = some (decide (s.HilIndex ≠ k), { s with HilIndex := k }) ∧
      ((s.BotIndex < k ∧ visible_at s.Entries k ∧
          ∀ j, s.BotIndex < j → j < k → ¬ visible_at s.Entries j) ∨
        ((∀ j, s.BotIndex < j → ¬ visible_at s.Entries j) ∧
          ((visible_at s.Entries s.BotIndex ∧ k = s.BotIndex) ∨
            (¬ visible_at s.Entries s.BotIndex ∧
              ((k < s.BotIndex ∧ visible_at s.Entries k ∧
                  ∀ j, k < j → j < s.BotIndex → ¬ visible_at s.Entries j) ∨
                ((∀ j, j < s.BotIndex → ¬ visible_at s.Entries j) ∧ k = s.BotIndex)))))) := by
  have h1' : s.BotIndex < s.Entries.length := h1
  have hlen : ¬ (s.Entries.length = 0 ∨ s.BotIndex < 0) := by omega
  unfold select_page_down
  rw [if_neg hlen]
  rcases select_next_cases { s with HilIndex := s.BotIndex } h0 h1 with
    ⟨e1, e2⟩ | ⟨k, e1, e2, e3, e4⟩
  · rw [e1]
    simp only at e2 ⊢
    obtain ⟨e, he⟩ := entryAt_of_range s.Entries s.BotIndex h0 h1'
    rw [he]
    simp only
    by_cases hh : e.is_hidden = true
    · rw [if_pos hh]
      have hnv := not_visible_of_hidden he hh
      rcases select_prev_cases { s with HilIndex := s.BotIndex } h0 h1 with
        ⟨p1, p2⟩ | ⟨k, p1, p2, p3, p4⟩
      · rw [p1]
        exact ⟨s.BotIndex, rfl, Or.inr ⟨e2, Or.inr ⟨hnv, Or.inr ⟨p2, rfl⟩⟩⟩⟩
      · rw [p1]
        exact ⟨k, rfl, Or.inr ⟨e2, Or.inr ⟨hnv, Or.inl ⟨p2, p3, p4⟩⟩⟩⟩
    · rw [if_neg hh]
      have hv := visible_of_not_hidden he (by simpa using hh)
      exact ⟨s.BotIndex, rfl, Or.inr ⟨e2, Or.inl ⟨hv, rfl⟩⟩⟩
  · rw [e1]
    simp only at e2 e3 e4 ⊢
    obtain ⟨e, he, hv⟩ := visible_at_iff.mp e3
    rw [he]
    simp only [hv]
    exact ⟨k, rfl, Or.inl ⟨e2, e3, e4⟩⟩

/-- What `select_page_up` does when `TopIndex` is within the array. -/
theorem select_page_up_cases (s : State) (h0 : 0 ≤ s.TopIndex)
    (h1 : s.TopIndex < s.EntryCount) :
    ∃ k, select_page_up s = some (decide (s.HilIndex ≠ k), { s with HilIndex := k }) ∧
      ((k < s.TopIndex ∧ visible_at s.Entries k ∧
          ∀ j, k < j → j < s.TopIndex → ¬ visible_at s.Entries j) ∨
        ((∀ j, j < s.TopIndex → ¬ visible_at s.Entries j) ∧
          ((visible_at s.Entries s.TopIndex ∧ k = s.TopIndex) ∨
            (¬ visible_at s.Entries s.TopIndex ∧
              ((s.TopIndex < k ∧ visible_at s.Entries k ∧
                  ∀ j, s.TopIndex < j → j < k → ¬ visible_at s.Entries j) ∨
                ((∀ j, s.TopIndex < j → ¬ visible_at s.Entries j) ∧ k = s.TopIndex)))))) := by
  have h1' : s.TopIndex < s.Entries.length := h1
  have hlen : ¬ (s.Entries.length = 0 ∨ s.TopIndex < 0) := by omega
  unfold select_page_up
  rw [if_neg hlen]
  rcases select_prev_cases { s with HilIndex := s.TopIndex } h0 h1 with
    ⟨e1, e2⟩ | ⟨k, e1, e2, e3, e4⟩
  · rw [e1]
    simp only at e2 ⊢
    obtain ⟨e, he⟩ := entryAt_of_range s.Entries s.TopIndex h0 h1'
    rw [he]
    simp only
    by_cases hh : e.is_hidden = true
    · rw [if_pos hh]
      have hnv := not_visible_of_hidden he hh
      rcases select_next_cases { s with HilIndex := s.TopIndex } h0 h1 with
        ⟨p1, p2⟩ | ⟨k, p1, p2, p3, p4⟩
      · rw [p1]
        exact ⟨s.TopIndex, rfl, Or.inr ⟨e2, Or.inr ⟨hnv, Or.inr ⟨p2, rfl⟩⟩⟩⟩
      · rw [p1]
        exact ⟨k, rfl, Or.inr ⟨e2, Or.inr ⟨hnv, Or.inl ⟨p2, p3, p4⟩⟩⟩⟩
    · rw [if_neg hh]
      have hv := visible_of_not_hidden he (by simpa using hh)
      exact ⟨s.TopIndex, rfl, Or.inr ⟨e2, Or.inl ⟨hv, rfl⟩⟩⟩
  · rw [e1]
    simp only at e2 e3 e4 ⊢
    obtain ⟨e, he, hv⟩ := visible_at_iff.mp e3
    rw [he]
    simp only [hv]
    exact ⟨k, rfl, Or.inl ⟨e2, e3, e4⟩⟩

/-- C13: for a non-empty registry with `0 <= BotIndex < EntryCount`,
`select_page_down` leaves `HilIndex` at the smallest non-hidden index greater
than `BotIndex` if one exists, otherwise at `BotIndex` if that entry is not
hidden, otherwise at the largest non-hidden index below `BotIndex` if one
exists and else at `BotIndex`; it changes nothing else and returns true iff
`HilIndex` differs from its value on entry.  `select_page_up` is the mirror
image with `TopIndex` and the scan directions swapped. -/
theorem select_page_positions (s : State) :
    (0 ≤ s.BotIndex → s.BotIndex < s.EntryCount →
      ∃ r s', select_page_down s = some (r, s') ∧ s' = { s with HilIndex := s'.HilIndex } ∧
        (r = true ↔ s'.HilIndex ≠ s.HilIndex) ∧
        ((s.BotIndex < s'.HilIndex ∧ visible_at s.Entries s'.HilIndex ∧
            ∀ j, s.BotIndex < j → j < s'.HilIndex → ¬ visible_at s.Entries j) ∨
          ((∀ j, s.BotIndex < j → ¬ visible_at s.Entries j) ∧
            ((visible_at s.Entries s.BotIndex ∧ s'.HilIndex = s.BotIndex) ∨
              (¬ visible_at s.Entries s.BotIndex ∧
                ((s'.HilIndex < s.BotIndex ∧ visible_at s.Entries s'.HilIndex ∧
                    ∀ j, s'.HilIndex < j → j < s.BotIndex → ¬ visible_at s.Entries j) ∨
                  ((∀ j, j < s.BotIndex → ¬ visible_at s.Entries j) ∧
                    s'.HilIndex = s.BotIndex))))))) ∧
    (0 ≤ s.TopIndex → s.TopIndex < s.EntryCount →
      ∃ r s', select_page_up s = some (r, s') ∧ s' = { s with HilIndex := s'.HilIndex } ∧
        (r = true ↔ s'.HilIndex ≠ s.HilIndex) ∧
        ((s'.HilIndex < s.TopIndex ∧ visible_at s.Entries s'.HilIndex ∧
            ∀ j, s'.HilIndex < j → j < s.TopIndex → ¬ visible_at s.Entries j) ∨
          ((∀ j, j < s.TopIndex → ¬ visible_at s.Entries j) ∧
            ((visible_at s.Entries s.TopIndex ∧ s'.HilIndex = s.TopIndex) ∨
              (¬ visible_at s.Entries s.TopIndex ∧
                ((s.TopIndex < s'.HilIndex ∧ visible_at s.Entries s'.HilIndex ∧
                    ∀ j, s.TopIndex < j → j < s'.HilIndex → ¬ visible_at s.Entries j) ∨
                  ((∀ j, s.TopIndex < j → ¬ visible_at s.Entries j) ∧
                    s'.HilIndex = s.TopIndex))))))) := by
  constructor
  · intro h0 h1
    obtain ⟨k, e, hk⟩ := select_page_down_cases s h0 h1
    refine ⟨_, _, e, rfl, ?_, hk⟩
    simp only [decide_eq_true_eq]
    exact ⟨fun h hc => h hc.symm, fun h hc => h hc.symm⟩
  · intro h0 h1
    obtain ⟨k, e, hk⟩ := select_page_up_cases s h0 h1
    refine ⟨_, _, e, rfl, ?_, hk⟩
    simp only [decide_eq_true_eq]
    exact ⟨fun h hc => h hc.symm, fun h hc => h hc.symm⟩

/-- C13 on `threeEntryState` with `BotIndex` moved to 0: the entry at 1 is
hidden, so `select_page_down` moves `HilIndex` from 0 to 2. -/
theorem select_page_positions_witness :
    (0 ≤ ({ threeEntryState with BotIndex := 0 } : State).BotIndex ∧
      ({ threeEntryState with BotIndex := 0 } : State).BotIndex <
        ({ threeEntryState with BotIndex := 0 } : State).EntryCount) ∧
    select_page_down { threeEntryState with BotIndex := 0 } =
      some (true, { threeEntryState with BotIndex := 0, HilIndex := 2 }) ∧
    ∃ r s', select_page_down { threeEntryState with BotIndex := 0 } = some (r, s') ∧
      (r = true ↔ s'.HilIndex ≠ ({ threeEntryState with BotIndex := 0 } : State).HilIndex) :=
  ⟨by decide, by decide,
    (let ⟨r, s', h, _, h3, _⟩ :=
      (select_page_positions { threeEntryState with BotIndex := 0 }).1 (by decide) (by decide)
     ⟨r, s', h, h3⟩)⟩

/-- The state `freshState` is produced by the code. -/
theorem freshState_reached :
    mutt_sb_notify_mailbox filterEnv (State.init sortConsts) (some 1) true = freshState := by
  decide

theorem option_isSome_of_cases {res : Option (Bool × State)}
    (h : ∃ r s', res = some (r, s')) : res.isSome = true := by
  obtain ⟨r, s', h⟩ := h
  rw [h]; rfl

/-- The four single-step navigators return when `HilIndex` is unset or within
the array. -/
theorem select_steps_return (env : Env) (s : State) (hH : s.HilIndex < s.EntryCount) :
    (select_next s).isSome = true ∧ (select_prev s).isSome = true ∧
    (select_next_new env s).isSome = true ∧ (select_prev_new env s).isSome = true := by
  by_cases hc : s.Entries.length = 0 ∨ s.HilIndex < 0
  · unfold select_next select_prev select_next_new select_prev_new
    simp only [if_pos hc]
    exact ⟨rfl, rfl, rfl, rfl⟩
  · have h0 : 0 ≤ s.HilIndex := by omega
    refine ⟨?_, ?_, ?_, ?_⟩
    · rcases select_next_cases s h0 hH with ⟨e, _⟩ | ⟨k, e, _⟩ <;> rw [e] <;> rfl
    · rcases select_prev_cases s h0 hH with ⟨e, _⟩ | ⟨k, e, _⟩ <;> rw [e] <;> rfl
    · rcases select_next_new_cases env s h0 hH with ⟨k, e, _⟩ | ⟨_, n2, n3⟩
      · rw [e]; rfl
      · by_cases hw : env.SidebarNextNewWrap = true
        · rcases n3 hw with ⟨e, _⟩ | ⟨k, e, _⟩ <;> rw [e] <;> rfl
        · rw [n2 (by simpa using hw)]; rfl
    · rcases select_prev_new_cases env s h0 hH with ⟨k, e, _⟩ | ⟨_, n2, n3⟩
      · rw [e]; rfl
      · by_cases hw : env.SidebarNextNewWrap = true
        · rcases n3 hw with ⟨e, _⟩ | ⟨k, e, _⟩ <;> rw [e] <;> rfl
        · rw [n2 (by simpa using hw)]; rfl

/-- The page navigators return when `BotIndex` (resp. `TopIndex`) is unset or
within the array. -/
theorem select_pages_return (s : State) (hB : s.BotIndex < s.EntryCount)
    (hT : s.TopIndex < s.EntryCount) :
    (select_page_down s).isSome = true ∧ (select_page_up s).isSome = true := by
  constructor
  · by_cases hc : s.Entries.length = 0 ∨ s.BotIndex < 0
    · unfold select_page_down
      rw [if_pos hc]; rfl
    · obtain ⟨k, e, _⟩ := select_page_down_cases s (by omega) hB
      rw [e]; rfl
  · by_cases hc : s.Entries.length = 0 ∨ s.TopIndex < 0
    · unfold select_page_up
      rw [if_pos hc]; rfl
    · obtain ⟨k, e, _⟩ := select_page_up_cases s (by omega) hT
      rw [e]; rfl

/-- C15: none of the six navigator operations changes the entry sequence,
`EntryCount`, any hidden flag, `TopIndex`, `BotIndex` or `OpnIndex` (whenever
one returns, the state differs from the state on entry in `HilIndex` at most),
and whenever one returns failure the whole state equals the state on entry;
with the indices unset or within the array each of them does return. -/
theorem navigators_keep_registry (env : Env) (s : State) :
    (keeps_registry s (select_next s) ∧ keeps_registry s (select_prev s) ∧
      keeps_registry s (select_next_new env s) ∧ keeps_registry s (select_prev_new env s) ∧
      keeps_registry s (select_page_down s) ∧ keeps_registry s (select_page_up s)) ∧
    (s.HilIndex < s.EntryCount → s.BotIndex < s.EntryCount → s.TopIndex < s.EntryCount →
      (select_next s).isSome = true ∧ (select_prev s).isSome = true ∧
      (select_next_new env s).isSome = true ∧ (select_prev_new env s).isSome = true ∧
      (select_page_down s).isSome = true ∧ (select_page_up s).isSome = true) := by
  refine ⟨⟨keeps_registry_of_shape s _ (select_next_shape s),
    keeps_registry_of_shape s _ (select_prev_shape s),
    keeps_registry_of_shape s _ (select_next_new_shape env s),
    keeps_registry_of_shape s _ (select_prev_new_shape env s),
    keeps_registry_of_page_shape s _ (select_page_down_shape s),
    keeps_registry_of_page_shape s _ (select_page_up_shape s)⟩, ?_⟩
  intro hH hB hT
  obtain ⟨a, b, c, d⟩ := select_steps_return env s hH
  obtain ⟨e, f⟩ := select_pages_return s hB hT
  exact ⟨a, b, c, d, e, f⟩

/-- C15 on `threeEntryState`: every navigator returns. -/
theorem navigators_keep_registry_witness :
    (threeEntryState.HilIndex < threeEntryState.EntryCount ∧
      threeEntryState.BotIndex < threeEntryState.EntryCount ∧
      threeEntryState.TopIndex < threeEntryState.EntryCount) ∧
    ((select_next threeEntryState).isSome = true ∧ (select_prev threeEntryState).isSome = true ∧
      (select_next_new filterEnv threeEntryState).isSome = true ∧
      (select_prev_new filterEnv threeEntryState).isSome = true ∧
      (select_page_down threeEntryState).isSome = true ∧
      (select_page_up threeEntryState).isSome = true) :=
  ⟨by decide, (navigators_keep_registry filterEnv threeEntryState).2
    (by decide) (by decide) (by decide)⟩

/-! ## The visibility filter and the sorter -/

theorem mutt_str_strcmp_eq_zero (a b : String) :
    mutt_str_strcmp (some a) (some b) = 0 ↔ a = b := by
  unfold mutt_str_strcmp
  simp only [Option.getD_some]
  constructor
  · intro h
    by_contra hne
    have : compare a b ≠ .eq := by
      rw [Ne, compare_eq_iff_eq]
      exact hne
    cases hc : compare a b <;> simp [hc] at h this
  · rintro rfl
    have : compare a a = .eq := compare_eq_iff_eq.mpr rfl
    rw [this]

theorem mutt_list_find_some (h : List String) (d : String) :
    mutt_list_find h (some d) = true ↔ d ∈ h := by
  simp [mutt_list_find]

theorem mutt_list_find_eq_false (h : List String) (data : Option String) :
    mutt_list_find h data = false ↔ ∀ d, data = some d → d ∉ h := by
  cases data with
  | none => simp [mutt_list_find]
  | some d => simp [mutt_list_find]

theorem context_matches_eq_false (env : Env) (m : Ptr) :
    context_matches env m = false ↔
      ∀ c, env.Context = some c → (env.mbox m).realpath ≠ (env.mbox c).realpath := by
  unfold context_matches
  cases env.Context with
  | none => simp
  | some c =>
    simp only [Option.some.injEq, forall_eq']
    rw [← not_iff_not]
    simp only [Bool.not_eq_false, beq_iff_eq, ne_eq, not_not]
    exact mutt_str_strcmp_eq_zero _ _

/-- C16, as stated, fails: with the filter on, an entry that is not the open
one, whose folder has an unread count of -1, no flagged mail and no `has_new`,
is hidden, although its unread count is not zero. -/
theorem update_entries_visibility_hides_negative :
    (entryAt (update_entries_visibility negativeEnv loneState).Entries 0).map SbEntry.is_hidden
      = some true ∧
    (entryAt loneState.Entries 0).map (fun e => (negativeEnv.mbox e.mailbox).msg_unread)
      = some (-1) := by
  decide

/-- The hidden flag that the filter pass gives an entry. -/
theorem visibility_of_hidden_iff (env : Env) (o : Int) (i : Nat) (e : SbEntry) :
    (visibility_of env o i e).is_hidden = true ↔
      env.SidebarNewMailOnly = true ∧ (i : Int) ≠ o ∧
      (env.mbox e.mailbox).msg_unread ≤ 0 ∧ (env.mbox e.mailbox).msg_flagged ≤ 0 ∧
      (env.mbox e.mailbox).has_new = false ∧
      (∀ c, env.Context = some c →
        (env.mbox e.mailbox).realpath ≠ (env.mbox c).realpath) ∧
      (env.mbox e.mailbox).path ∉ env.SidebarWhitelist ∧
      (∀ d, (env.mbox e.mailbox).desc = some d → d ∉ env.SidebarWhitelist) := by
  rw [← context_matches_eq_false, ← mutt_list_find_eq_false]
  have hp : (env.mbox e.mailbox).path ∉ env.SidebarWhitelist ↔
      mutt_list_find env.SidebarWhitelist (some (env.mbox e.mailbox).path) = false := by
    rw [← Bool.not_eq_true, mutt_list_find_some]
  rw [hp]
  unfold visibility_of
  simp only
  by_cases h1 : env.SidebarNewMailOnly = true
  · by_cases h2 : (i : Int) = o ∨ (env.mbox e.mailbox).msg_unread > 0 ∨
        (env.mbox e.mailbox).has_new = true ∨ (env.mbox e.mailbox).msg_flagged > 0
    · simp only [h1, Bool.not_true, Bool.false_eq_true, if_false, if_pos h2]
      constructor
      · intro h; cases h
      · rintro ⟨_, a, b, c, d, _⟩
        rcases h2 with h2 | h2 | h2 | h2
        · exact absurd h2 a
        · omega
        · rw [d] at h2; cases h2
        · omega
    · simp only [h1, Bool.not_true, Bool.false_eq_true, if_false, if_neg h2]
      simp only [not_or, not_lt, Bool.not_eq_true] at h2
      obtain ⟨a, b, c, d⟩ := h2
      by_cases h3 : context_matches env e.mailbox = true
      · simp only [h3, if_true]
        constructor
        · intro h; cases h
        · rintro ⟨_, _, _, _, _, h, _⟩
          cases h
      · have h3' : context_matches env e.mailbox = false := by simpa using h3
        simp only [h3', Bool.false_eq_true, if_false]
        by_cases h4 : (mutt_list_find env.SidebarWhitelist (some (env.mbox e.mailbox).path) ||
            mutt_list_find env.SidebarWhitelist (env.mbox e.mailbox).desc) = true
        · simp only [h4, if_true]
          constructor
          · intro h; cases h
          · rintro ⟨_, _, _, _, _, _, h5, h6⟩
            rw [h5, h6] at h4; cases h4
        · have h4' : (mutt_list_find env.SidebarWhitelist (some (env.mbox e.mailbox).path) ||
              mutt_list_find env.SidebarWhitelist (env.mbox e.mailbox).desc) = false := by
            simpa using h4
          simp only [h4', Bool.false_eq_true, if_false]
          simp only [Bool.or_eq_false_iff] at h4'
          exact ⟨fun _ => ⟨trivial, a, b, d, c, trivial, h4'.1, h4'.2⟩, fun _ => trivial⟩
  · simp only [Bool.not_eq_true] at h1
    simp only [h1, Bool.not_false, if_true]
    constructor
    · intro h; cases h
    · rintro ⟨h, _⟩; cases h

/-- C16, amended: after `update_entries_visibility`, for every entry `i`,
`is_hidden` is true iff `SidebarNewMailOnly` is set, `i` is not `OpnIndex`,
the folder has no positive unread count, no positive flagged count and no
`has_new`, its realpath is not that of the open `Context`, and neither its
path nor its description is in `SidebarWhitelist`; the entries keep their
order and identity, and nothing but the hidden flags changes. -/
theorem update_entries_visibility_hidden_iff (env : Env) (s : State) :
    update_entries_visibility env s =
      { s with Entries := (update_entries_visibility env s).Entries } ∧
    (update_entries_visibility env s).Entries.length = s.Entries.length ∧
    ∀ (i : Nat) (e : SbEntry), s.Entries[i]? = some e →
      ∃ e', (update_entries_visibility env s).Entries[i]? = some e' ∧
        e'.addr = e.addr ∧ e'.mailbox = e.mailbox ∧
        (e'.is_hidden = true ↔
          env.SidebarNewMailOnly = true ∧ (i : Int) ≠ s.OpnIndex ∧
          (env.mbox e.mailbox).msg_unread ≤ 0 ∧ (env.mbox e.mailbox).msg_flagged ≤ 0 ∧
          (env.mbox e.mailbox).has_new = false ∧
          (∀ c, env.Context = some c →
            (env.mbox e.mailbox).realpath ≠ (env.mbox c).realpath) ∧
          (env.mbox e.mailbox).path ∉ env.SidebarWhitelist ∧
          (∀ d, (env.mbox e.mailbox).desc = some d → d ∉ env.SidebarWhitelist)) := by
  refine ⟨rfl, update_entries_visibility_length env s, ?_⟩
  intro i e he
  refine ⟨visibility_of env s.OpnIndex i e, ?_, (visibility_of_addr env s.OpnIndex i e).1,
    (visibility_of_addr env s.OpnIndex i e).2, visibility_of_hidden_iff env s.OpnIndex i e⟩
  simp [update_entries_visibility, List.getElem?_mapIdx, he]

/-- C17: for every sort setting, `sort_entries` leaves `Entries` a
permutation of its previous contents, entry for entry with the same mailbox
and hidden flag, `EntryCount` is unchanged, and no other variable changes. -/
theorem sort_entries_is_permutation (env : Env) (q : Qsort) (s : State) :
    (sort_entries env q s).Entries.Perm s.Entries ∧
    (sort_entries env q s).EntryCount = s.EntryCount ∧
    sort_entries env q s = { s with Entries := (sort_entries env q s).Entries } := by
  refine ⟨sort_entries_perm env q s, ?_, sort_entries_frame env q s⟩
  unfold State.EntryCount
  rw [(sort_entries_perm env q s).length_eq]

theorem wrap_int_id (x : Int) (h0 : -2147483648 ≤ x) (h1 : x < 2147483648) : wrap_int x = x := by
  unfold wrap_int
  omega

theorem SortConsts.distinct_ne (c : SortConsts) (h : c.distinct) :
    c.SORT_ORDER ≠ c.SORT_COUNT ∧ c.SORT_ORDER ≠ c.SORT_UNREAD ∧ c.SORT_ORDER ≠ c.SORT_FLAGGED ∧
    c.SORT_ORDER ≠ c.SORT_PATH ∧ c.SORT_ORDER ≠ c.SORT_DESC ∧ c.SORT_COUNT ≠ c.SORT_UNREAD ∧
    c.SORT_COUNT ≠ c.SORT_FLAGGED ∧ c.SORT_COUNT ≠ c.SORT_PATH ∧ c.SORT_COUNT ≠ c.SORT_DESC ∧
    c.SORT_UNREAD ≠ c.SORT_FLAGGED ∧ c.SORT_UNREAD ≠ c.SORT_PATH ∧ c.SORT_UNREAD ≠ c.SORT_DESC ∧
    c.SORT_FLAGGED ≠ c.SORT_PATH ∧ c.SORT_FLAGGED ≠ c.SORT_DESC ∧ c.SORT_PATH ≠ c.SORT_DESC := by
  unfold SortConsts.distinct at h
  simp only [List.nodup_cons, List.mem_cons, List.mem_singleton, not_or, List.not_mem_nil,
    not_false_eq_true, List.nodup_nil, and_true] at h
  tauto

/-- For the three count keys the comparator is `count_order`, negated when the
reverse flag is set, as long as the counts are non-negative C `int`s. -/
theorem cb_qsort_sbe_count (env : Env) (key : Mailbox → Int) (hd : env.consts.distinct)
    (hcoll : collation_consistent env.mutt_str_strcoll)
    (hkey : (env.SidebarSortMethod &&& env.consts.SORT_MASK = env.consts.SORT_COUNT ∧
        key = Mailbox.msg_count) ∨
      (env.SidebarSortMethod &&& env.consts.SORT_MASK = env.consts.SORT_UNREAD ∧
        key = Mailbox.msg_unread) ∨
      (env.SidebarSortMethod &&& env.consts.SORT_MASK = env.consts.SORT_FLAGGED ∧
        key = Mailbox.msg_flagged))
    (hrange : ∀ p, 0 ≤ key (env.mbox p) ∧ key (env.mbox p) < 2147483648) (a b : SbEntry) :
    cb_qsort_sbe env a b =
      if env.SidebarSortMethod &&& env.consts.SORT_REVERSE ≠ 0 then - count_order env key a b
      else count_order env key a b := by
  obtain ⟨d1, d2, d3, d4, d5, d6, d7, d8, d9, d10, d11, d12, d13, d14, d15⟩ :=
    SortConsts.distinct_ne env.consts hd
  have hb := hcoll.1 (env.mbox a.mailbox).path (env.mbox b.mailbox).path
  have ha := hrange a.mailbox
  have hb' := hrange b.mailbox
  have hco : -2147483648 < count_order env key a b ∧ count_order env key a b < 2147483648 := by
    unfold count_order
    split_ifs
    · exact hb
    · constructor <;> omega
  have hform : cb_qsort_sbe env a b =
      if env.SidebarSortMethod &&& env.consts.SORT_REVERSE ≠ 0
        then wrap_int (-(if key (env.mbox b.mailbox) = key (env.mbox a.mailbox) then
            env.mutt_str_strcoll (env.mbox a.mailbox).path (env.mbox b.mailbox).path
          else wrap_int (key (env.mbox b.mailbox) - key (env.mbox a.mailbox))))
        else (if key (env.mbox b.mailbox) = key (env.mbox a.mailbox) then
            env.mutt_str_strcoll (env.mbox a.mailbox).path (env.mbox b.mailbox).path
          else wrap_int (key (env.mbox b.mailbox) - key (env.mbox a.mailbox))) := by
    unfold cb_qsort_sbe
    rcases hkey with ⟨h, rfl⟩ | ⟨h, rfl⟩ | ⟨h, rfl⟩
    · simp only [h, if_true]
    · simp only [h, d6.symm, if_false, if_true]
    · simp only [h, d7.symm, d10.symm, d14, if_false, if_true]
  rw [hform, wrap_int_id (key (env.mbox b.mailbox) - key (env.mbox a.mailbox)) (by omega)
    (by omega)]
  have hfold : (if key (env.mbox b.mailbox) = key (env.mbox a.mailbox) then
      env.mutt_str_strcoll (env.mbox a.mailbox).path (env.mbox b.mailbox).path
      else key (env.mbox b.mailbox) - key (env.mbox a.mailbox)) = count_order env key a b := rfl
  rw [hfold, wrap_int_id _ (by omega) (by omega)]

theorem count_order_le_iff (env : Env) (key : Mailbox → Int) (a b : SbEntry) :
    count_order env key a b ≤ 0 ↔
      key (env.mbox b.mailbox) < key (env.mbox a.mailbox) ∨
      (key (env.mbox b.mailbox) = key (env.mbox a.mailbox) ∧
        env.mutt_str_strcoll (env.mbox a.mailbox).path (env.mbox b.mailbox).path ≤ 0) := by
  unfold count_order
  split_ifs with h
  · constructor
    · intro hc; exact Or.inr ⟨h, hc⟩
    · rintro (hc | ⟨_, hc⟩)
      · omega
      · exact hc
  · constructor
    · intro hc; left; omega
    · rintro (hc | ⟨hc, _⟩)
      · omega
      · exact absurd hc h

theorem count_order_ge_iff (env : Env) (key : Mailbox → Int) (a b : SbEntry) :
    0 ≤ count_order env key a b ↔
      key (env.mbox a.mailbox) < key (env.mbox b.mailbox) ∨
      (key (env.mbox b.mailbox) = key (env.mbox a.mailbox) ∧
        0 ≤ env.mutt_str_strcoll (env.mbox a.mailbox).path (env.mbox b.mailbox).path) := by
  unfold count_order
  split_ifs with h
  · constructor
    · intro hc; exact Or.inr ⟨h, hc⟩
    · rintro (hc | ⟨_, hc⟩)
      · omega
      · exact hc
  · constructor
    · intro hc; left; omega
    · rintro (hc | ⟨hc, _⟩)
      · omega
      · exact absurd hc h

theorem count_order_neg_iff (env : Env) (key : Mailbox → Int)
    (hcoll : collation_consistent env.mutt_str_strcoll) (a b : SbEntry) :
    count_order env key a b < 0 ↔ 0 < count_order env key b a := by
  have h2 := hcoll.2.1 (env.mbox a.mailbox).path (env.mbox b.mailbox).path
  unfold count_order
  by_cases h : key (env.mbox b.mailbox) = key (env.mbox a.mailbox)
  · rw [if_pos h, if_pos h.symm]
    exact h2
  · rw [if_neg h, if_neg (fun hc => h hc.symm)]
    omega

theorem count_order_trans (env : Env) (key : Mailbox → Int)
    (hcoll : collation_consistent env.mutt_str_strcoll) (a b c : SbEntry)
    (h1 : count_order env key a b ≤ 0) (h2 : count_order env key b c ≤ 0) :
    count_order env key a c ≤ 0 := by
  rw [count_order_le_iff] at h1 h2 ⊢
  rcases h1 with h1 | ⟨h1, c1⟩ <;> rcases h2 with h2 | ⟨h2, c2⟩
  · left; omega
  · left; omega
  · left; omega
  · right
    exact ⟨by omega, hcoll.2.2 _ _ _ c1 c2⟩

/-- For the three count keys and non-negative counts the comparator is
consistent. -/
theorem cb_qsort_sbe_count_consistent (env : Env) (key : Mailbox → Int)
    (hd : env.consts.distinct) (hcoll : collation_consistent env.mutt_str_strcoll)
    (hkey : (env.SidebarSortMethod &&& env.consts.SORT_MASK = env.consts.SORT_COUNT ∧
        key = Mailbox.msg_count) ∨
      (env.SidebarSortMethod &&& env.consts.SORT_MASK = env.consts.SORT_UNREAD ∧
        key = Mailbox.msg_unread) ∨
      (env.SidebarSortMethod &&& env.consts.SORT_MASK = env.consts.SORT_FLAGGED ∧
        key = Mailbox.msg_flagged))
    (hrange : ∀ p, 0 ≤ key (env.mbox p) ∧ key (env.mbox p) < 2147483648) :
    comparator_consistent (cb_qsort_sbe env) := by
  have hform := cb_qsort_sbe_count env key hd hcoll hkey hrange
  constructor
  · intro a b
    rw [hform a b, hform b a]
    have h1 := count_order_neg_iff env key hcoll a b
    have h2 := count_order_neg_iff env key hcoll b a
    split_ifs <;> omega
  · intro a b c
    rw [hform a b, hform b c, hform a c]
    split_ifs
    · intro h1 h2
      have h1' : count_order env key b a ≤ 0 := by
        have := count_order_neg_iff env key hcoll b a
        have := count_order_neg_iff env key hcoll a b
        omega
      have h2' : count_order env key c b ≤ 0 := by
        have := count_order_neg_iff env key hcoll c b
        have := count_order_neg_iff env key hcoll b c
        omega
      have h3 := count_order_trans env key hcoll c b a h2' h1'
      have := count_order_neg_iff env key hcoll c a
      have := count_order_neg_iff env key hcoll a c
      omega
    · exact count_order_trans env key hcoll a b c

theorem mutt_str_strcmp_neg_iff (a b : String) :
    mutt_str_strcmp (some a) (some b) < 0 ↔ a < b := by
  unfold mutt_str_strcmp
  simp only [Option.getD_some]
  cases hc : compare a b
  · simp [compare_lt_iff_lt.mp hc]
  · have := compare_eq_iff_eq.mp hc
    simp [this]
  · have := compare_gt_iff_gt.mp hc
    simp only [Int.reduceLT, false_iff, not_lt]
    exact le_of_lt this

theorem mutt_str_strcmp_pos_iff (a b : String) :
    0 < mutt_str_strcmp (some a) (some b) ↔ b < a := by
  unfold mutt_str_strcmp
  simp only [Option.getD_some]
  cases hc : compare a b
  · have := compare_lt_iff_lt.mp hc
    simp only [Int.reduceLT, false_iff, not_lt]
    exact le_of_lt this
  · have := compare_eq_iff_eq.mp hc
    simp [this]
  · simp [compare_gt_iff_gt.mp hc]

/-- The byte-wise string comparison is a consistent collation. -/
theorem strcmp_collation_consistent :
    collation_consistent (fun a b => mutt_str_strcmp (some a) (some b)) := by
  have hle : ∀ a b : String, mutt_str_strcmp (some a) (some b) ≤ 0 ↔ a ≤ b := by
    intro a b
    rw [← not_lt, mutt_str_strcmp_pos_iff, not_lt]
  refine ⟨fun a b => ?_, fun a b => ?_, fun a b c h1 h2 => ?_⟩
  · unfold mutt_str_strcmp
    simp only [Option.getD_some]
    cases compare a b <;> decide
  · rw [mutt_str_strcmp_neg_iff, mutt_str_strcmp_pos_iff]
  · rw [hle] at h1 h2 ⊢
    exact le_trans h1 h2

/-- The insertion sort meets the contract of `qsort`. -/
theorem insertionQsort_sorts : insertionQsort.sorts := by
  intro cmp l hc
  haveI : IsTotal SbEntry (fun a b => cmp a b ≤ 0) :=
    ⟨fun a b => by
      have h1 := hc.1 a b
      have h2 := hc.1 b a
      by_cases h : cmp a b ≤ 0
      · exact Or.inl h
      · exact Or.inr (by omega)⟩
  haveI : IsTrans SbEntry (fun a b => cmp a b ≤ 0) := ⟨hc.2⟩
  exact List.sorted_insertionSort _ l

/-- C18: for the sort keys by-count, by-unread and by-flagged and folders
with non-negative counts, after `sort_entries` every earlier entry has a count
greater than or equal to that of every later entry, and entries with equal
counts appear in path collation order; when the reverse flag is set the order
is the opposite one (counts ascending, equal counts in reverse collation
order).  `qsort` is assumed to sort for a consistent comparator and the
collation to be consistent. -/
theorem sort_entries_count_order (env : Env) (q : Qsort) (s : State) (key : Mailbox → Int)
    (hq : q.sorts) (hd : env.consts.distinct)
    (hcoll : collation_consistent env.mutt_str_strcoll)
    (hkey : (env.SidebarSortMethod &&& env.consts.SORT_MASK = env.consts.SORT_COUNT ∧
        key = Mailbox.msg_count) ∨
      (env.SidebarSortMethod &&& env.consts.SORT_MASK = env.consts.SORT_UNREAD ∧
        key = Mailbox.msg_unread) ∨
      (env.SidebarSortMethod &&& env.consts.SORT_MASK = env.consts.SORT_FLAGGED ∧
        key = Mailbox.msg_flagged))
    (hrange : ∀ p, 0 ≤ key (env.mbox p) ∧ key (env.mbox p) < 2147483648) :
    (env.SidebarSortMethod &&& env.consts.SORT_REVERSE = 0 →
      (sort_entries env q s).Entries.Pairwise (fun a b =>
        key (env.mbox b.mailbox) ≤ key (env.mbox a.mailbox) ∧
        (key (env.mbox a.mailbox) = key (env.mbox b.mailbox) →
          env.mutt_str_strcoll (env.mbox a.mailbox).path (env.mbox b.mailbox).path ≤ 0))) ∧
    (env.SidebarSortMethod &&& env.consts.SORT_REVERSE ≠ 0 →
      (sort_entries env q s).Entries.Pairwise (fun a b =>
        key (env.mbox a.mailbox) ≤ key (env.mbox b.mailbox) ∧
        (key (env.mbox a.mailbox) = key (env.mbox b.mailbox) →
          0 ≤ env.mutt_str_strcoll (env.mbox a.mailbox).path (env.mbox b.mailbox).path))) := by
  have hsorted := hq (cb_qsort_sbe env) s.Entries
    (cb_qsort_sbe_count_consistent env key hd hcoll hkey hrange)
  have hform := cb_qsort_sbe_count env key hd hcoll hkey hrange
  have hbranch : (sort_entries env q s).Entries = q.sort (cb_qsort_sbe env) s.Entries := by
    unfold sort_entries
    have hc : env.SidebarSortMethod &&& env.consts.SORT_MASK = env.consts.SORT_COUNT ∨
        env.SidebarSortMethod &&& env.consts.SORT_MASK = env.consts.SORT_UNREAD ∨
        env.SidebarSortMethod &&& env.consts.SORT_MASK = env.consts.SORT_FLAGGED ∨
        env.SidebarSortMethod &&& env.consts.SORT_MASK = env.consts.SORT_PATH := by
      rcases hkey with ⟨h, _⟩ | ⟨h, _⟩ | ⟨h, _⟩
      · exact Or.inl h
      · exact Or.inr (Or.inl h)
      · exact Or.inr (Or.inr (Or.inl h))
    simp only [if_pos hc]
  rw [hbranch]
  constructor
  · intro hrev
    refine hsorted.imp ?_
    intro a b hab
    rw [hform a b, if_neg (by simpa using hrev), count_order_le_iff] at hab
    rcases hab with h | ⟨h1, h2⟩
    · exact ⟨le_of_lt h, fun he => by omega⟩
    · exact ⟨le_of_eq h1, fun _ => h2⟩
  · intro hrev
    refine hsorted.imp ?_
    intro a b hab
    rw [hform a b, if_pos hrev] at hab
    have hab' : 0 ≤ count_order env key a b := by omega
    rw [count_order_ge_iff] at hab'
    rcases hab' with h | ⟨h1, h2⟩
    · exact ⟨le_of_lt h, fun he => by omega⟩
    · exact ⟨le_of_eq h1.symm, fun _ => h2⟩

/-- With the sort key `SORT_DESC` the sort pass does nothing. -/
theorem sort_entries_desc_unchanged (env : Env) (q : Qsort) (s : State)
    (hd : env.consts.distinct)
    (h : env.SidebarSortMethod &&& env.consts.SORT_MASK = env.consts.SORT_DESC) :
    sort_entries env q s = s := by
  obtain ⟨d1, d2, d3, d4, d5, d6, d7, d8, d9, d10, d11, d12, d13, d14, d15⟩ :=
    SortConsts.distinct_ne env.consts hd
  unfold sort_entries
  simp only [h, d9.symm, d12.symm, d14.symm, d15.symm, d5.symm, or_self, if_false, false_and]

/-- C19, the code at the failing input: with the sort key by-description and
two entries whose descriptions are "zebra" and "apple", in this order,
`sort_entries` leaves the entries as they are, although the comparator puts
the second before the first; and the comparator does not order two folders
without a description by their paths. -/
theorem sort_entries_ignores_description :
    descEnv.SidebarSortMethod &&& descEnv.consts.SORT_MASK = descEnv.consts.SORT_DESC ∧
    secondHighlighted.Entries.map (fun e => (descEnv.mbox e.mailbox).desc)
      = [some "zebra", some "apple"] ∧
    sort_entries descEnv insertionQsort secondHighlighted = secondHighlighted ∧
    0 < cb_qsort_sbe descEnv { addr := 1, mailbox := 1, is_hidden := false }
      { addr := 2, mailbox := 2, is_hidden := false } ∧
    ((descEnv.mbox 3).desc = none ∧ (descEnv.mbox 4).desc = none ∧
      cb_qsort_sbe descEnv { addr := 3, mailbox := 3, is_hidden := false }
        { addr := 4, mailbox := 4, is_hidden := false } = 0) := by
  decide

theorem take_set_self (l : List SbEntry) (i : Nat) (a : SbEntry) :
    (l.set i a).take i = l.take i := by
  apply List.ext_getElem?
  intro k
  simp only [List.getElem?_take]
  split_ifs with h
  · rw [List.getElem?_set_ne (by omega)]
  · rfl

/-- The effect of one iteration of `unsort_entries` when the mailbox `np` is
the mailbox of an entry at a position from `i` on: the entries before `i`
stay, the entry at `i` now has mailbox `np`, the array is rearranged, and `i`
advances. -/
theorem unsort_step_found (Entries : List SbEntry) (i : Nat) (np : Ptr)
    (h : np ∈ (Entries.drop i).map SbEntry.mailbox) :
    (unsort_step (Entries, i) np).2 = i + 1 ∧
    (unsort_step (Entries, i) np).1.take i = Entries.take i ∧
    ((unsort_step (Entries, i) np).1[i]?).map SbEntry.mailbox = some np ∧
    (unsort_step (Entries, i) np).1.Perm Entries := by
  obtain ⟨x, hx, hxm⟩ := List.mem_map.mp h
  have hfind : (Entries.drop i).findIdx (fun e => e.mailbox == np) < (Entries.drop i).length :=
    List.findIdx_lt_length_of_exists ⟨x, hx, by simpa using hxm⟩
  have hp := @List.findIdx_getElem _ (fun e : SbEntry => e.mailbox == np) (Entries.drop i) hfind
  rw [List.length_drop] at hfind
  have hj : i + (Entries.drop i).findIdx (fun e => e.mailbox == np) < Entries.length := by omega
  have hget : (Entries[i + (Entries.drop i).findIdx (fun e => e.mailbox == np)]?).map
      SbEntry.mailbox = some np := by
    rw [← List.getElem?_drop, List.getElem?_eq_getElem (by rw [List.length_drop]; omega)]
    simpa using hp
  have hi : ¬ i ≥ Entries.length := by omega
  unfold unsort_step
  simp only [hi, if_false, hj, if_true]
  refine ⟨trivial, ?_, ?_, unsort_step_perm (Entries, i) np |> fun hperm => ?_⟩
  · split_ifs with hne
    · unfold swap_entries
      rw [List.getElem?_eq_getElem (by omega : i < Entries.length), List.getElem?_eq_getElem hj]
      simp only
      rw [List.take_set_of_lt _ _ (by omega), take_set_self]
    · rfl
  · split_ifs with hne
    · unfold swap_entries
      rw [List.getElem?_eq_getElem (by omega : i < Entries.length), List.getElem?_eq_getElem hj]
      simp only
      rw [List.getElem?_set_ne (by omega), List.getElem?_set_self (by omega)]
      rw [List.getElem?_eq_getElem hj] at hget
      exact hget
    · rw [not_not.mp hne] at hget
      exact hget
  · have := hperm
    unfold unsort_step at this
    simp only [hi, if_false, hj, if_true] at this
    exact this

/-- The loop of `unsort_entries`: if the entries before `i` already follow the
mailbox list and those from `i` on are the mailboxes still to come, in any
order, the loop leaves the entries in the order of the list. -/
theorem unsort_fold_order (rest : List Ptr) : ∀ (Entries : List SbEntry) (i : Nat),
    ((Entries.drop i).map SbEntry.mailbox).Perm rest →
    (rest.foldl unsort_step (Entries, i)).1.map SbEntry.mailbox =
      (Entries.take i).map SbEntry.mailbox ++ rest := by
  induction rest with
  | nil =>
    intro Entries i hperm
    have hnil : Entries.drop i = [] := List.map_eq_nil_iff.mp hperm.eq_nil
    have hlen : Entries.length ≤ i := List.drop_eq_nil_iff.mp hnil
    simp only [List.foldl_nil, List.append_nil]
    rw [List.take_of_length_le hlen]
  | cons np rest ih =>
    intro Entries i hperm
    have hmem : np ∈ (Entries.drop i).map SbEntry.mailbox :=
      hperm.mem_iff.mpr (List.mem_cons_self _ _)
    obtain ⟨h1, h2, h3, h4⟩ := unsort_step_found Entries i np hmem
    rw [List.foldl_cons]
    have hst : unsort_step (Entries, i) np = ((unsort_step (Entries, i) np).1, i + 1) := by
      rw [← h1]
    rw [hst]
    have hlen : i < (unsort_step (Entries, i) np).1.length := by
      by_contra hc
      rw [List.getElem?_eq_none (by omega)] at h3
      cases h3
    have hdrop : (unsort_step (Entries, i) np).1.drop i =
        (unsort_step (Entries, i) np).1[i] :: (unsort_step (Entries, i) np).1.drop (i + 1) :=
      List.drop_eq_getElem_cons hlen
    have hmb : (unsort_step (Entries, i) np).1[i].mailbox = np := by
      rw [List.getElem?_eq_getElem hlen] at h3
      simpa using h3
    -- the entries from `i + 1` on are the rest of the list
    have hperm' : (((unsort_step (Entries, i) np).1.drop (i + 1)).map SbEntry.mailbox).Perm
        rest := by
      have hsplit : ((unsort_step (Entries, i) np).1.take i ++
          (unsort_step (Entries, i) np).1.drop i).Perm (Entries.take i ++ Entries.drop i) := by
        rw [List.take_append_drop, List.take_append_drop]
        exact h4
      rw [h2, List.perm_append_left_iff] at hsplit
      have hm := (hsplit.map SbEntry.mailbox).trans hperm
      rw [hdrop, List.map_cons, hmb] at hm
      exact hm.cons_inv
    rw [ih _ (i + 1) hperm', List.take_succ, List.getElem?_eq_getElem hlen, h2]
    simp [hmb]

/-- C20: if the folders of the entries are exactly the folders of
`AllMailboxes`, each as often as in the list (in particular each occurring
once), then after `unsort_entries` the i-th entry's mailbox is the i-th folder
of `AllMailboxes` for every `i`; and `sort_entries` runs `unsort_entries` when
the key is the natural one and the sort setting has changed. -/
theorem unsort_entries_matches_mailboxes (env : Env) (s : State)
    (h : (s.Entries.map SbEntry.mailbox).Perm env.AllMailboxes) :
    (∀ i : Nat,
      ((unsort_entries env s).Entries[i]?).map SbEntry.mailbox = env.AllMailboxes[i]?) ∧
    (unsort_entries env s).Entries.map SbEntry.mailbox = env.AllMailboxes ∧
    (∀ q : Qsort, env.consts.distinct →
      env.SidebarSortMethod &&& env.consts.SORT_MASK = env.consts.SORT_ORDER →
      env.SidebarSortMethod ≠ s.PreviousSort →
      sort_entries env q s = unsort_entries env s) := by
  have hmap : (unsort_entries env s).Entries.map SbEntry.mailbox = env.AllMailboxes := by
    unfold unsort_entries
    simp only
    rw [unsort_fold_order env.AllMailboxes s.Entries 0 (by simpa using h)]
    simp
  refine ⟨fun i => ?_, hmap, ?_⟩
  · rw [← hmap, List.getElem?_map]
  · intro q hd hk hne
    obtain ⟨d1, d2, d3, d4, d5, d6, d7, d8, d9, d10, d11, d12, d13, d14, d15⟩ :=
      SortConsts.distinct_ne env.consts hd
    unfold sort_entries
    simp only [hk, d1, d2, d3, d4, or_self, if_false, hne, ne_eq, not_false_eq_true, and_self,
      if_true]

/-- C20 on `secondHighlighted`, whose entries are in the order 1, 2, with the
mailbox list in the order 2, 1. -/
theorem unsort_entries_matches_mailboxes_witness :
    (secondHighlighted.Entries.map SbEntry.mailbox).Perm reorderedEnv.AllMailboxes ∧
    (unsort_entries reorderedEnv secondHighlighted).Entries.map SbEntry.mailbox = [2, 1] :=
  ⟨List.Perm.swap 2 1 [],
    (unsort_entries_matches_mailboxes reorderedEnv secondHighlighted (List.Perm.swap 2 1 [])).2.1⟩

/-! ## Repeated notifications and passes, and the open mailbox -/

/-- The state `duplicateState` is produced by the code. -/
theorem duplicateState_reached :
    notify_all filterEnv (State.init sortConsts) [(some 1, true), (some 1, true)]
      = duplicateState := by
  decide

/-- C23, as stated, fails: after folder 1 was created twice it is the mailbox
of two entries, and the second deletion removes the second of them. -/
theorem notify_delete_twice_duplicate :
    notify_all filterEnv (State.init sortConsts) [(some 1, true), (some 1, true)]
      = duplicateState ∧
    (mutt_sb_notify_mailbox filterEnv duplicateState (some 1) false).EntryCount = 1 ∧
    (mutt_sb_notify_mailbox filterEnv
      (mutt_sb_notify_mailbox filterEnv duplicateState (some 1) false) (some 1) false).EntryCount
        = 0 := by
  decide

/-- After the only entry of a folder is deleted, no entry has that folder. -/
theorem eraseIdx_no_mailbox (Entries : List SbEntry) (x : Ptr) (d : Nat)
    (hc : (Entries.map SbEntry.mailbox).count x ≤ 1) (hd : first_index_of x Entries d) :
    ∀ e ∈ Entries.eraseIdx d, e.mailbox ≠ x := by
  have hlt := first_index_of_lt hd
  have hm : Entries[d].mailbox = x := by
    have := hd.1
    rw [List.getElem?_eq_getElem hlt] at this
    simpa using this
  have hsplit : Entries = Entries.take d ++ Entries[d] :: Entries.drop (d + 1) := by
    rw [← List.drop_eq_getElem_cons hlt, List.take_append_drop]
  have hcount : (Entries.map SbEntry.mailbox).count x =
      ((Entries.take d).map SbEntry.mailbox).count x + 1 +
        ((Entries.drop (d + 1)).map SbEntry.mailbox).count x := by
    conv_lhs => rw [hsplit]
    rw [List.map_append, List.count_append, List.map_cons, List.count_cons, hm]
    simp
    omega
  intro e he
  rw [List.eraseIdx_eq_take_drop_succ, List.mem_append] at he
  intro hex
  have hmem : x ∈ (Entries.take d).map SbEntry.mailbox ∨
      x ∈ (Entries.drop (d + 1)).map SbEntry.mailbox := by
    rcases he with he | he
    · exact Or.inl (List.mem_map.mpr ⟨e, he, hex⟩)
    · exact Or.inr (List.mem_map.mpr ⟨e, he, hex⟩)
  rcases hmem with hmem | hmem
  · have := List.count_pos_iff.mpr hmem
    omega
  · have := List.count_pos_iff.mpr hmem
    omega

/-- C23, amended: for every registry state and folder `x` that is the mailbox
of at most one entry, after `mutt_sb_notify_mailbox(x, false)` a second
`mutt_sb_notify_mailbox(x, false)` is a no-op: the whole state, with the entry
sequence, `EntryCount` and the four indices, is the same before and after the
second call. -/
theorem notify_delete_twice (env : Env) (s : State) (x : Ptr)
    (hc : (s.Entries.map SbEntry.mailbox).count x ≤ 1) :
    mutt_sb_notify_mailbox env (mutt_sb_notify_mailbox env s (some x) false) (some x) false =
      mutt_sb_notify_mailbox env s (some x) false := by
  rcases first_index_of_exists x s.Entries with hab | ⟨d, hd⟩
  · rw [notify_delete_absent env s x hab, notify_delete_absent env s x hab]
  · apply notify_delete_absent
    rw [notify_delete_found env s x d hd]
    exact eraseIdx_no_mailbox s.Entries x d hc hd

/-- C23 as amended on `twoEntryState`, deleting mailbox 1 twice. -/
theorem notify_delete_twice_witness :
    (twoEntryState.Entries.map SbEntry.mailbox).count 1 ≤ 1 ∧
    mutt_sb_notify_mailbox filterEnv
        (mutt_sb_notify_mailbox filterEnv twoEntryState (some 1) false) (some 1) false =
      mutt_sb_notify_mailbox filterEnv twoEntryState (some 1) false :=
  ⟨by decide, notify_delete_twice filterEnv twoEntryState 1 (by decide)⟩

/-- C24: `mutt_sb_notify_mailbox(m, false)` for a folder `m` that is the
mailbox of no entry, or for a null `m`, leaves the whole state unchanged: the
entry sequence, `EntryCount`, the four indices, and the redraw request. -/
theorem notify_delete_unknown (env : Env) (s : State) (m : Option Ptr)
    (h : m = none ∨ ∀ e ∈ s.Entries, some e.mailbox ≠ m) :
    mutt_sb_notify_mailbox env s m false = s := by
  cases m with
  | none => rfl
  | some x =>
    apply notify_delete_absent
    rcases h with h | h
    · cases h
    · intro e he hex
      exact h e he (by rw [hex])

/-- C24 on `loneState`, whose redraw flag is clear, for the unknown folder 7
and for a null folder. -/
theorem notify_delete_unknown_witness :
    (∀ e ∈ loneState.Entries, some e.mailbox ≠ some 7) ∧
    mutt_sb_notify_mailbox filterEnv loneState (some 7) false = loneState ∧
    mutt_sb_notify_mailbox filterEnv loneState none false = loneState ∧
    loneState.redraw = false :=
  ⟨by decide, notify_delete_unknown filterEnv loneState (some 7) (Or.inr (by decide)),
    notify_delete_unknown filterEnv loneState none (Or.inl rfl), rfl⟩

/-- The creation branch of `mutt_sb_notify_mailbox`. -/
theorem notify_create_eq (env : Env) (s : State) (m : Ptr) :
    mutt_sb_notify_mailbox env s (some m) true =
      { s with
        Entries := s.Entries ++
          [{ addr := mutt_mem_calloc s.Entries, mailbox := m, is_hidden := false }]
        EntryLen := if s.Entries.length ≥ s.EntryLen then s.EntryLen + 10 else s.EntryLen
        TopIndex := if s.TopIndex < 0 then (s.Entries.length : Int) else s.TopIndex
        OpnIndex := if s.OpnIndex < 0 ∧ context_matches env m = true
          then (s.Entries.length : Int) else s.OpnIndex
        BotIndex := if s.BotIndex < 0 then (s.Entries.length : Int) else s.BotIndex
        redraw := true } := by
  simp only [mutt_sb_notify_mailbox, if_true]

theorem entryAt_append_new (Entries : List SbEntry) (e : SbEntry) :
    entryAt (Entries ++ [e]) (Entries.length : Int) = some e := by
  rw [entryAt_natCast]
  simp

/-- C25: `mutt_sb_notify_mailbox(m, true)` appends one entry for `m` with
`is_hidden = false` at position `EntryCount`, leaves every existing entry and
its position unchanged, increases `EntryCount` by one, sets `TopIndex` and
`BotIndex` to the new position exactly when they were unset and otherwise
leaves them, and leaves `HilIndex` unchanged. -/
theorem notify_create_appends (env : Env) (s : State) (m : Ptr) :
    (∃ e, (mutt_sb_notify_mailbox env s (some m) true).Entries = s.Entries ++ [e] ∧
      e.mailbox = m ∧ e.is_hidden = false ∧
      entryAt (mutt_sb_notify_mailbox env s (some m) true).Entries s.EntryCount = some e) ∧
    (∀ i : Nat, i < s.Entries.length →
      (mutt_sb_notify_mailbox env s (some m) true).Entries[i]? = s.Entries[i]?) ∧
    (mutt_sb_notify_mailbox env s (some m) true).EntryCount = s.EntryCount + 1 ∧
    (mutt_sb_notify_mailbox env s (some m) true).TopIndex =
      (if s.TopIndex < 0 then s.EntryCount else s.TopIndex) ∧
    (mutt_sb_notify_mailbox env s (some m) true).BotIndex =
      (if s.BotIndex < 0 then s.EntryCount else s.BotIndex) ∧
    (mutt_sb_notify_mailbox env s (some m) true).HilIndex = s.HilIndex := by
  rw [notify_create_eq]
  unfold State.EntryCount
  refine ⟨⟨{ addr := mutt_mem_calloc s.Entries, mailbox := m, is_hidden := false }, rfl, rfl,
    rfl, entryAt_append_new _ _⟩, ?_, ?_, rfl, rfl, rfl⟩
  · intro i hi
    exact List.getElem?_append_left hi
  · simp only [List.length_append, List.length_singleton]
    push_cast
    rfl

/-- C26, as stated, fails: with mailbox 1 open and already recorded at
`OpnIndex = 0`, creating a folder with the same realpath appends it at
position 2 and leaves `OpnIndex = 0`. -/
theorem notify_create_keeps_open :
    context_matches contextEnv 1 = true ∧ openFirstState.OpnIndex = 0 ∧
    openFirstState.EntryCount = 2 ∧
    (mutt_sb_notify_mailbox contextEnv openFirstState (some 1) true).OpnIndex = 0 := by
  decide

/-- C26, amended: when `mutt_sb_notify_mailbox(m, true)` inserts a folder `m`
whose realpath equals that of the currently open `Context` mailbox and
`OpnIndex` is unset, `OpnIndex` afterwards equals the position of the newly
inserted entry; when `OpnIndex` is already set it is left unchanged. -/
theorem notify_create_sets_open (env : Env) (s : State) (m c : Ptr)
    (hc : env.Context = some c)
    (hr : (env.mbox m).realpath = (env.mbox c).realpath) :
    (s.OpnIndex < 0 →
      (mutt_sb_notify_mailbox env s (some m) true).OpnIndex = s.EntryCount ∧
      ∃ e, entryAt (mutt_sb_notify_mailbox env s (some m) true).Entries
          (mutt_sb_notify_mailbox env s (some m) true).OpnIndex = some e ∧ e.mailbox = m) ∧
    (0 ≤ s.OpnIndex → (mutt_sb_notify_mailbox env s (some m) true).OpnIndex = s.OpnIndex) := by
  have hm : context_matches env m = true := by
    unfold context_matches
    rw [hc]
    simp only [beq_iff_eq]
    exact (mutt_str_strcmp_eq_zero _ _).mpr hr
  rw [notify_create_eq]
  unfold State.EntryCount
  simp only [hm, and_true]
  constructor
  · intro hneg
    rw [if_pos hneg]
    exact ⟨rfl, { addr := mutt_mem_calloc s.Entries, mailbox := m, is_hidden := false },
      entryAt_append_new _ _, rfl⟩
  · intro hpos
    rw [if_neg (by omega)]

/-- C26 as amended on `twoEntryState`, whose `OpnIndex` is unset, with mailbox
1 open. -/
theorem notify_create_sets_open_witness :
    (contextEnv.Context = some 1 ∧
      (contextEnv.mbox 1).realpath = (contextEnv.mbox 1).realpath ∧
      twoEntryState.OpnIndex < 0) ∧
    (mutt_sb_notify_mailbox contextEnv twoEntryState (some 1) true).OpnIndex =
      twoEntryState.EntryCount :=
  ⟨⟨rfl, rfl, by decide⟩,
    ((notify_create_sets_open contextEnv twoEntryState 1 1 rfl rfl).1 (by decide)).1⟩

/-- C27: `mutt_sb_set_open_mailbox` sets `OpnIndex` to -1 when there is no
open `Context` or no entry's realpath equals the `Context` mailbox's realpath,
and otherwise to the smallest index of an entry whose realpath matches; it
sets `HilIndex` to that same index when a match is found and leaves it
unchanged otherwise; nothing else (the entries, `TopIndex`, `BotIndex`) is
changed. -/
theorem set_open_mailbox_first_match (env : Env) (s : State) :
    ((env.Context = none ∨ ∀ e ∈ s.Entries, ¬ has_open_realpath env e) →
      mutt_sb_set_open_mailbox env s = { s with OpnIndex := -1 }) ∧
    (∀ (d : Nat) (e : SbEntry), s.Entries[d]? = some e → has_open_realpath env e →
      (∀ (j : Nat) (e' : SbEntry), j < d → s.Entries[j]? = some e' →
        ¬ has_open_realpath env e') →
      mutt_sb_set_open_mailbox env s = { s with OpnIndex := d, HilIndex := d }) := by
  unfold mutt_sb_set_open_mailbox
  cases hc : env.Context with
  | none =>
    refine ⟨fun _ => rfl, ?_⟩
    rintro d e _ ⟨c, hc', _⟩ _
    rw [hc] at hc'
    cases hc'
  | some c =>
    have hiff : ∀ e : SbEntry,
        (mutt_str_strcmp (some (env.mbox e.mailbox).realpath)
          (some (env.mbox c).realpath) == 0) = true ↔ has_open_realpath env e := by
      intro e
      rw [beq_iff_eq, mutt_str_strcmp_eq_zero]
      constructor
      · intro h; exact ⟨c, hc, h⟩
      · rintro ⟨c', hc', h⟩
        rw [hc] at hc'
        cases hc'
        exact h
    simp only
    constructor
    · rintro (h | h)
      · cases h
      · have hlen : s.Entries.findIdx (fun e =>
            mutt_str_strcmp (some (env.mbox e.mailbox).realpath)
              (some (env.mbox c).realpath) == 0) = s.Entries.length := by
          rw [List.findIdx_eq_length]
          intro x hx
          have := h x hx
          rw [← hiff x] at this
          simpa using this
        rw [hlen, if_neg (lt_irrefl _)]
    · intro d e he hm hfirst
      obtain ⟨hd, hget⟩ := List.getElem?_eq_some.mp he
      have hfind : s.Entries.findIdx (fun e =>
          mutt_str_strcmp (some (env.mbox e.mailbox).realpath)
            (some (env.mbox c).realpath) == 0) = d := by
        rw [List.findIdx_eq hd]
        refine ⟨?_, ?_⟩
        · rw [hget]; exact (hiff e).mpr hm
        · intro j hj
          have := hfirst j s.Entries[j] hj (List.getElem?_eq_getElem (by omega))
          rw [← hiff] at this
          simpa using this
      rw [hfind, if_pos hd]

/-- C27 on `openFirstState` with `OpnIndex` and `HilIndex` cleared: mailbox 1
is open and its entry is at index 0; and without a `Context` only `OpnIndex`
is reset. -/
theorem set_open_mailbox_first_match_witness :
    mutt_sb_set_open_mailbox contextEnv { twoEntryState with OpnIndex := -1, HilIndex := 1 } =
      { twoEntryState with OpnIndex := 0, HilIndex := 0 } ∧
    mutt_sb_set_open_mailbox filterEnv openFirstState = { openFirstState with OpnIndex := -1 } :=
  ⟨(set_open_mailbox_first_match contextEnv
      { twoEntryState with OpnIndex := -1, HilIndex := 1 }).2 0
      { addr := 1, mailbox := 1, is_hidden := false } rfl ⟨1, rfl, rfl⟩
      (fun j _ hj => absurd hj (Nat.not_lt_zero j)),
    (set_open_mailbox_first_match filterEnv openFirstState).1 (Or.inl rfl)⟩

/-- With pairwise distinct entry pointers, the search for the pointer of a
member of the array ends on the index of that member. -/
theorem locate_entry_member (Entries : List SbEntry) (idx : Int) (x : SbEntry)
    (hnd : (Entries.map SbEntry.addr).Nodup) (hx : x ∈ Entries) :
    ∃ i : Nat, locate_entry (some x.addr) Entries idx = (i : Int) ∧ Entries[i]? = some x := by
  rcases locate_entry_spec (some x.addr) Entries idx with ⟨_, h2⟩ | ⟨i, e', h1, h2, h3, _⟩
  · exact absurd rfl (h2 x hx)
  · refine ⟨i, h1, ?_⟩
    rw [h2]
    congr 1
    apply List.inj_on_of_nodup_map hnd (List.getElem?_mem h2) hx
    exact (Option.some.inj h3).symm

/-- With pairwise distinct entry pointers, the relocated `OpnIndex` designates
the entry that `OpnIndex` designated on entry, as the filter pass left it. -/
theorem relocate_indices_open (env : Env) (q : Qsort) (s : State) (o hp : Option Ptr)
    (hnd : (s.Entries.map SbEntry.addr).Nodup) (h0 : 0 ≤ s.OpnIndex)
    (eo : entry_ptr s.Entries s.OpnIndex = some o) :
    ∃ e, entryAt s.Entries s.OpnIndex = some e ∧
      0 ≤ (relocate_indices env q s o hp).OpnIndex ∧
      entryAt (relocate_indices env q s o hp).Entries (relocate_indices env q s o hp).OpnIndex =
        some (visibility_of env s.OpnIndex s.OpnIndex.toNat e) := by
  obtain ⟨f1, _, f3, _⟩ := relocate_indices_fields env q s o hp
  have hlt := entry_ptr_some_lt _ _ _ eo
  obtain ⟨e, he⟩ := entryAt_of_range s.Entries s.OpnIndex h0 hlt
  have ho : o = some e.addr := by
    unfold entry_ptr at eo
    simp only [ge_iff_le, h0, if_true, he, Option.map_some', Option.some.injEq] at eo
    exact eo.symm
  have hU := update_entries_visibility_entryAt env s s.OpnIndex
  rw [he, Option.map_some'] at hU
  have hperm := sort_entries_perm env q (update_entries_visibility env s)
  have hmemU : visibility_of env s.OpnIndex s.OpnIndex.toNat e ∈
      (update_entries_visibility env s).Entries :=
    List.getElem?_mem (entryAt_eq_some hU).2.2
  have hmem := hperm.mem_iff.mpr hmemU
  have hndm : ((sort_entries env q (update_entries_visibility env s)).Entries.map
      SbEntry.addr).Nodup := by
    rw [(hperm.map SbEntry.addr).nodup_iff, update_entries_visibility_addrs]
    exact hnd
  obtain ⟨i, h1, h2⟩ := locate_entry_member _ s.OpnIndex _ hndm hmem
  rw [(visibility_of_addr env s.OpnIndex s.OpnIndex.toNat e).1, ← ho] at h1
  refine ⟨e, he, ?_, ?_⟩
  · rw [f3, h1]; omega
  · rw [f1, f3, h1, entryAt_natCast, h2]

/-- The filter pass never hides the entry at `OpnIndex`. -/
theorem visibility_of_open (env : Env) (o : Int) (e : SbEntry) (h0 : 0 ≤ o) :
    (visibility_of env o o.toNat e).is_hidden = false := by
  rw [← Bool.not_eq_true, visibility_of_hidden_iff]
  rintro ⟨_, hne, _⟩
  apply hne
  omega

/-- C28: if `OpnIndex` is set when `prepare_sidebar` is entered and it returns
true, then (entry pointers being pairwise distinct) `OpnIndex` afterwards is
set and designates the same entry object, with the same mailbox, as before,
whatever the sort setting and the order the sort pass produced, and that entry
is not hidden. -/
theorem prepare_sidebar_keeps_open (env : Env) (q : Qsort) (s s' : State) (page_size : Int)
    (hnd : (s.Entries.map SbEntry.addr).Nodup) (h0 : 0 ≤ s.OpnIndex)
    (h : prepare_sidebar env q s page_size = some (true, s')) :
    0 ≤ s'.OpnIndex ∧
    ∃ e e', entryAt s.Entries s.OpnIndex = some e ∧
      entryAt s'.Entries s'.OpnIndex = some e' ∧
      e'.addr = e.addr ∧ e'.mailbox = e.mailbox ∧ e'.is_hidden = false := by
  obtain ⟨o, hp, m, eo, _, hm, hs', _⟩ := prepare_sidebar_spec env q s s' page_size h
  have hE0 := congrArg State.Entries hs'
  have hE : s'.Entries = m.Entries := hE0
  have hO0 := congrArg State.OpnIndex hs'
  have hO : s'.OpnIndex = m.OpnIndex := hO0
  obtain ⟨e, he, g0, g1⟩ := relocate_indices_open env q s o hp hnd h0 eo
  rw [← hm] at g0 g1
  rw [hE, hO]
  refine ⟨g0, e, _, he, g1, ?_, ?_, visibility_of_open env s.OpnIndex e h0⟩
  · exact (visibility_of_addr env s.OpnIndex s.OpnIndex.toNat e).1
  · exact (visibility_of_addr env s.OpnIndex s.OpnIndex.toNat e).2

/-- C28 on `openSecondState` sorted by reversed path: the open entry of
mailbox 2, which has no new mail, moves from index 1 to index 0 and stays
shown. -/
theorem prepare_sidebar_keeps_open_witness :
    (openSecondState.Entries.map SbEntry.addr).Nodup ∧ 0 ≤ openSecondState.OpnIndex ∧
    prepare_sidebar reversePathEnv insertionQsort openSecondState 5 =
      some (true, openSecondSorted) ∧
    ∃ e e', entryAt openSecondState.Entries openSecondState.OpnIndex = some e ∧
      entryAt openSecondSorted.Entries openSecondSorted.OpnIndex = some e' ∧
      e'.addr = e.addr ∧ e'.mailbox = e.mailbox ∧ e'.is_hidden = false :=
  ⟨by decide, by decide, by decide,
    (prepare_sidebar_keeps_open reversePathEnv insertionQsort openSecondState openSecondSorted 5
      (by decide) (by decide) (by decide)).2⟩

theorem update_entries_visibility_mailboxes (env : Env) (s : State) :
    (update_entries_visibility env s).Entries.map SbEntry.mailbox =
      s.Entries.map SbEntry.mailbox := by
  apply List.ext_getElem?
  intro n
  simp only [update_entries_visibility, List.getElem?_map, List.getElem?_mapIdx]
  cases s.Entries[n]? with
  | none => rfl
  | some e => simp [(visibility_of_addr env s.OpnIndex n e).2]

/-- With the natural key, the sort pass does nothing when the sort setting is
the one recorded in `PreviousSort`. -/
theorem sort_entries_natural_unchanged (env : Env) (q : Qsort) (s : State)
    (hd : env.consts.distinct)
    (hk : env.SidebarSortMethod &&& env.consts.SORT_MASK = env.consts.SORT_ORDER)
    (he : env.SidebarSortMethod = s.PreviousSort) : sort_entries env q s = s := by
  obtain ⟨d1, d2, d3, d4, _⟩ := SortConsts.distinct_ne env.consts hd
  unfold sort_entries
  have hg : ¬ (True ∧ env.SidebarSortMethod ≠ s.PreviousSort) := fun h => h.2 he
  simp only [hk, d1, d2, d3, d4, or_self, if_false]
  rw [if_neg hg]

/-- With the natural key, the sort pass is `unsort_entries` when the sort
setting differs from the one recorded in `PreviousSort`. -/
theorem sort_entries_natural_changed (env : Env) (q : Qsort) (s : State)
    (hd : env.consts.distinct)
    (hk : env.SidebarSortMethod &&& env.consts.SORT_MASK = env.consts.SORT_ORDER)
    (hne : env.SidebarSortMethod ≠ s.PreviousSort) :
    sort_entries env q s = unsort_entries env s := by
  obtain ⟨d1, d2, d3, d4, _⟩ := SortConsts.distinct_ne env.consts hd
  unfold sort_entries
  simp only [hk, d1, d2, d3, d4, or_self, if_false, hne, ne_eq, not_false_eq_true, and_self,
    if_true]

theorem unsort_entries_order (env : Env) (s : State)
    (h : (s.Entries.map SbEntry.mailbox).Perm env.AllMailboxes) :
    (unsort_entries env s).Entries.map SbEntry.mailbox = env.AllMailboxes := by
  unfold unsort_entries
  simp only
  rw [unsort_fold_order env.AllMailboxes s.Entries 0 (by simpa using h)]
  simp

/-- A run of `prepare_sidebar` that returns false changes nothing. -/
theorem prepare_sidebar_false (env : Env) (q : Qsort) (s s' : State) (page_size : Int)
    (h : prepare_sidebar env q s page_size = some (false, s')) : s' = s := by
  unfold prepare_sidebar at h
  by_cases hc : s.Entries.length = 0 ∨ page_size ≤ 0
  · rw [if_pos hc] at h
    simp only [Option.some.injEq, Prod.mk.injEq, true_and] at h
    exact h.symm
  · rw [if_neg hc] at h
    cases ho : entry_ptr s.Entries s.OpnIndex with
    | none => simp [ho] at h
    | some o =>
      cases hh : entry_ptr s.Entries s.HilIndex with
      | none => simp [ho, hh] at h
      | some hp =>
        simp only [ho, hh] at h
        cases hr : reset_highlight env (relocate_indices env q s o hp) with
        | none => simp [hr] at h
        | some s3 =>
          simp only [hr] at h
          cases hf : frame_highlight env s3 page_size with
          | none => simp [hf] at h
          | some s4 => simp [hf] at h

/-- C21, as stated, fails: after a pass of `prepare_sidebar` with the natural
key has put the entries in the order 2, 1 of the mailbox list, and the list
has been reordered to 1, 2, a second pass with the key still natural leaves
the entries in the order 2, 1. -/
theorem prepare_sidebar_natural_stale :
    reorderedEnv.SidebarSortMethod &&& reorderedEnv.consts.SORT_MASK =
      reorderedEnv.consts.SORT_ORDER ∧
    orderedEnv.SidebarSortMethod = reorderedEnv.SidebarSortMethod ∧
    prepare_sidebar reorderedEnv insertionQsort countSortedState 5 =
      some (true, naturalSortedState) ∧
    naturalSortedState.Entries.map SbEntry.mailbox = reorderedEnv.AllMailboxes ∧
    orderedEnv.AllMailboxes = [1, 2] ∧
    prepare_sidebar orderedEnv insertionQsort naturalSortedState 5 =
      some (true, naturalSortedState) ∧
    naturalSortedState.Entries.map SbEntry.mailbox = [2, 1] := by
  decide

/-- C21, amended: with the sort key natural in both passes, a second
`sort_entries` pass made after the external folder list was reordered puts the
entries (whose folders are those of the new list) in the new external order
exactly when the sort setting differs from the recorded `PreviousSort`; when
they are equal the second pass changes nothing, and that is the case after
every `prepare_sidebar` that made the first pass, so that a second
`prepare_sidebar` leaves the order of the folders as the first one left it. -/
theorem sort_entries_natural_round_trip (env1 env2 : Env) (q : Qsort) (s : State)
    (hd : env1.consts.distinct) (hc : env2.consts = env1.consts)
    (hs : env2.SidebarSortMethod = env1.SidebarSortMethod)
    (hk : env1.SidebarSortMethod &&& env1.consts.SORT_MASK = env1.consts.SORT_ORDER) :
    (env1.SidebarSortMethod ≠ s.PreviousSort →
      (s.Entries.map SbEntry.mailbox).Perm env2.AllMailboxes →
      (sort_entries env2 q (sort_entries env1 q s)).Entries.map SbEntry.mailbox
        = env2.AllMailboxes) ∧
    (env1.SidebarSortMethod = s.PreviousSort →
      sort_entries env2 q (sort_entries env1 q s) = s) ∧
    (∀ page_size s1, prepare_sidebar env1 q s page_size = some (true, s1) →
      sort_entries env2 q s1 = s1 ∧
      ∀ page_size2 b s2, prepare_sidebar env2 q s1 page_size2 = some (b, s2) →
        s2.Entries.map SbEntry.mailbox = s1.Entries.map SbEntry.mailbox) := by
  have hd2 : env2.consts.distinct := by rw [hc]; exact hd
  have hk2 : env2.SidebarSortMethod &&& env2.consts.SORT_MASK = env2.consts.SORT_ORDER := by
    rw [hc, hs]; exact hk
  refine ⟨?_, ?_, ?_⟩
  · intro hne hp
    have hP : (sort_entries env1 q s).PreviousSort = s.PreviousSort := by
      rw [sort_entries_frame]
    have hne2 : env2.SidebarSortMethod ≠ (sort_entries env1 q s).PreviousSort := by
      rw [hP, hs]; exact hne
    rw [sort_entries_natural_changed env2 q _ hd2 hk2 hne2]
    exact unsort_entries_order env2 _ (((sort_entries_perm env1 q s).map _).trans hp)
  · intro he
    rw [sort_entries_natural_unchanged env1 q s hd hk he]
    exact sort_entries_natural_unchanged env2 q s hd2 hk2 (by rw [hs]; exact he)
  · intro page_size s1 h1
    obtain ⟨_, _, m, _, _, _, hs1, _⟩ := prepare_sidebar_spec env1 q s s1 page_size h1
    have hP0 := congrArg State.PreviousSort hs1
    have hP : s1.PreviousSort = env1.SidebarSortMethod := hP0
    have he2 : env2.SidebarSortMethod = s1.PreviousSort := by rw [hP, hs]
    refine ⟨sort_entries_natural_unchanged env2 q s1 hd2 hk2 he2, ?_⟩
    intro page_size2 b s2 h2
    cases b with
    | false => rw [prepare_sidebar_false env2 q s1 s2 page_size2 h2]
    | true =>
      obtain ⟨o, hp, m2, _, _, hm2, hs2, _⟩ := prepare_sidebar_spec env2 q s1 s2 page_size2 h2
      have hE0 := congrArg State.Entries hs2
      have hE : s2.Entries = m2.Entries := hE0
      obtain ⟨f1, _⟩ := relocate_indices_fields env2 q s1 o hp
      rw [hE, hm2, f1,
        sort_entries_natural_unchanged env2 q (update_entries_visibility env2 s1) hd2 hk2 he2,
        update_entries_visibility_mailboxes]

/-- C21 as amended, on `countSortedState`, whose recorded sort method is
`SORT_COUNT`: two bare sort passes follow the reordered list. -/
theorem sort_entries_natural_round_trip_witness :
    (reorderedEnv.consts.distinct ∧ orderedEnv.consts = reorderedEnv.consts ∧
      orderedEnv.SidebarSortMethod = reorderedEnv.SidebarSortMethod ∧
      reorderedEnv.SidebarSortMethod &&& reorderedEnv.consts.SORT_MASK =
        reorderedEnv.consts.SORT_ORDER) ∧
    reorderedEnv.SidebarSortMethod ≠ countSortedState.PreviousSort ∧
    (countSortedState.Entries.map SbEntry.mailbox).Perm orderedEnv.AllMailboxes ∧
    (sort_entries orderedEnv insertionQsort
      (sort_entries reorderedEnv insertionQsort countSortedState)).Entries.map SbEntry.mailbox
        = orderedEnv.AllMailboxes :=
  ⟨⟨by decide, rfl, rfl, by decide⟩, by decide, List.Perm.refl _,
    (sort_entries_natural_round_trip reorderedEnv orderedEnv insertionQsort countSortedState
      (by decide) rfl rfl (by decide)).1 (by decide) (List.Perm.refl _)⟩

/-- The unread counts of `unreadEnv` are small. -/
theorem unreadEnv_differences (p p' : Ptr) :
    -2147483648 ≤ (unreadEnv.mbox p').msg_unread - (unreadEnv.mbox p).msg_unread ∧
    (unreadEnv.mbox p').msg_unread - (unreadEnv.mbox p).msg_unread < 2147483648 := by
  show -2147483648 ≤ (exampleMailbox p').msg_unread - (exampleMailbox p).msg_unread ∧
    (exampleMailbox p').msg_unread - (exampleMailbox p).msg_unread < 2147483648
  simp only [exampleMailbox]
  split_ifs <;> constructor <;> norm_num

/-- C32, the code at the failing input: with `SidebarNewMailOnly` set and the
only entry, which has no new mail, highlighted, `update_entries_visibility`
hides the entry at `HilIndex`. -/
theorem update_entries_visibility_hides_highlight :
    filterEnv.SidebarNewMailOnly = true ∧
    0 ≤ loneState.HilIndex ∧ loneState.HilIndex < loneState.EntryCount ∧
    (entryAt (update_entries_visibility filterEnv loneState).Entries
      (update_entries_visibility filterEnv loneState).HilIndex).map SbEntry.is_hidden
        = some true := by
  decide

/-- C33, as stated, fails: two folders with the same count 0 and the paths "a"
and "b" give a negative result although the first count is not greater; and
with the counts `INT_MAX`, 0 and -2 the subtraction wraps, so that the first
folder, whose count is the greatest, comes after the third, and the order is
not transitive. -/
theorem cb_qsort_sbe_count_wraps :
    ((countEnv.mbox 1).msg_count = (countEnv.mbox 2).msg_count ∧
      cb_qsort_sbe countEnv { addr := 1, mailbox := 1, is_hidden := false }
        { addr := 2, mailbox := 2, is_hidden := false } < 0) ∧
    overflowEnv.SidebarSortMethod &&& overflowEnv.consts.SORT_MASK =
      overflowEnv.consts.SORT_COUNT ∧
    overflowEnv.SidebarSortMethod &&& overflowEnv.consts.SORT_REVERSE = 0 ∧
    (overflowEnv.mbox 3).msg_count < (overflowEnv.mbox 1).msg_count ∧
    0 < cb_qsort_sbe overflowEnv { addr := 1, mailbox := 1, is_hidden := false }
      { addr := 3, mailbox := 3, is_hidden := false } ∧
    cb_qsort_sbe overflowEnv { addr := 1, mailbox := 1, is_hidden := false }
      { addr := 2, mailbox := 2, is_hidden := false } ≤ 0 ∧
    cb_qsort_sbe overflowEnv { addr := 2, mailbox := 2, is_hidden := false }
      { addr := 3, mailbox := 3, is_hidden := false } ≤ 0 := by
  decide

/-- For the three count keys without the reverse flag the comparator is
`count_order`, as long as the difference of two counts is a C `int`. -/
theorem cb_qsort_sbe_count_forward (env : Env) (key : Mailbox → Int)
    (hd : env.consts.distinct)
    (hkey : (env.SidebarSortMethod &&& env.consts.SORT_MASK = env.consts.SORT_COUNT ∧
        key = Mailbox.msg_count) ∨
      (env.SidebarSortMethod &&& env.consts.SORT_MASK = env.consts.SORT_UNREAD ∧
        key = Mailbox.msg_unread) ∨
      (env.SidebarSortMethod &&& env.consts.SORT_MASK = env.consts.SORT_FLAGGED ∧
        key = Mailbox.msg_flagged))
    (hrev : env.SidebarSortMethod &&& env.consts.SORT_REVERSE = 0)
    (hdiff : ∀ p p', -2147483648 ≤ key (env.mbox p') - key (env.mbox p) ∧
      key (env.mbox p') - key (env.mbox p) < 2147483648) (a b : SbEntry) :
    cb_qsort_sbe env a b = count_order env key a b := by
  obtain ⟨d1, d2, d3, d4, d5, d6, d7, d8, d9, d10, d11, d12, d13, d14, d15⟩ :=
    SortConsts.distinct_ne env.consts hd
  have hab := hdiff a.mailbox b.mailbox
  have hnr : ¬ (env.SidebarSortMethod &&& env.consts.SORT_REVERSE ≠ 0) := fun h => h hrev
  have hform : cb_qsort_sbe env a b =
      if key (env.mbox b.mailbox) = key (env.mbox a.mailbox) then
        env.mutt_str_strcoll (env.mbox a.mailbox).path (env.mbox b.mailbox).path
      else wrap_int (key (env.mbox b.mailbox) - key (env.mbox a.mailbox)) := by
    unfold cb_qsort_sbe
    simp only
    rw [if_neg hnr]
    rcases hkey with ⟨h, rfl⟩ | ⟨h, rfl⟩ | ⟨h, rfl⟩
    · simp only [h, if_true]
    · simp only [h, d6.symm, if_false, if_true]
    · simp only [h, d7.symm, d10.symm, d14, if_false, if_true]
  rw [hform, wrap_int_id _ hab.1 hab.2]
  rfl

/-- C33, amended: for the keys by-count, by-unread and by-flagged and count
values whose differences are 32-bit signed values (as are those of all
non-negative counts), `cb_qsort_sbe` without the reverse flag returns, for two
folders with different counts, a negative value exactly when the first
folder's count is strictly greater than the second's and a positive value
exactly when it is strictly smaller, and for equal counts the collation of the
paths; so, the collation being consistent, the comparator is a consistent
ordering. -/
theorem cb_qsort_sbe_count_sign (env : Env) (key : Mailbox → Int)
    (hd : env.consts.distinct)
    (hkey : (env.SidebarSortMethod &&& env.consts.SORT_MASK = env.consts.SORT_COUNT ∧
        key = Mailbox.msg_count) ∨
      (env.SidebarSortMethod &&& env.consts.SORT_MASK = env.consts.SORT_UNREAD ∧
        key = Mailbox.msg_unread) ∨
      (env.SidebarSortMethod &&& env.consts.SORT_MASK = env.consts.SORT_FLAGGED ∧
        key = Mailbox.msg_flagged))
    (hrev : env.SidebarSortMethod &&& env.consts.SORT_REVERSE = 0)
    (hdiff : ∀ p p', -2147483648 ≤ key (env.mbox p') - key (env.mbox p) ∧
      key (env.mbox p') - key (env.mbox p) < 2147483648) :
    (∀ a b : SbEntry, key (env.mbox a.mailbox) ≠ key (env.mbox b.mailbox) →
      (cb_qsort_sbe env a b < 0 ↔ key (env.mbox b.mailbox) < key (env.mbox a.mailbox)) ∧
      (0 < cb_qsort_sbe env a b ↔ key (env.mbox a.mailbox) < key (env.mbox b.mailbox))) ∧
    (∀ a b : SbEntry, key (env.mbox a.mailbox) = key (env.mbox b.mailbox) →
      cb_qsort_sbe env a b =
        env.mutt_str_strcoll (env.mbox a.mailbox).path (env.mbox b.mailbox).path) ∧
    (collation_consistent env.mutt_str_strcoll → comparator_consistent (cb_qsort_sbe env)) := by
  have hform := cb_qsort_sbe_count_forward env key hd hkey hrev hdiff
  refine ⟨?_, ?_, ?_⟩
  · intro a b hne
    rw [hform a b]
    unfold count_order
    rw [if_neg (fun h => hne h.symm)]
    constructor <;> constructor <;> intro h <;> omega
  · intro a b he
    rw [hform a b]
    unfold count_order
    rw [if_pos he.symm]
  · intro hcoll
    constructor
    · intro a b
      rw [hform a b, hform b a]
      exact count_order_neg_iff env key hcoll a b
    · intro a b c
      rw [hform a b, hform b c, hform a c]
      exact count_order_trans env key hcoll a b c

/-- C33 as amended, on `unreadEnv` and the unread counts 3 and 0 of mailboxes
1 and 2. -/
theorem cb_qsort_sbe_count_sign_witness :
    (unreadEnv.consts.distinct ∧
      unreadEnv.SidebarSortMethod &&& unreadEnv.consts.SORT_MASK = unreadEnv.consts.SORT_UNREAD ∧
      unreadEnv.SidebarSortMethod &&& unreadEnv.consts.SORT_REVERSE = 0 ∧
      (unreadEnv.mbox 1).msg_unread ≠ (unreadEnv.mbox 2).msg_unread) ∧
    (cb_qsort_sbe unreadEnv { addr := 1, mailbox := 1, is_hidden := false }
        { addr := 2, mailbox := 2, is_hidden := false } < 0 ↔
      (unreadEnv.mbox 2).msg_unread < (unreadEnv.mbox 1).msg_unread) :=
  ⟨⟨by decide, by decide, by decide, by decide⟩,
    ((cb_qsort_sbe_count_sign unreadEnv Mailbox.msg_unread (by decide)
      (Or.inr (Or.inl ⟨by decide, rfl⟩)) (by decide) unreadEnv_differences).1
      { addr := 1, mailbox := 1, is_hidden := false }
      { addr := 2, mailbox := 2, is_hidden := false } (by decide)).1⟩

/-- Without `$sidebar_new_mail_only` the filter pass hides no entry. -/
theorem update_entries_visibility_unfiltered (env : Env) (s : State)
    (hf : env.SidebarNewMailOnly = false) :
    ∀ e ∈ (update_entries_visibility env s).Entries, e.is_hidden = false := by
  intro e he
  obtain ⟨n, hn⟩ := List.mem_iff_getElem?.mp he
  simp only [update_entries_visibility, List.getElem?_mapIdx] at hn
  obtain ⟨e0, _, rfl⟩ := Option.map_eq_some'.mp hn
  rw [← Bool.not_eq_true, visibility_of_hidden_iff]
  rintro ⟨h, _⟩
  rw [hf] at h
  cases h

/-- Without `$sidebar_new_mail_only`, no entry is hidden after a run of
`prepare_sidebar` that returns true. -/
theorem prepare_sidebar_unfiltered_visible (env : Env) (q : Qsort) (s s' : State)
    (page_size : Int) (hf : env.SidebarNewMailOnly = false)
    (h : prepare_sidebar env q s page_size = some (true, s')) :
    ∀ e ∈ s'.Entries, e.is_hidden = false := by
  obtain ⟨o, hp, m, _, _, hm, hs', _⟩ := prepare_sidebar_spec env q s s' page_size h
  have hE0 := congrArg State.Entries hs'
  have hE : s'.Entries = m.Entries := hE0
  obtain ⟨f1, _⟩ := relocate_indices_fields env q s o hp
  intro e he
  rw [hE, hm, f1] at he
  exact update_entries_visibility_unfiltered env s hf e
    ((sort_entries_perm env q (update_entries_visibility env s)).mem_iff.mp he)

/-- The step `select_next` from an index within the array ends on a hidden
entry exactly when the entry at that index is hidden and none after it is
shown. -/
theorem select_next_lands_hidden (s : State) (h0 : 0 ≤ s.HilIndex)
    (h1 : s.HilIndex < s.EntryCount) :
    ∃ r e, select_next s = some r ∧ r.2.Entries = s.Entries ∧
      entryAt r.2.Entries r.2.HilIndex = some e ∧
      (e.is_hidden = true ↔
        (¬ visible_at s.Entries s.HilIndex ∧ ∀ j, s.HilIndex < j → ¬ visible_at s.Entries j)) := by
  rcases select_next_cases s h0 h1 with ⟨e1, e2⟩ | ⟨k, e1, e2, e3, e4⟩
  · obtain ⟨e, he⟩ := entryAt_of_range s.Entries s.HilIndex h0 h1
    refine ⟨_, e, e1, rfl, he, ?_⟩
    constructor
    · intro hh; exact ⟨not_visible_of_hidden he hh, e2⟩
    · rintro ⟨hnv, _⟩
      by_contra hc
      exact hnv (visible_of_not_hidden he (by simpa using hc))
  · obtain ⟨e, he, hv⟩ := visible_at_iff.mp e3
    refine ⟨_, e, e1, rfl, he, ?_⟩
    constructor
    · intro hh; rw [hv] at hh; cases hh
    · rintro ⟨_, hall⟩
      exact absurd e3 (hall k e2)

/-- The step `select_prev` from an index within the array ends on a hidden
entry exactly when the entry at that index is hidden and none before it is
shown. -/
theorem select_prev_lands_hidden (s : State) (h0 : 0 ≤ s.HilIndex)
    (h1 : s.HilIndex < s.EntryCount) :
    ∃ r e, select_prev s = some r ∧ r.2.Entries = s.Entries ∧
      entryAt r.2.Entries r.2.HilIndex = some e ∧
      (e.is_hidden = true ↔
        (¬ visible_at s.Entries s.HilIndex ∧ ∀ j, j < s.HilIndex → ¬ visible_at s.Entries j)) := by
  rcases select_prev_cases s h0 h1 with ⟨e1, e2⟩ | ⟨k, e1, e2, e3, e4⟩
  · obtain ⟨e, he⟩ := entryAt_of_range s.Entries s.HilIndex h0 h1
    refine ⟨_, e, e1, rfl, he, ?_⟩
    constructor
    · intro hh; exact ⟨not_visible_of_hidden he hh, e2⟩
    · rintro ⟨hnv, _⟩
      by_contra hc
      exact hnv (visible_of_not_hidden he (by simpa using hc))
  · obtain ⟨e, he, hv⟩ := visible_at_iff.mp e3
    refine ⟨_, e, e1, rfl, he, ?_⟩
    constructor
    · intro hh; rw [hv] at hh; cases hh
    · rintro ⟨_, hall⟩
      exact absurd e3 (hall k e2)

/-- C31, as stated, fails: in `twoEntryState`, produced by `prepare_sidebar`,
`BotIndex` is on the hidden last entry, the `select_next` step of
`select_page_down` fails and leaves `HilIndex` there, and the fallback
`select_prev` is what brings it back to index 0; in `hiddenFirstState`,
produced by `prepare_sidebar`, `TopIndex` is on the hidden first entry and the
`select_prev` step of `select_page_up` leaves `HilIndex` there. -/
theorem select_page_takes_fallback :
    (prepare_sidebar filterEnv insertionQsort
        (notify_all filterEnv (State.init sortConsts) [(some 1, true), (some 2, true)]) 5
      = some (true, twoEntryState) ∧
      select_next { twoEntryState with HilIndex := twoEntryState.BotIndex } =
        some (false, { twoEntryState with HilIndex := 1 }) ∧
      (entryAt twoEntryState.Entries 1).map SbEntry.is_hidden = some true ∧
      select_prev { twoEntryState with HilIndex := 1 } = some (true, twoEntryState) ∧
      select_page_down twoEntryState = some (false, twoEntryState)) ∧
    (prepare_sidebar filterEnv insertionQsort
        (notify_all filterEnv (State.init sortConsts) [(some 2, true), (some 1, true)]) 5
      = some (true, hiddenFirstState) ∧
      select_prev { hiddenFirstState with HilIndex := hiddenFirstState.TopIndex } =
        some (false, { hiddenFirstState with HilIndex := 0 }) ∧
      (entryAt hiddenFirstState.Entries 0).map SbEntry.is_hidden = some true ∧
      select_next { hiddenFirstState with HilIndex := 0 } = some (true, hiddenFirstState) ∧
      select_page_up hiddenFirstState = some (false, hiddenFirstState)) := by
  decide

/-- C31, amended: in every state produced by `prepare_sidebar` returning true,
the `select_next` step inside `select_page_down` (resp. the `select_prev` step
inside `select_page_up`) returns and leaves `HilIndex` on a hidden entry, so
that the fallback step is taken, exactly when the entry at `BotIndex` (resp.
`TopIndex`) is hidden and no entry after (resp. before) it is shown; it never
does when `SidebarNewMailOnly` is unset. -/
theorem select_page_fallback_iff (env : Env) (q : Qsort) (s s' : State) (page_size : Int)
    (h : prepare_sidebar env q s page_size = some (true, s')) :
    (∃ r e, select_next { s' with HilIndex := s'.BotIndex } = some r ∧
      entryAt r.2.Entries r.2.HilIndex = some e ∧
      (e.is_hidden = true ↔
        (¬ visible_at s'.Entries s'.BotIndex ∧
          ∀ j, s'.BotIndex < j → ¬ visible_at s'.Entries j)) ∧
      (env.SidebarNewMailOnly = false → e.is_hidden = false)) ∧
    (∃ r e, select_prev { s' with HilIndex := s'.TopIndex } = some r ∧
      entryAt r.2.Entries r.2.HilIndex = some e ∧
      (e.is_hidden = true ↔
        (¬ visible_at s'.Entries s'.TopIndex ∧
          ∀ j, j < s'.TopIndex → ¬ visible_at s'.Entries j)) ∧
      (env.SidebarNewMailOnly = false → e.is_hidden = false)) := by
  obtain ⟨_, _, m, _, _, _, hs', _, _, _, _, _, ⟨b1, b2, b3, b4⟩, _⟩ :=
    prepare_sidebar_spec env q s s' page_size h
  have hE0 := congrArg State.Entries hs'
  have hE : s'.Entries = m.Entries := hE0
  have hall := prepare_sidebar_unfiltered_visible env q s s' page_size
  have hmem : ∀ (t : State) (e : SbEntry), t.Entries = s'.Entries →
      entryAt t.Entries t.HilIndex = some e → e ∈ s'.Entries := by
    intro t e ht he
    rw [← ht]
    exact List.getElem?_mem (entryAt_eq_some he).2.2
  constructor
  · obtain ⟨r, e, h1, hr, h2, h3⟩ :=
      select_next_lands_hidden { s' with HilIndex := s'.BotIndex }
        (by show 0 ≤ s'.BotIndex; omega)
        (by show s'.BotIndex < (s'.Entries.length : Int); rw [hE]; omega)
    exact ⟨r, e, h1, h2, h3, fun hf => hall hf h e (hmem r.2 e hr h2)⟩
  · obtain ⟨r, e, h1, hr, h2, h3⟩ :=
      select_prev_lands_hidden { s' with HilIndex := s'.TopIndex }
        (by show 0 ≤ s'.TopIndex; omega)
        (by show s'.TopIndex < (s'.Entries.length : Int); rw [hE]; omega)
    exact ⟨r, e, h1, h2, h3, fun hf => hall hf h e (hmem r.2 e hr h2)⟩

/-- C31 as amended on `threeEntryState`, whose entries at `TopIndex` and
`BotIndex` are shown: neither step ends on a hidden entry. -/
theorem select_page_fallback_iff_witness :
    prepare_sidebar filterEnv insertionQsort threeEntryState 2 = some (true, threeEntryState) ∧
    visible_at threeEntryState.Entries threeEntryState.BotIndex ∧
    visible_at threeEntryState.Entries threeEntryState.TopIndex ∧
    (∃ r e, select_next { threeEntryState with HilIndex := threeEntryState.BotIndex } = some r ∧
      entryAt r.2.Entries r.2.HilIndex = some e ∧
      (e.is_hidden = true ↔
        (¬ visible_at threeEntryState.Entries threeEntryState.BotIndex ∧
          ∀ j, threeEntryState.BotIndex < j → ¬ visible_at threeEntryState.Entries j)) ∧
      (filterEnv.SidebarNewMailOnly = false → e.is_hidden = false)) :=
  ⟨by decide, by decide, by decide,
    (select_page_fallback_iff filterEnv insertionQsort threeEntryState threeEntryState 2
      (by decide)).1⟩

/-! ## The operations as `mutt_sb_change_mailbox` requests them, and repeated sort passes -/

/-- C12, as stated, fails: in `unreadHighlighted`, produced by the code, the
entry at index 1 is the only one whose folder has unread mail and the folder
of the entry at index 0 has `has_new` set; with wrap enabled,
`select_next_new` called with `HilIndex = 1` returns success and moves to
index 0, and called with `HilIndex = 2` it also stops at index 0, not at 1. -/
theorem select_next_new_stops_at_has_new :
    hasNewEnv.SidebarNextNewWrap = true ∧
    prepare_sidebar hasNewEnv insertionQsort
        (notify_all hasNewEnv (State.init sortConsts)
          [(some 2, true), (some 1, true), (some 4, true)]) 5
      = some (true, { unreadHighlighted with HilIndex := 0 }) ∧
    select_next { unreadHighlighted with HilIndex := 0 } = some (true, unreadHighlighted) ∧
    unreadHighlighted.Entries.map (fun e => (hasNewEnv.mbox e.mailbox).msg_unread) = [0, 3, 0] ∧
    unreadHighlighted.Entries.map (fun e => (hasNewEnv.mbox e.mailbox).has_new)
      = [true, false, false] ∧
    unreadHighlighted.HilIndex = 1 ∧
    select_next_new hasNewEnv unreadHighlighted =
      some (true, { unreadHighlighted with HilIndex := 0 }) ∧
    select_next_new hasNewEnv { unreadHighlighted with HilIndex := 2 } =
      some (true, { unreadHighlighted with HilIndex := 0 }) := by
  decide

/-- The message counts of `mixedCountEnv` are small and not negative. -/
theorem mixedCountEnv_range (p : Ptr) :
    0 ≤ (mixedCountEnv.mbox p).msg_count ∧ (mixedCountEnv.mbox p).msg_count < 2147483648 := by
  show 0 ≤ (if p = 1 then (2 : Int) else if p = 2 then 7 else 0) ∧
    (if p = 1 then (2 : Int) else if p = 2 then 7 else 0) < 2147483648
  split_ifs <;> constructor <;> norm_num

/-- C18 on `threeEntryState`, whose folders 1, 2 and 3 have the message counts
2, 7 and 0: sorted by count the folders come in the order 2, 1, 3, and with
the reverse flag in the order 3, 1, 2. -/
theorem sort_entries_count_order_witness :
    (insertionQsort.sorts ∧ mixedCountEnv.consts.distinct ∧
      collation_consistent mixedCountEnv.mutt_str_strcoll ∧
      mixedCountEnv.SidebarSortMethod &&& mixedCountEnv.consts.SORT_MASK =
        mixedCountEnv.consts.SORT_COUNT ∧
      mixedCountEnv.SidebarSortMethod &&& mixedCountEnv.consts.SORT_REVERSE = 0 ∧
      mixedCountReverseEnv.SidebarSortMethod &&& mixedCountReverseEnv.consts.SORT_MASK =
        mixedCountReverseEnv.consts.SORT_COUNT ∧
      mixedCountReverseEnv.SidebarSortMethod &&& mixedCountReverseEnv.consts.SORT_REVERSE ≠ 0) ∧
    (threeEntryState.Entries.map (fun e => (mixedCountEnv.mbox e.mailbox).msg_count) = [2, 7, 0] ∧
      (sort_entries mixedCountEnv insertionQsort threeEntryState).Entries.map SbEntry.mailbox
        = [2, 1, 3] ∧
      (sort_entries mixedCountReverseEnv insertionQsort threeEntryState).Entries.map
        SbEntry.mailbox = [3, 1, 2]) ∧
    (sort_entries mixedCountEnv insertionQsort threeEntryState).Entries.Pairwise (fun a b =>
      (mixedCountEnv.mbox b.mailbox).msg_count ≤ (mixedCountEnv.mbox a.mailbox).msg_count ∧
      ((mixedCountEnv.mbox a.mailbox).msg_count = (mixedCountEnv.mbox b.mailbox).msg_count →
        mixedCountEnv.mutt_str_strcoll (mixedCountEnv.mbox a.mailbox).path
          (mixedCountEnv.mbox b.mailbox).path ≤ 0)) ∧
    (sort_entries mixedCountReverseEnv insertionQsort threeEntryState).Entries.Pairwise
      (fun a b =>
        (mixedCountReverseEnv.mbox a.mailbox).msg_count ≤
          (mixedCountReverseEnv.mbox b.mailbox).msg_count ∧
        ((mixedCountReverseEnv.mbox a.mailbox).msg_count =
            (mixedCountReverseEnv.mbox b.mailbox).msg_count →
          0 ≤ mixedCountReverseEnv.mutt_str_strcoll (mixedCountReverseEnv.mbox a.mailbox).path
            (mixedCountReverseEnv.mbox b.mailbox).path)) :=
  ⟨⟨insertionQsort_sorts, by decide, strcmp_collation_consistent, by decide, by decide,
      by decide, by decide⟩,
    ⟨by decide, by decide, by decide⟩,
    (sort_entries_count_order mixedCountEnv insertionQsort threeEntryState Mailbox.msg_count
      insertionQsort_sorts (by decide) strcmp_collation_consistent (Or.inl ⟨by decide, rfl⟩)
      mixedCountEnv_range).1 (by decide),
    (sort_entries_count_order mixedCountReverseEnv insertionQsort threeEntryState
      Mailbox.msg_count insertionQsort_sorts (by decide) strcmp_collation_consistent
      (Or.inl ⟨by decide, rfl⟩) mixedCountEnv_range).2 (by decide)⟩

end Sidebar
